import Mathlib

/-!
Spell-cast resolution engine (`shared/game/single_cast_state.cpp`)

A shallow embedding of the parts of `SingleCastState` that the specification
talks about, of the gold exchange of a trade session
(`servers/world/trade_data.cpp`) and of the social list of a player
(`realm/player_social.cpp`), followed by the theorems that settle its claims.

Conventions of the embedding

* Unsigned machine integers are natural numbers, reduced modulo `2 ^ 32` where
  the source can wrap; signed ones are integers.
* Single and double precision values are rationals; every floating-point
  operation of the source is followed by the rounding of its result type
  (`f32`, `f64`: round to nearest, ties to even, unbounded exponent).
* Calls into collaborators (packets, signals, effect handlers) are recorded as
  events of a log, in the order in which the source performs them.
-/

namespace WowPP

/-! ## Effect kinds and the dispatch table -/

/-- Modelled from the spec: the effect kinds of `game::spell_effects`, an
enumeration that is not part of the sources at hand.  The twenty-eight kinds
named by the dispatch table of `applyAllEffects` are kept by name (distinct
enumerators denote distinct values); every other kind is `Unhandled code`. -/
inductive SpellEffectKind where
  | InstantKill | PowerDrain | Heal | Bind | QuestComplete | Proficiency
  | AddComboPoints | Duel | WeaponDamageNoSchool | CreateItem | WeaponDamage
  | TeleportUnits | TriggerSpell | Energize | WeaponPercentDamage | PowerBurn
  | Charge | OpenLock | OpenLockItem | ApplyAreaAuraParty | Dispel | Summon
  | ScriptEffect | AttackMe | NormalizedWeaponDmg | StealBeneficialBuff
  | ApplyAura | SchoolDamage
  | Unhandled (code : Nat)
  deriving DecidableEq, Repr

/-- The member functions bound in the dispatch table of `applyAllEffects`. -/
inductive EffectHandler where
  | spellEffectInstantKill | spellEffectDrainPower | spellEffectHeal
  | spellEffectBind | spellEffectQuestComplete | spellEffectProficiency
  | spellEffectAddComboPoints | spellEffectDuel
  | spellEffectWeaponDamageNoSchool | spellEffectCreateItem
  | spellEffectWeaponDamage | spellEffectTeleportUnits
  | spellEffectTriggerSpell | spellEffectEnergize
  | spellEffectWeaponPercentDamage | spellEffectPowerBurn | spellEffectCharge
  | spellEffectOpenLock | spellEffectApplyAreaAuraParty | spellEffectDispel
  | spellEffectSummon | spellEffectScript | spellEffectAttackMe
  | spellEffectNormalizedWeaponDamage | spellEffectStealBeneficialBuff
  | spellEffectApplyAura | spellEffectSchoolDamage
  deriving DecidableEq, Repr

/-- Modelled from the spec: the values of `game::aura_type` that
`spellEffectApplyAura` tells apart; the enumeration is not part of the sources
at hand, every other value is `Other`. -/
inductive AuraType where
  | PeriodicDamage | PeriodicHeal | PeriodicLeech
  | Other (id : Nat)
  deriving DecidableEq, Repr

/-- The fields of `proto::SpellEffect` read by the code embedded here. -/
structure SpellEffect where
  type : SpellEffectKind
  basepoints : Int := 0
  diesides : Int := 0
  basedice : Int := 0
  diceperlevel : ℚ := 0
  pointsperlevel : ℚ := 0
  pointspercombopoint : ℚ := 0
  multiplevalue : ℚ := 0
  miscvaluea : Int := 0
  aura : AuraType := .Other 0
  deriving DecidableEq

/-- The vector `effectMap` of `applyAllEffects`, in source order
(`single_cast_state.cpp`, lines 1404-1435). -/
def effectMap : List (SpellEffectKind × EffectHandler) :=
  [ (.InstantKill, .spellEffectInstantKill),
    (.PowerDrain, .spellEffectDrainPower),
    (.Heal, .spellEffectHeal),
    (.Bind, .spellEffectBind),
    (.QuestComplete, .spellEffectQuestComplete),
    (.Proficiency, .spellEffectProficiency),
    (.AddComboPoints, .spellEffectAddComboPoints),
    (.Duel, .spellEffectDuel),
    (.WeaponDamageNoSchool, .spellEffectWeaponDamageNoSchool),
    (.CreateItem, .spellEffectCreateItem),
    (.WeaponDamage, .spellEffectWeaponDamage),
    (.TeleportUnits, .spellEffectTeleportUnits),
    (.TriggerSpell, .spellEffectTriggerSpell),
    (.Energize, .spellEffectEnergize),
    (.WeaponPercentDamage, .spellEffectWeaponPercentDamage),
    (.PowerBurn, .spellEffectPowerBurn),
    (.Charge, .spellEffectCharge),
    (.OpenLock, .spellEffectOpenLock),
    (.OpenLockItem, .spellEffectOpenLock),
    (.ApplyAreaAuraParty, .spellEffectApplyAreaAuraParty),
    (.Dispel, .spellEffectDispel),
    (.Summon, .spellEffectSummon),
    (.ScriptEffect, .spellEffectScript),
    (.AttackMe, .spellEffectAttackMe),
    (.NormalizedWeaponDmg, .spellEffectNormalizedWeaponDamage),
    (.StealBeneficialBuff, .spellEffectStealBeneficialBuff),
    (.ApplyAura, .spellEffectApplyAura),
    (.SchoolDamage, .spellEffectSchoolDamage) ]

/-- The inner loop of `applyAllEffects` (lines 1439-1446) for one table entry:
`k` runs over the effect slots in declaration order and the entry's handler is
called, through `call`, on every slot whose kind equals the entry's kind. -/
def effectSlotLoop {σ : Type} (call : EffectHandler → Nat → SpellEffect → σ → σ)
    (entry : SpellEffectKind × EffectHandler) : Nat → List SpellEffect → σ → σ
  | _, [], s => s
  | k, e :: rest, s =>
    effectSlotLoop call entry (k + 1) rest
      (if entry.1 = e.type then call entry.2 k e s else s)

/-- The outer loop of `applyAllEffects` (line 1437): the table entries are
visited first to last, each running the slot loop over all declared effects. -/
def effectTableLoop {σ : Type} (call : EffectHandler → Nat → SpellEffect → σ → σ)
    : List (SpellEffectKind × EffectHandler) → List SpellEffect → σ → σ
  | [], _, s => s
  | entry :: table, effects, s =>
    effectTableLoop call table effects (effectSlotLoop call entry 0 effects s)

/-- The handler dispatch of `applyAllEffects` (lines 1396-1447) over an
arbitrary handler semantics `call`. -/
def dispatchEffects {σ : Type} (call : EffectHandler → Nat → SpellEffect → σ → σ)
    (effects : List SpellEffect) (s : σ) : σ :=
  effectTableLoop call effectMap effects s

/-- One handler call: which handler, on which effect slot, with which effect. -/
structure Invocation where
  handler : EffectHandler
  slot : Nat
  effect : SpellEffect
  deriving DecidableEq

/-- Handler semantics that only records the call. -/
def recordCall (h : EffectHandler) (k : Nat) (e : SpellEffect)
    (log : List Invocation) : List Invocation :=
  log ++ [⟨h, k, e⟩]

/-- The sequence of handler calls performed by `applyAllEffects`. -/
def dispatchTrace (effects : List SpellEffect) : List Invocation :=
  dispatchEffects recordCall effects []

/-- Position of a kind in the dispatch table (`effectMap.length` when absent). -/
def tablePos (kind : SpellEffectKind) : Nat :=
  (effectMap.map Prod.fst).indexOf kind

/-- Whether a kind has an entry in the dispatch table. -/
def inTable (kind : SpellEffectKind) : Bool :=
  decide (kind ∈ effectMap.map Prod.fst)

/-! ## Floating-point and integer conversions -/

/-- Floor of the binary logarithm of a positive natural number, by repeated
halving (`fuel` bounds the number of halvings). -/
def log2Nat : Nat → Nat → Nat
  | 0, _ => 0
  | fuel + 1, n => if n < 2 then 0 else log2Nat fuel (n / 2) + 1

/-- Floor of the binary logarithm of the magnitude of a nonzero rational. -/
def ilog2 (q : ℚ) : ℤ :=
  let a := q.num.natAbs
  let b := q.den
  let d : ℤ := (log2Nat a a : ℤ) - (log2Nat b b : ℤ)
  if (2 : ℚ) ^ d ≤ |q| then d else d - 1

/-- Rounding of a rational to the nearest integer, ties to the even one. -/
def roundHalfEven (q : ℚ) : ℤ :=
  let f := ⌊q⌋
  let r := q - f
  if r < 1 / 2 then f else if 1 / 2 < r then f + 1 else if f % 2 = 0 then f else f + 1

/-- Rounding to the nearest binary floating-point number with a significand of
`p` bits, ties to even (the default IEEE 754 rounding of the arithmetic of
the source); the exponent range is not bounded. -/
def fround (p : Nat) (q : ℚ) : ℚ :=
  if q = 0 then 0 else
    let e : ℤ := ilog2 q - ((p : ℤ) - 1)
    (roundHalfEven (q / 2 ^ e) : ℚ) * 2 ^ e

/-- Rounding to `float` (24-bit significand). -/
def f32 (q : ℚ) : ℚ := fround 24 q

/-- Rounding to `double` (53-bit significand). -/
def f64 (q : ℚ) : ℚ := fround 53 q

/-- Conversion of a floating-point value to a signed integer: truncation
toward zero. -/
def truncToInt (q : ℚ) : ℤ := if 0 ≤ q then ⌊q⌋ else -⌊-q⌋

/-- Conversion of a floating-point value to `UInt32`: truncation toward zero,
undefined (`none`) when the truncated value is not a `UInt32`. -/
def floatToUInt32 (q : ℚ) : Option Nat :=
  let t := truncToInt q
  if 0 ≤ t ∧ t < 2 ^ 32 then some t.toNat else none

/-- The value produced by `std::uniform_int_distribution<int>(a, b)` from the
raw output `raw` of the random engine, for `a ≤ b`: a number of `[a, b]`. -/
def uniformInt (a b : Int) (raw : Nat) : Int :=
  a + ((raw % (b - a + 1).toNat : Nat) : Int)

/-! ## Spells, units and the cast state -/

/-- The values of `game::PowerType` used by `consumePower`. -/
inductive PowerType where
  | Mana | Rage | Focus | Energy | Happiness | Health
  deriving DecidableEq, Repr

/-- The fields of `proto::SpellEntry` read by the code embedded here.  The
attribute bit masks of `game::spell_attributes` are not part of the sources
at hand; each tested bit is a boolean field. -/
structure SpellEntry where
  id : Nat := 0
  /-- Bit `Passive` of `attributes(0)`. -/
  passive : Bool := false
  /-- Bit `OnNextSwing` of `attributes(0)`. -/
  onNextSwing : Bool := false
  /-- Bit `OnNextSwing_2` of `attributes(0)`. -/
  onNextSwing2 : Bool := false
  /-- Bit `ReqComboPoints_1` of `attributes(1)`. -/
  reqComboPoints1 : Bool := false
  /-- Bit `MeleeCombatStart` of `attributes(1)`. -/
  meleeCombatStart : Bool := false
  minrange : ℚ := 0
  maxrange : ℚ := 0
  /-- Bit `0x01` of `facing()`. -/
  facingFront : Bool := false
  speed : ℚ := 0
  cost : Nat := 0
  costpct : Nat := 0
  powertype : PowerType := .Mana
  maxlevel : Nat := 0
  baselevel : Nat := 0
  spelllevel : Nat := 0
  effects : List SpellEffect := []
  additionalspells : List Nat := []

/-- The caster (`m_cast.getExecuter()`): the unit fields and accessors that the
cast reads or writes. -/
structure GameUnit where
  /-- The caster is a player character: `isPlayerGUID(getGuid())` holds and the
  cast to `GameCharacter` succeeds (`isGameCharacter()`). -/
  isCharacter : Bool := false
  level : Nat := 1
  comboPoints : Nat := 0
  /-- Field `unit_fields::Health`. -/
  health : Nat := 0
  /-- Field `unit_fields::BaseHealth`. -/
  baseHealth : Nat := 0
  /-- Field `unit_fields::BaseMana`. -/
  baseMana : Nat := 0
  /-- Fields `unit_fields::Power1` to `Power5`. -/
  mana : Nat := 0
  rage : Nat := 0
  focus : Nat := 0
  energy : Nat := 0
  happiness : Nat := 0
  /-- Number of calls of `notifyManaUse()`. -/
  manaUses : Nat := 0
  deriving DecidableEq, Repr

/-- Read of `unit_fields::Power1 + powertype` (`Health` for the health type). -/
def GameUnit.getPower (u : GameUnit) : PowerType → Nat
  | .Mana => u.mana
  | .Rage => u.rage
  | .Focus => u.focus
  | .Energy => u.energy
  | .Happiness => u.happiness
  | .Health => u.health

/-- Write of `unit_fields::Power1 + powertype` (`Health` for the health type). -/
def GameUnit.setPower (u : GameUnit) (t : PowerType) (v : Nat) : GameUnit :=
  match t with
  | .Mana => { u with mana := v }
  | .Rage => { u with rage := v }
  | .Focus => { u with focus := v }
  | .Energy => { u with energy := v }
  | .Happiness => { u with happiness := v }
  | .Health => { u with health := v }

/-- The target selection of a cast (`SpellTargetMap`): the target flags and the
unit target identifier. -/
structure SpellTargetMap where
  targetMap : Nat := 0
  unitTarget : Nat := 0
  deriving DecidableEq, Repr

/-- The values of `game::SpellCastResult` used by the code embedded here. -/
inductive SpellCastResult where
  | CastOkay | FailedSpellInProgress | FailedTooClose | FailedOutOfRange
  | FailedLineOfSight | FailedUnitNotInfront | FailedNoPower
  | FailedItemNotFound
  deriving DecidableEq, Repr

/-- The arguments of a cast request (`startCast`, `castSpell`). -/
structure CastRequest where
  spell : Nat
  target : SpellTargetMap
  basePoints : Int
  castTime : Nat
  isProc : Bool := false
  itemGuid : Nat := 0
  deriving DecidableEq, Repr

/-- The calls that a cast makes into its collaborators. -/
inductive Event where
  /-- Packet `spellStart`, sent by the constructor. -/
  | spellStart
  /-- Call `spellCastError(m_spell, code)` on the caster. -/
  | spellCastError (code : SpellCastResult)
  /-- Packet `spellGo`, the success notification of `sendEndCast(true)`. -/
  | spellGo
  /-- Packet `spellFailure`, first failure notification of `sendEndCast(false)`. -/
  | spellFailure
  /-- Packet `spellFailedOther`, second notification of `sendEndCast(false)`. -/
  | spellFailedOther
  /-- Signal `m_casting.ended(success)`. -/
  | ended (success : Bool)
  /-- Call of an effect handler on an effect slot. -/
  | effectHandler (call : Invocation)
  /-- Signal `completedEffects()`. -/
  | completedEffects
  /-- Call `castSpell(target, spell, basePoints, castTime, isProc)` on the caster. -/
  | castSpell (request : CastRequest)
  /-- Call `removeItem(slot, count)` on the inventory, with result `Okay`. -/
  | removeItem (slot count : Nat)
  /-- Call `inventoryChangeFailure` on the character. -/
  | inventoryChangeFailure
  /-- Call `setAttackSwingCallback` on the caster. -/
  | setAttackSwingCallback
  /-- Call `addComboPoints(0, 0)` on the character. -/
  | resetComboPoints
  /-- Calls `setVictim` and `startAttack` on the caster. -/
  | startAttack
  deriving DecidableEq

/-- Modelled from the spec: the `Countdown` primitive, whose implementation is
not part of the sources at hand: a cancelable one-shot timer, `running` after
`setEnd` until it is cancelled or fires. -/
structure Countdown where
  running : Bool := false
  endTime : Nat := 0
  deriving DecidableEq, Repr

/-- Method `Countdown::setEnd`. -/
def Countdown.setEnd (_c : Countdown) (endTime : Nat) : Countdown :=
  { running := true, endTime := endTime }

/-- Method `Countdown::cancel`. -/
def Countdown.cancel (c : Countdown) : Countdown :=
  { c with running := false }

/-- What the Cast Context `m_cast` holds as its state. -/
inductive CastStateSlot where
  /-- The cast under consideration. -/
  | thisCast
  /-- A `NoCastState`: the context is idle. -/
  | noCastState
  /-- A cast newly created by `castSpell` from a request. -/
  | newCast (request : CastRequest)
  deriving DecidableEq

/-- The Cast Context (`SpellCast`, member `m_cast`): the caster, the state it
holds and the log of the calls made so far. -/
structure SpellCast where
  executer : GameUnit := {}
  state : CastStateSlot := .thisCast
  log : List Event := []

/-- The member variables of `SingleCastState`. -/
structure SingleCastState where
  cast : SpellCast := {}
  spell : SpellEntry := {}
  target : SpellTargetMap := {}
  hasFinished : Bool := false
  countdown : Countdown := {}
  impactCountdown : Countdown := {}
  castTime : Nat := 0
  basePoints : Int := -1
  isProc : Bool := false
  itemGuid : Nat := 0
  projectileStart : Nat := 0
  projectileEnd : Nat := 0
  x : ℚ := 0
  y : ℚ := 0
  z : ℚ := 0
  /-- Member `m_projectileOrigin`. -/
  projectileOrigin : ℚ × ℚ × ℚ := (0, 0, 0)
  /-- Member `m_meleeDamage`: the damage accumulated per target. -/
  meleeDamage : List Nat := []
  /-- The connection `m_onTargetDied` is connected. -/
  onTargetDied : Bool := false
  /-- The connection `m_onTargetRemoved` is connected. -/
  onTargetRemoved : Bool := false
  /-- The connection `m_onUserMoved` is connected. -/
  onUserMoved : Bool := false
  /-- The connection `m_onTargetMoved` is connected. -/
  onTargetMoved : Bool := false

/-- Append an event to the log of the Cast Context. -/
def SingleCastState.emit (s : SingleCastState) (e : Event) : SingleCastState :=
  { s with cast := { s.cast with log := s.cast.log ++ [e] } }

/-- Replace the caster's unit fields. -/
def SingleCastState.setExecuter (s : SingleCastState) (u : GameUnit) : SingleCastState :=
  { s with cast := { s.cast with executer := u } }

/-- What a cast reads from the unit that its target resolves to. -/
structure UnitTarget where
  /-- Field `unit_fields::CombatReach` of the target. -/
  combatReach : ℚ := 0
  /-- Result of `getDistanceTo` from the caster. -/
  distance : ℚ := 0
  /-- Result of `isInLineOfSight` from the caster. -/
  inLineOfSight : Bool := true
  /-- Result of `isInArc` for the 120 degree arc of the caster. -/
  inArc : Bool := true

/-- One entry of the `spells()` of an item entry. -/
structure ItemSpell where
  spell : Nat
  trigger : Nat := 0
  charges : Nat := 0

/-- The values of `game::InventoryChangeFailure`: `Okay` or a failure code. -/
inductive InventoryChangeFailure where
  | Okay
  | failure (code : Nat)
  deriving DecidableEq

/-- What a call of the cast reads from the live world: the answers of the
collaborators that are not part of the sources at hand. -/
structure World where
  /-- The caster's `getWorldInstance()` is not null. -/
  hasWorldInstance : Bool := true
  /-- Result of `getCurrentTime()`. -/
  currentTime : Nat := 0
  /-- Result of `getLocation()` on the caster. -/
  location : ℚ × ℚ × ℚ := (0, 0, 0)
  /-- Field `unit_fields::CombatReach` of the caster. -/
  combatReach : ℚ := 0
  /-- The unit found by `m_target.resolvePointers`, if any. -/
  unitTarget : Option UnitTarget := none
  /-- Result of `findItemByGUID` on the caster's inventory: the slot. -/
  findItemByGUID : Nat → Option Nat := fun _ => none
  /-- Result of `getItemAtSlot`: the `spells()` of the item entry. -/
  getItemAtSlot : Nat → Option (List ItemSpell) := fun _ => none
  /-- Result of `removeItem(slot, count)`. -/
  removeItem : Nat → Nat → InventoryChangeFailure := fun _ _ => .Okay
  /-- The unit target is found by `findObjectByGUID` and is a unit. -/
  attackTargetFound : Bool := false
  /-- The cast object still exists after the observers of `ended` have run
  (`weakThis.lock()` in `stopCast`). -/
  aliveAfterEnded : Bool := true

/-! ## Base points -/

/-- The local `comboPoints` of `calculateEffectBasePoints` (lines 942-948): the
combo points of a player character, `0` for any other caster. -/
def casterComboPoints (s : SingleCastState) : Int :=
  if s.cast.executer.isCharacter then (s.cast.executer.comboPoints : Int) else 0

/-- The local `level` of `calculateEffectBasePoints` (lines 950-959). -/
def scaledLevel (s : SingleCastState) : Int :=
  let level : Int := (s.cast.executer.level : Int)
  let level : Int :=
    if level > (s.spell.maxlevel : Int) ∧ (s.spell.maxlevel : Int) > 0 then
      (s.spell.maxlevel : Int)
    else if level < (s.spell.baselevel : Int) then (s.spell.baselevel : Int)
    else level
  level - (s.spell.spelllevel : Int)

/-- The local `basePoints` of `calculateEffectBasePoints` (line 964): an
`Int32` plus the single-precision product, converted to `Int32`. -/
def effectBasePoints (s : SingleCastState) (effect : SpellEffect) : Int :=
  let basePointsPerLevel : ℚ := effect.pointsperlevel
  truncToInt (f32
    (f32 ((if s.basePoints = -1 then effect.basepoints else s.basePoints : Int) : ℚ)
      + f32 (f32 (scaledLevel s : ℚ) * basePointsPerLevel)))

/-- The local `randomPoints` of `calculateEffectBasePoints` (line 965). -/
def effectRandomPoints (s : SingleCastState) (effect : SpellEffect) : Int :=
  let randomPointsPerLevel : ℚ := effect.diceperlevel
  truncToInt (f32
    (f32 (effect.diesides : ℚ) + f32 (f32 (scaledLevel s : ℚ) * randomPointsPerLevel)))

/-- The local `comboDamage` of `calculateEffectBasePoints` (line 966).  The
field `pointspercombopoint` is taken to be single precision, like the other
per-unit factors of the effect. -/
def effectComboDamage (s : SingleCastState) (effect : SpellEffect) : Int :=
  truncToInt (f32 (effect.pointspercombopoint * f32 (casterComboPoints s : ℚ)))

/-- Method `SingleCastState::calculateEffectBasePoints` (lines 940-972); `raw`
is the next output of the random engine, consumed only when the distribution
is sampled.  `Int32` arithmetic is integer arithmetic: the source leaves
overflow undefined. -/
def calculateEffectBasePoints (s : SingleCastState) (effect : SpellEffect)
    (raw : Nat) : Int :=
  let basePoints := effectBasePoints s effect
  let randomPoints := effectRandomPoints s effect
  let comboDamage := effectComboDamage s effect
  let randomValue : Int :=
    if effect.basedice ≥ randomPoints then effect.basedice
    else uniformInt effect.basedice randomPoints raw
  basePoints + randomValue + comboDamage

/-- Method `SingleCastState::getSpellPointsTotal` (lines 974-984).  The result
is `none` where the final conversion to `UInt32` is undefined. -/
def getSpellPointsTotal (s : SingleCastState) (effect : SpellEffect)
    (spellPower bonusPct : Nat) (raw : Nat) : Option Nat :=
  let basePoints : Int := calculateEffectBasePoints s effect raw
  let castTime0 : ℚ := f32 (s.castTime : ℚ)
  let castTime : ℚ := if castTime0 < 1500 then 1500 else castTime0
  let spellAddCoefficient : ℚ := f32 (f64 (castTime / 3500))
  let bonusModificator : ℚ := f32 (((1 + bonusPct / 100) % 2 ^ 32 : Nat) : ℚ)
  floatToUInt32
    (f32 (f32 (f32 (basePoints : ℚ) + f32 (spellAddCoefficient * f32 (spellPower : ℚ)))
      * bonusModificator))

/-! ### The base-points algorithm in the words of the specification -/

/-- Level of the specification: the caster level clamped to
`[baseLevel, maxLevel]` (the upper bound only when `maxLevel > 0`), minus the
spell level. -/
def specLevel (s : SingleCastState) : Int :=
  let lower : Int := max (s.cast.executer.level : Int) (s.spell.baselevel : Int)
  (if s.spell.maxlevel > 0 then min lower (s.spell.maxlevel : Int) else lower)
    - (s.spell.spelllevel : Int)

/-- Base of the specification: the override when one was given (not the
sentinel `-1`), else the base points of the effect, plus level times points per
level, in single precision, truncated to an integer. -/
def specBase (s : SingleCastState) (effect : SpellEffect) : Int :=
  let start : Int := if s.basePoints ≠ -1 then s.basePoints else effect.basepoints
  truncToInt (f32 (f32 (start : ℚ) + f32 (f32 (specLevel s : ℚ) * effect.pointsperlevel)))

/-- Random range of the specification: die sides plus level times dice per
level, in single precision, truncated to an integer. -/
def specRandomRange (s : SingleCastState) (effect : SpellEffect) : Int :=
  truncToInt (f32 (f32 (effect.diesides : ℚ)
    + f32 (f32 (specLevel s : ℚ) * effect.diceperlevel)))

/-- Random value of the specification: the base dice when they reach the random
range, else the value drawn from `[baseDice, randomRange]`. -/
def specRandomValue (s : SingleCastState) (effect : SpellEffect) (raw : Nat) : Int :=
  if effect.basedice ≥ specRandomRange s effect then effect.basedice
  else uniformInt effect.basedice (specRandomRange s effect) raw

/-- Combo bonus of the specification: points per combo point times the combo
points of the caster (none for a caster that is not a player), in single
precision, truncated to an integer. -/
def specComboBonus (s : SingleCastState) (effect : SpellEffect) : Int :=
  let comboPoints : Int :=
    if s.cast.executer.isCharacter then (s.cast.executer.comboPoints : Int) else 0
  truncToInt (f32 (effect.pointspercombopoint * f32 (comboPoints : ℚ)))

/-! ## The cast life cycle -/

/-- Method `SingleCastState::sendEndCast` (lines 212-258): nothing is sent when
the caster has no world instance or the spell is passive. -/
def sendEndCast (w : World) (success : Bool) (s : SingleCastState) : SingleCastState :=
  if !w.hasWorldInstance || s.spell.passive then s
  else if success then s.emit .spellGo
  else (s.emit .spellFailure).emit .spellFailedOther

/-- The local `totalCost` of `consumePower` (lines 1512-1531), in `UInt32`
arithmetic. -/
def totalCost (s : SingleCastState) : Nat :=
  if s.spell.cost > 0 then s.spell.cost
  else if s.spell.costpct > 0 then
    match s.spell.powertype with
    | .Health => (s.cast.executer.baseHealth * s.spell.costpct) % 2 ^ 32 / 100
    | .Mana => (s.cast.executer.baseMana * s.spell.costpct) % 2 ^ 32 / 100
    | _ => 0
  else 0

/-- Method `SingleCastState::consumePower` (lines 1510-1573): the returned flag
and the state after the call. -/
def consumePower (w : World) (s : SingleCastState) : Bool × SingleCastState :=
  let totalCost := totalCost s
  if totalCost > 0 then
    if s.spell.powertype = .Health then
      let currentHealth := s.cast.executer.health
      if currentHealth < totalCost then
        (false, { sendEndCast w false s with hasFinished := true })
      else
        (true, s.setExecuter { s.cast.executer with health := currentHealth - totalCost })
    else
      let currentPower := s.cast.executer.getPower s.spell.powertype
      if currentPower < totalCost then
        (false, { sendEndCast w false s with hasFinished := true })
      else
        let executer := s.cast.executer.setPower s.spell.powertype (currentPower - totalCost)
        let executer :=
          if s.spell.powertype = .Mana then { executer with manaUses := executer.manaUses + 1 }
          else executer
        (true, s.setExecuter executer)
  else (true, s)

/-- Method `SingleCastState::consumeItem` (lines 1458-1508). -/
def consumeItem (w : World) (s : SingleCastState) : Bool × SingleCastState :=
  if s.itemGuid = 0 then (true, s)
  else if s.cast.executer.isCharacter then
    match w.findItemByGUID s.itemGuid with
    | none => (false, s)
    | some itemSlot =>
      match w.getItemAtSlot itemSlot with
      | none => (false, s)
      | some spells =>
        match spells.find? (fun spell =>
            spell.spell == s.spell.id && (spell.trigger == 0 || spell.trigger == 5)) with
        | none => (true, s)
        | some spell =>
          if spell.charges = 2 ^ 32 - 1 then
            match w.removeItem itemSlot 1 with
            | .Okay => (true, s.emit (.removeItem itemSlot 1))
            | .failure _ => (false, s.emit .inventoryChangeFailure)
          else (true, s)
  else (true, s)

/-- Method `SingleCastState::applyAllEffects`, from the handler dispatch on
(lines 1396-1456).  The cooldown bookkeeping before it (lines 1334-1391)
writes only the cooldown table of the caster, which is not part of the
state. -/
def applyAllEffects (s : SingleCastState) : SingleCastState :=
  let s :=
    dispatchEffects (fun h k e st => st.emit (.effectHandler ⟨h, k, e⟩)) s.spell.effects s
  let s := s.emit .completedEffects
  s.spell.additionalspells.foldl
    (fun st spell => st.emit (.castSpell
      { spell := spell, target := s.target, basePoints := -1, castTime := 0, isProc := true }))
    s

/-- The travel time `timeMS` of `onCastFinished` (line 399): distance over
speed times 1000 in single precision, converted to `GameTime`. -/
def travelTimeMS (dist speed : ℚ) : Nat :=
  (truncToInt (f32 (f32 (dist / speed) * 1000))).toNat

/-- The validations of `onCastFinished` for a cast with a cast time (lines
270-347): `some` state when the completion is aborted, `none` when all checks
pass. -/
def validateCastFinished (w : World) (s : SingleCastState) : Option SingleCastState :=
  let fail (code : SpellCastResult) : Option SingleCastState :=
    some { sendEndCast w false (s.emit (.spellCastError code)) with hasFinished := true }
  if s.castTime > 0 then
    if !w.hasWorldInstance then some { s with hasFinished := true }
    else
      let rangeAndSight : Option SingleCastState :=
        if s.spell.minrange ≠ 0 ∨ s.spell.maxrange ≠ 0 then
          match w.unitTarget with
          | some unitTarget =>
            let combatReach := f32 (unitTarget.combatReach + w.combatReach)
            let distance := unitTarget.distance
            if s.spell.minrange > 0 ∧ distance < s.spell.minrange then
              fail .FailedTooClose
            else if s.spell.maxrange > 0 ∧ distance > f32 (s.spell.maxrange + combatReach) then
              fail .FailedOutOfRange
            else if !unitTarget.inLineOfSight then fail .FailedLineOfSight
            else none
          | none => none
        else none
      match rangeAndSight with
      | some aborted => some aborted
      | none =>
        if s.spell.facingFront then
          match w.unitTarget with
          | some unitTarget =>
            if !unitTarget.inArc then fail .FailedUnitNotInfront else none
          | none => none
        else none
  else none

/-- The end of `onCastFinished` (lines 456-488): combo points (the call
`addComboPoints(0, 0)` resets them), auto attack and the `ended(true)` signal. -/
def finishCast (w : World) (s : SingleCastState) : SingleCastState :=
  let s :=
    if s.spell.reqComboPoints1 && s.cast.executer.isCharacter then
      (s.emit .resetComboPoints).setExecuter { s.cast.executer with comboPoints := 0 }
    else s
  let s :=
    if s.spell.meleeCombatStart && w.attackTargetFound then s.emit .startAttack else s
  s.emit (.ended true)

/-- Method `SingleCastState::onCastFinished` (lines 260-489). -/
def onCastFinished (w : World) (s : SingleCastState) : SingleCastState :=
  match validateCastFinished w s with
  | some aborted => aborted
  | none =>
    let s := { s with hasFinished := true }
    if s.spell.onNextSwing || s.spell.onNextSwing2 then
      finishCast w (s.emit .setAttackSwingCallback)
    else
      match consumePower w s with
      | (false, s) => s
      | (true, s) =>
        match consumeItem w s with
        | (false, s) => s
        | (true, s) =>
          let s := sendEndCast w true s
          if s.spell.speed > 0 then
            if w.hasWorldInstance then
              match w.unitTarget with
              | some unitTarget =>
                let timeMS := travelTimeMS unitTarget.distance s.spell.speed
                if timeMS ≥ 50 then
                  let projectileEnd := w.currentTime + timeMS
                  finishCast w { s with
                    projectileStart := w.currentTime
                    projectileEnd := projectileEnd
                    projectileOrigin := w.location
                    onTargetMoved := true
                    impactCountdown := s.impactCountdown.setEnd projectileEnd }
                else finishCast w (applyAllEffects s)
              | none => finishCast w s
            else finishCast w s
          else finishCast w (applyAllEffects s)

/-- The callback registered by `onCastFinished` for a spell that executes on
the next weapon swing (lines 356-373): whether the swing is consumed, and the
state after the call. -/
def attackSwingCallback (w : World) (s : SingleCastState) : Bool × SingleCastState :=
  match consumePower w s with
  | (false, s) => (false, s.emit (.spellCastError .FailedNoPower))
  | (true, s) =>
    match consumeItem w s with
    | (false, s) => (false, s.emit (.spellCastError .FailedItemNotFound))
    | (true, s) => (true, applyAllEffects (sendEndCast w true s))

/-- The handle returned by `startCast`: the `SpellCasting` of the existing cast
or that of the cast created from the request. -/
inductive CastingHandle where
  | existing
  | created (request : CastRequest)
  deriving DecidableEq

/-- Modelled from the spec: the function `castSpell(cast, spell, target,
basePoints, castTime, itemGuid)` called by `startCast`, whose definition is not
part of the sources at hand: the Cast Context creates a new Active Cast from
the request and holds it as its state. -/
def castSpell (cast : SpellCast) (request : CastRequest) : SpellCast × CastingHandle :=
  ({ cast with state := .newCast request }, .created request)

/-- Method `SingleCastState::startCast` (lines 159-176): the result pair and
the state after the call. -/
def startCast (s : SingleCastState) (request : CastRequest) (doReplacePreviousCast : Bool) :
    (SpellCastResult × CastingHandle) × SingleCastState :=
  if !s.hasFinished && !doReplacePreviousCast then
    ((.FailedSpellInProgress, .existing), s)
  else
    let (cast, casting) := castSpell s.cast request
    ((.CastOkay, casting), { s with cast := cast })

/-- Method `SingleCastState::stopCast` (lines 178-197). -/
def stopCast (w : World) (s : SingleCastState) : SingleCastState :=
  let s := { s with countdown := s.countdown.cancel }
  let s := if !s.hasFinished then { sendEndCast w false s with hasFinished := true } else s
  let s := s.emit (.ended false)
  if w.aliveAfterEnded then { s with cast := { s.cast with state := .noCastState } } else s

/-- Constructor `SingleCastState::SingleCastState` (lines 82-128): the members
are initialised, the start packet is sent for a cast that is neither passive nor
a proc while the caster has a world instance, and the location of the caster
is recorded. -/
def SingleCastState.create (w : World) (cast : SpellCast) (spell : SpellEntry)
    (target : SpellTargetMap) (basePoints : Int) (castTime : Nat) (isProc : Bool)
    (itemGuid : Nat) : SingleCastState :=
  let cast :=
    if w.hasWorldInstance && !spell.passive && !isProc then
      { cast with log := cast.log ++ [.spellStart] }
    else cast
  { cast := cast, spell := spell, target := target, hasFinished := false,
    countdown := {}, impactCountdown := {}, castTime := castTime,
    basePoints := basePoints, isProc := isProc, itemGuid := itemGuid,
    projectileStart := 0, projectileEnd := 0,
    x := w.location.1, y := w.location.2.1, z := w.location.2.2 }

/-- Method `SingleCastState::activate` (lines 130-157).  The result is `none`
where the assertion on the world instance of line 137 fails. -/
def activate (w : World) (s : SingleCastState) : Option SingleCastState :=
  if s.castTime > 0 then
    let s := { s with countdown := s.countdown.setEnd (w.currentTime + s.castTime) }
    if !w.hasWorldInstance then none
    else
      let s :=
        match w.unitTarget with
        | some _ => { s with onTargetDied := true, onTargetRemoved := true }
        | none => s
      some { s with onUserMoved := true }
  else some (onCastFinished w s)

/-- Method `SingleCastState::onUserStartsMoving` (lines 199-210). -/
def onUserStartsMoving (w : World) (s : SingleCastState) : SingleCastState :=
  if !s.hasFinished then
    if w.location.1 ≠ s.x ∨ w.location.2.1 ≠ s.y ∨ w.location.2.2 ≠ s.z then stopCast w s
    else s
  else s

/-- Method `SingleCastState::onTargetRemovedOrDead` (lines 491-496). -/
def onTargetRemovedOrDead (w : World) (s : SingleCastState) : SingleCastState :=
  { stopCast w s with onTargetMoved := false }

/-! ## Melee damage -/

/-- Modelled from the spec: the values of `game::victim_state`, an enumeration
that is not part of the sources at hand. -/
inductive VictimState where
  | Normal | Dodge | Parry | Blocks | Evades | IsImmune
  deriving DecidableEq, Repr

/-- Modelled from the spec: the values of `game::hit_info` compared by
`executeMeleeAttack`; the enumeration is not part of the sources at hand. -/
inductive HitInfo where
  | NormalSwing | Miss | CriticalHit | Glancing | Crushing
  deriving DecidableEq, Repr

/-- The locals `totalDamage`, `blocked` and `crit` of `executeMeleeAttack` after
the outcome has been applied to the accumulated damage (lines 517-545); `none`
where a conversion of the scaled damage to `UInt32` is undefined. -/
def meleeOutcomeDamage (victimState : VictimState) (hitInfo : HitInfo)
    (meleeDamage : Nat) : Option (Nat × Nat × Bool) :=
  let totalDamage : Nat := meleeDamage
  let blocked : Nat := 0
  let crit : Bool := false
  if victimState = .Blocks then
    let blockValue : Nat := 50
    if blockValue ≥ totalDamage then
      let totalDamage : Nat := 0
      let blocked : Nat := totalDamage
      some (totalDamage, blocked, crit)
    else
      let totalDamage : Nat := totalDamage - blockValue
      let blocked : Nat := blockValue
      some (totalDamage, blocked, crit)
  else if hitInfo = .CriticalHit then
    (floatToUInt32 (f32 (f32 (totalDamage : ℚ) * 2))).map (fun d => (d, blocked, true))
  else if hitInfo = .Crushing then
    (floatToUInt32 (f32 (f32 (totalDamage : ℚ) * (3 / 2)))).map (fun d => (d, blocked, crit))
  else some (totalDamage, blocked, crit)

/-! ## Runs of a cast -/

/-- The operations on an active cast. -/
inductive CastOp where
  | activate
  | startCast (request : CastRequest) (doReplacePreviousCast : Bool)
  | stopCast
  | onUserStartsMoving
  | onTargetRemovedOrDead
  | onCastFinished
  | consumePower
  | consumeItem
  | attackSwingCallback
  | applyAllEffects

/-- The state of the cast after one operation, run against the world `w`; `none`
where the operation fails an assertion. -/
def CastOp.step (w : World) (op : CastOp) (s : SingleCastState) : Option SingleCastState :=
  match op with
  | .activate => WowPP.activate w s
  | .startCast request doReplacePreviousCast =>
    some (WowPP.startCast s request doReplacePreviousCast).2
  | .stopCast => some (WowPP.stopCast w s)
  | .onUserStartsMoving => some (WowPP.onUserStartsMoving w s)
  | .onTargetRemovedOrDead => some (WowPP.onTargetRemovedOrDead w s)
  | .onCastFinished => some (WowPP.onCastFinished w s)
  | .consumePower => some (WowPP.consumePower w s).2
  | .consumeItem => some (WowPP.consumeItem w s).2
  | .attackSwingCallback => some (WowPP.attackSwingCallback w s).2
  | .applyAllEffects => some (WowPP.applyAllEffects s)

/-- The state of the cast after a sequence of operations, each run against its
own world. -/
def runCast : List (World × CastOp) → SingleCastState → Option SingleCastState
  | [], s => some s
  | (w, op) :: rest, s =>
    match op.step w s with
    | some s' => runCast rest s'
    | none => none

/-! ## What a log records -/

/-- The effect handler calls of a log, in order. -/
def handlerCalls (log : List Event) : List Invocation :=
  log.filterMap fun e => match e with
    | .effectHandler call => some call
    | _ => none

/-- The number of completed runs of `applyAllEffects` in a log: the number of
`completedEffects` signals. -/
def effectRuns (log : List Event) : Nat :=
  log.countP fun e => match e with
    | .completedEffects => true
    | _ => false

/-- The arguments of the `ended` signals of a log, in order. -/
def endedSignals (log : List Event) : List Bool :=
  log.filterMap fun e => match e with
    | .ended success => some success
    | _ => none

/-- The item removals of a log, in order. -/
def itemRemovals (log : List Event) : List (Nat × Nat) :=
  log.filterMap fun e => match e with
    | .removeItem slot count => some (slot, count)
    | _ => none

/-- The number of failure notifications (`spellFailure` packets) of a log. -/
def failureNotifications (log : List Event) : Nat :=
  log.countP fun e => match e with
    | .spellFailure => true
    | _ => false

/-- The number of success notifications (`spellGo` packets) of a log. -/
def successNotifications (log : List Event) : Nat :=
  log.countP fun e => match e with
    | .spellGo => true
    | _ => false

/-- The errors reported by `spellCastError` in a log, in order. -/
def castErrors (log : List Event) : List SpellCastResult :=
  log.filterMap fun e => match e with
    | .spellCastError code => some code
    | _ => none

/-- The number of registrations of a swing callback in a log. -/
def swingCallbacks (log : List Event) : Nat :=
  log.countP fun e => match e with
    | .setAttackSwingCallback => true
    | _ => false

/-- The packets of `sendEndCast(success)` for a spell, in the world `w`. -/
def endCastPackets (w : World) (spell : SpellEntry) (success : Bool) : List Event :=
  if !w.hasWorldInstance || spell.passive then []
  else if success then [.spellGo]
  else [.spellFailure, .spellFailedOther]

/-- The calls of one run of `applyAllEffects`. -/
def effectEvents (s : SingleCastState) : List Event :=
  (dispatchTrace s.spell.effects).map Event.effectHandler
    ++ [.completedEffects]
    ++ s.spell.additionalspells.map (fun spell => Event.castSpell
        { spell := spell, target := s.target, basePoints := -1, castTime := 0,
          isProc := true })

/-- The calls of the end of `onCastFinished` (`finishCast`). -/
def finishEvents (w : World) (s : SingleCastState) : List Event :=
  (if s.spell.reqComboPoints1 && s.cast.executer.isCharacter then [.resetComboPoints] else [])
    ++ (if s.spell.meleeCombatStart && w.attackTargetFound then [.startAttack] else [])
    ++ [.ended true]

/-- The calls of `consumeItem`: what it appends to the log. -/
def consumeItemEvents (w : World) (s : SingleCastState) : List Event :=
  (consumeItem w s).2.cast.log.drop s.cast.log.length

/-- The state in which `onCastFinished` leaves a cast that fails the validation
reported as `code` (lines 291-296, 300-305, 311-316 and 337-342). -/
def abortCast (w : World) (code : SpellCastResult) (s : SingleCastState) : SingleCastState :=
  { sendEndCast w false (s.emit (.spellCastError code)) with hasFinished := true }

/-- The state of `onCastFinished` once the cast is marked finished, power and
item are consumed and the success notification is sent (lines 349-385). -/
def paidCast (w : World) (s : SingleCastState) : SingleCastState :=
  sendEndCast w true (consumeItem w (consumePower w { s with hasFinished := true }).2).2

/-- The range check `distance < minrange` of line 289. -/
def tooClose (s : SingleCastState) (unitTarget : UnitTarget) : Prop :=
  s.spell.minrange > 0 ∧ unitTarget.distance < s.spell.minrange

/-- The range check `distance > maxrange + combatReach` of line 298, the combat
reach being the sum of those of the target and of the caster. -/
def outOfRange (w : World) (s : SingleCastState) (unitTarget : UnitTarget) : Prop :=
  s.spell.maxrange > 0
    ∧ unitTarget.distance > f32 (s.spell.maxrange + f32 (unitTarget.combatReach + w.combatReach))

/-- The cost of `consumePower` in the words of the specification: the cost of
the spell when positive, else the percentage of base health (base mana) by
integer division for a health (mana) cost spell, else nothing. -/
def specTotalCost (s : SingleCastState) : Nat :=
  if s.spell.cost > 0 then s.spell.cost
  else match s.spell.powertype with
    | .Health => s.cast.executer.baseHealth * s.spell.costpct / 100
    | .Mana => s.cast.executer.baseMana * s.spell.costpct / 100
    | _ => 0

/-! ## Example casts -/

/-- A level 20 player with two combo points casting a level 5 spell capped at
level 10 that costs 30 mana, with one damage effect: three base points, one to
six dice and two points per combo point. -/
def exampleCast : SingleCastState :=
  { cast := { executer := { isCharacter := true, level := 20, comboPoints := 2,
                            health := 500, mana := 100, baseHealth := 400, baseMana := 80 } }
    spell := { id := 1, cost := 30, maxlevel := 10, baselevel := 5, spelllevel := 5,
               effects := [{ type := .SchoolDamage, basepoints := 3, diesides := 6,
                             basedice := 1, pointspercombopoint := 2 }] } }

/-- The damage effect of `exampleCast`. -/
def exampleEffect : SpellEffect :=
  { type := .SchoolDamage, basepoints := 3, diesides := 6, basedice := 1,
    pointspercombopoint := 2 }

/-- An effect with the given base points, without dice or scaling. -/
def fixedEffect (basepoints : Int) : SpellEffect :=
  { type := .Heal, basepoints := basepoints, basedice := 0, diesides := 0 }

/-- A health-cost spell of two percent cast by a unit with a base health of
`2 ^ 31` and 100 health. -/
def wrappingCostCast : SingleCastState :=
  { cast := { executer := { health := 100, baseHealth := 2147483648 } }
    spell := { costpct := 2, powertype := .Health } }

/-- The cast of `exampleCast` triggered by the item with identifier 7. -/
def itemCast : SingleCastState :=
  { exampleCast with itemGuid := 7 }

/-- The cast of `exampleCast` by a caster left with 10 mana. -/
def poorCast : SingleCastState :=
  { exampleCast with
    cast := { exampleCast.cast with
      executer := { exampleCast.cast.executer with mana := 10 } } }

/-- The cast of `exampleCast` with a cast time of one second. -/
def delayedCast : SingleCastState :=
  { exampleCast with castTime := 1000 }

/-- A passive spell with a minimum range of five and a cast time of one second,
cast by the caster of `exampleCast`. -/
def passiveRangedCast : SingleCastState :=
  { exampleCast with
    castTime := 1000
    spell := { exampleCast.spell with passive := true, minrange := 5 } }

/-- The spell of `exampleCast` as a projectile of speed 20. -/
def projectileCast : SingleCastState :=
  { exampleCast with spell := { exampleCast.spell with speed := 20 } }

/-- The spell of `exampleCast` as a passive spell executed on the next swing. -/
def passiveSwingCast : SingleCastState :=
  { exampleCast with
    hasFinished := true
    spell := { exampleCast.spell with passive := true, onNextSwing := true } }

/-- The cast of `delayedCast` with a maximum range of thirty. -/
def rangedCast : SingleCastState :=
  { delayedCast with spell := { delayedCast.spell with maxrange := 30 } }

/-- A world in which the target resolves to a unit one yard away. -/
def nearTargetWorld : World :=
  { unitTarget := some { distance := 1 } }

/-- A world at time 1000 in which the target resolves to a unit 100 yards
away. -/
def farTargetWorld : World :=
  { currentTime := 1000, unitTarget := some { distance := 100 } }

/-- A world in which the target resolves to a unit out of the line of sight. -/
def hiddenTargetWorld : World :=
  { unitTarget := some { distance := 10, inLineOfSight := false } }

/-- The requests passed to `castSpell` on the caster in a log, in order. -/
def spellCasts (log : List Event) : List CastRequest :=
  log.filterMap fun e => match e with
    | .castSpell request => some request
    | _ => none

/-- A damage effect of ten base points with one base die and no die sides. -/
def oneDieEffect : SpellEffect :=
  { type := .SchoolDamage, basepoints := 10, basedice := 1 }

/-! ## Trade sessions -/

/-- The indices of the two sides of a trade (`TradeData::Trader`). -/
inductive Trader where
  | Owner | Target
  deriving DecidableEq, Repr

/-- The values of `game::trade_status` sent by `trade_data.cpp`. -/
inductive TradeStatus where
  | OpenWindow | TradeCanceled | BackToTrade | TradeAccept | TradeComplete
  deriving DecidableEq, Repr

/-- The calls that a trade session makes on its two players. -/
inductive TradeEvent where
  /-- Call `sendTradeStatus(status)` on `m_initiator` (`Owner`) or `m_other`
  (`Target`). -/
  | sendTradeStatus (player : Trader) (status : TradeStatus)
  /-- Call `setTradeSession(nullptr)` on `m_initiator` or `m_other`. -/
  | resetTradeSession (player : Trader)
  deriving DecidableEq, Repr

/-- One entry of `m_data`: the gold offered and the acceptance flag (the item
slots are not touched by `setAcceptedState`). -/
structure TraderSide where
  gold : Nat := 0
  accepted : Bool := false
  deriving DecidableEq, Repr

/-- A trade session (`TradeData`) with what it reads from its two players: the
entries `m_data[Owner]` and `m_data[Target]`, the `Coinage` field of the
character of `m_initiator` and of `m_other` (`none` when `getCharacter()` is
null) and the log of the calls made.  The two players are distinct. -/
structure TradeData where
  owner : TraderSide := {}
  target : TraderSide := {}
  ownerCoinage : Option Nat := some 0
  otherCoinage : Option Nat := some 0
  log : List TradeEvent := []
  deriving DecidableEq, Repr

/-- The entry `m_data[index]`. -/
def TradeData.data (d : TradeData) : Trader → TraderSide
  | .Owner => d.owner
  | .Target => d.target

/-- The assignment `m_data[index].accepted = accept`. -/
def TradeData.setAccepted (d : TradeData) (index : Trader) (accept : Bool) : TradeData :=
  match index with
  | .Owner => { d with owner := { d.owner with accepted := accept } }
  | .Target => { d with target := { d.target with accepted := accept } }

/-- Append calls to the log of a trade session. -/
def TradeData.emit (d : TradeData) (events : List TradeEvent) : TradeData :=
  { d with log := d.log ++ events }

/-- Method `TradeData::setAcceptedState` (`trade_data.cpp`, lines 70-139); the
coinage is a `UInt32`.  The result is `none` where an assertion on a character
fails.  The assertion of line 72 compares the index with `Trader::Count_`, an
enumerator declared outside the sources; it is taken to pass. -/
def TradeData.setAcceptedState (d : TradeData) (index : Trader) (accept : Bool) :
    Option TradeData :=
  let wasAccepted := (d.data index).accepted
  if accept = wasAccepted then some d
  else
    let d := d.setAccepted index accept
    if wasAccepted then
      some (d.emit [.sendTradeStatus .Owner .BackToTrade, .sendTradeStatus .Target .BackToTrade])
    else
      let target : Trader := if index = .Owner then .Target else .Owner
      if d.owner.accepted && d.target.accepted then
        match d.ownerCoinage, d.otherCoinage with
        | some ownerMoney, some otherMoney =>
          if ownerMoney < d.owner.gold then some d
          else if otherMoney < d.target.gold then some d
          else
            let d := { d with
              ownerCoinage := some ((ownerMoney - d.owner.gold + d.target.gold) % 2 ^ 32)
              otherCoinage := some ((otherMoney - d.target.gold + d.owner.gold) % 2 ^ 32) }
            some (d.emit [.sendTradeStatus .Owner .TradeComplete,
              .sendTradeStatus .Target .TradeComplete,
              .resetTradeSession .Owner, .resetTradeSession .Target])
        | _, _ => none
      else some (d.emit [.sendTradeStatus target .TradeAccept])

/-- A trade in which the target has accepted: the owner has 100 coins and
offers 30, the target has 50 and offers 5. -/
def exampleTrade : TradeData :=
  { owner := { gold := 30 }, target := { gold := 5, accepted := true },
    ownerCoinage := some 100, otherCoinage := some 50 }

/-! ## Social lists -/

/-- Modelled from the spec: the enumerator `game::social_flag::Friend`, declared
in a header that is not part of the sources at hand; only its being different
from `Ignored` is used. -/
def social_flag.Friend : Nat := 1

/-- Modelled from the spec: the enumerator `game::social_flag::Ignored`,
declared in a header that is not part of the sources at hand. -/
def social_flag.Ignored : Nat := 2

/-- The values of `game::FriendResult` returned by `addToSocialList`. -/
inductive FriendResult where
  | AddedOffline | AlreadyAdded | IgnoreAdded | IgnoreAlreadyAdded
  deriving DecidableEq, Repr

/-- The member of `game::SocialInfo` that the social list reads and writes. -/
structure SocialInfo where
  flags : Nat := 0
  deriving DecidableEq, Repr

/-- The social list of a player (`PlayerSocial`): the map `m_contacts` from
character identifiers to their entries. -/
structure PlayerSocial where
  contacts : Nat → Option SocialInfo := fun _ => none

/-- Method `PlayerSocial::addToSocialList` (`player_social.cpp`, lines 38-72):
the result and the list after the call. -/
def PlayerSocial.addToSocialList (p : PlayerSocial) (guid : Nat) (ignore : Bool) :
    FriendResult × PlayerSocial :=
  let flag : Nat := if ignore then social_flag.Ignored else social_flag.Friend
  let added : FriendResult := if ignore then .IgnoreAdded else .AddedOffline
  match p.contacts guid with
  | some info =>
    if info.flags = flag then
      (if ignore then .IgnoreAlreadyAdded else .AlreadyAdded, p)
    else
      (added, { p with contacts := Function.update p.contacts guid (some { info with flags := flag }) })
  | none =>
    let info : SocialInfo := { flags := flag }
    (added, { p with contacts := Function.update p.contacts guid (some info) })

/-- Method `PlayerSocial::isFriend` (lines 89-100). -/
def PlayerSocial.isFriend (p : PlayerSocial) (guid : Nat) : Bool :=
  match p.contacts guid with
  | none => false
  | some info => info.flags == social_flag.Friend

/-- Method `PlayerSocial::isIgnored` (lines 102-113). -/
def PlayerSocial.isIgnored (p : PlayerSocial) (guid : Nat) : Bool :=
  match p.contacts guid with
  | none => false
  | some info => info.flags != social_flag.Friend

/-! ## Effect handlers -/

/-- Conversion of an `Int32` value to `UInt32`. -/
def toUInt32 (i : Int) : Nat := (i % 2 ^ 32).toNat

/-- Conversion of a `UInt32` value to `Int32`. -/
def toInt32 (n : Nat) : Int :=
  if n % 2 ^ 32 < 2 ^ 31 then ((n % 2 ^ 32 : Nat) : Int)
  else ((n % 2 ^ 32 : Nat) : Int) - 2 ^ 32

/-- What `spellEffectPowerBurn` does to one target. -/
structure PowerBurnOutcome where
  /-- The amount passed to `addPower(game::power_type::Mana, amount)` on the
  target; `none` when `addPower` is not called. -/
  addPowerAmount : Option Int
  /-- The local `burn` after the branch: the mana removed. -/
  burn : Nat
  damage : Nat
  resisted : Nat
  absorbed : Nat
  /-- The first argument of `dealDamage`. -/
  dealt : Nat
  deriving DecidableEq, Repr

/-- The body of the loop of `spellEffectPowerBurn` for one target (lines
1646-1689).  The arguments `addPower` and `consumeAbsorb` are the results of
the calls of that name on the target (`addPower` is taken to have an `Int32`
amount and an `Int32` result, the change applied); the result is `none` where a
conversion to `UInt32` is undefined.  The test for an immune target (line 1654) assigns
`burn`, here `_burn`; it is followed by an `if` on `Miss` that assigns `burn`
again on both branches. -/
def spellEffectPowerBurnTarget (s : SingleCastState) (effect : SpellEffect) (raw : Nat)
    (victimState : VictimState) (hitInfo : HitInfo) (resist : ℚ)
    (addPower : Int → Int) (consumeAbsorb : Nat → Nat) : Option PowerBurnOutcome :=
  let damage : Nat := 0
  let resisted : Nat := 0
  let absorbed : Nat := 0
  let _burn : Option Nat := if victimState = .IsImmune then some 0 else none
  if hitInfo = .Miss then
    let burn : Nat := 0
    some { addPowerAmount := none, burn := burn, damage := damage, resisted := resisted,
           absorbed := absorbed, dealt := (damage + 2 ^ 32 - absorbed) % 2 ^ 32 }
  else
    let burn : Nat := toUInt32 (calculateEffectBasePoints s effect raw)
    match floatToUInt32 (f32 (f32 (burn : ℚ) * f32 (resist / 100))) with
    | none => none
    | some resisted =>
      let burn : Nat := (burn + 2 ^ 32 - resisted) % 2 ^ 32
      let amount : Int := toInt32 ((2 ^ 32 - burn) % 2 ^ 32)
      let burn : Nat := toUInt32 (0 - addPower amount)
      match floatToUInt32 (f32 (f32 (burn : ℚ) * effect.multiplevalue)) with
      | none => none
      | some damage =>
        let absorbed : Nat := consumeAbsorb damage % 2 ^ 32
        some { addPowerAmount := some amount, burn := burn, damage := damage,
               resisted := resisted, absorbed := absorbed,
               dealt := (damage + 2 ^ 32 - absorbed) % 2 ^ 32 }

/-- The local `modifiedByBonus` of `spellEffectApplyAura` after the `switch`
of lines 1128-1137: the three periodic cases assign `true` and, having no
`break`, fall through to the `default` label, which assigns `false`. -/
def applyAuraModifiedByBonus (aura : AuraType) : Bool :=
  match aura with
  | .PeriodicDamage | .PeriodicHeal | .PeriodicLeech =>
    let _modifiedByBonus : Bool := true
    false
  | .Other _ => false

/-- The locals `spellFailed` and `totalPoints` of `spellEffectApplyAura` for
one target (lines 1143-1175); `spellPower` and `spellBonusPct` are the results
of `getBonus(school)` and `getBonusPct(school)` on the caster.  The result is
`none` where a conversion to `UInt32` is undefined. -/
def spellEffectApplyAuraTarget (s : SingleCastState) (effect : SpellEffect) (raw : Nat)
    (victimState : VictimState) (hitInfo : HitInfo) (resist : ℚ)
    (spellPower spellBonusPct : Nat) : Option (Bool × Nat) :=
  let modifiedByBonus := applyAuraModifiedByBonus effect.aura
  let totalPoints : Nat := 0
  let spellFailed : Bool := false
  if hitInfo = .Miss then some (true, totalPoints)
  else if victimState = .IsImmune then some (true, totalPoints)
  else if victimState = .Normal then
    if resist = 100 then some (true, totalPoints)
    else if modifiedByBonus then
      match getSpellPointsTotal s effect spellPower spellBonusPct raw with
      | none => none
      | some totalPoints =>
        (floatToUInt32 (f32 (f32 (totalPoints : ℚ)
            - f32 (f32 (totalPoints : ℚ) * f32 (resist / 100))))).map
          fun totalPoints => (spellFailed, totalPoints)
    else some (spellFailed, toUInt32 (calculateEffectBasePoints s effect raw))
  else some (spellFailed, totalPoints)

/-- What `executeMeleeAttack` computes for one target. -/
structure MeleeHit where
  totalDamage : Nat
  blocked : Nat
  crit : Bool
  resisted : Nat
  /-- The argument of `consumeAbsorb`. -/
  offered : Nat
  absorbed : Nat
  /-- The first argument of `dealDamage`. -/
  dealt : Nat
  deriving DecidableEq, Repr

/-- The body of the loop of `executeMeleeAttack` for one target (lines
514-555), in `UInt32` arithmetic; `consumeAbsorb` is the result of the call of
that name on the target.  The result is `none` where a conversion to `UInt32`
is undefined. -/
def executeMeleeAttackTarget (victimState : VictimState) (hitInfo : HitInfo)
    (meleeDamage : Nat) (resist : ℚ) (consumeAbsorb : Nat → Nat) : Option MeleeHit :=
  match meleeOutcomeDamage victimState hitInfo meleeDamage with
  | none => none
  | some (totalDamage, blocked, crit) =>
    match floatToUInt32 (f32 (f32 (totalDamage : ℚ) * f32 (resist / 100))) with
    | none => none
    | some resisted =>
      let offered : Nat := (totalDamage + 2 ^ 32 - resisted) % 2 ^ 32
      let absorbed : Nat := consumeAbsorb offered % 2 ^ 32
      some { totalDamage := totalDamage, blocked := blocked, crit := crit,
             resisted := resisted, offered := offered, absorbed := absorbed,
             dealt := (totalDamage + 2 ^ 32 - resisted + 2 ^ 32 - absorbed) % 2 ^ 32 }

/-- Modelled from the spec: the enumerator `game::power_type::Mana`, declared in
a header that is not part of the sources at hand, as the index of the first
power field. -/
def power_type.Mana : Int := 0

/-- The unit fields that `spellEffectDrainPower` reads and writes. -/
structure PowerFields where
  /-- Byte 3 of `unit_fields::Bytes0`: the power type of the unit. -/
  powerType : Nat := 0
  /-- Field `unit_fields::Power1 + k`. -/
  power : Int → Nat := fun _ => 0
  /-- Field `unit_fields::MaxPower1 + k`. -/
  maxPower : Int → Nat := fun _ => 0

/-- Write of `unit_fields::Power1 + k`. -/
def PowerFields.setPower (u : PowerFields) (k : Int) (v : Nat) : PowerFields :=
  { u with power := Function.update u.power k v }

/-- The unit that a unit target resolves to: the caster itself or another
unit. -/
inductive UnitRef where
  | caster | other
  deriving DecidableEq, Repr

/-- The two units that `spellEffectDrainPower` can touch and what the target
selection resolves to. -/
structure DrainUnits where
  caster : PowerFields := {}
  other : PowerFields := {}
  /-- The target map is exactly `game::spell_cast_target_flags::Self`. -/
  targetMapIsSelf : Bool := false
  /-- The caster's `getWorldInstance()` is not null. -/
  hasWorldInstance : Bool := true
  /-- The unit found by `findObjectByGUID` for the unit target, when the target
  map has a unit target whose identifier is a unit identifier. -/
  resolved : Option UnitRef := some .other
  /-- The amounts of the `spellEnergizeLog` packets sent. -/
  energizeLog : List Nat := []

/-- Read of the unit behind a reference. -/
def DrainUnits.unit (u : DrainUnits) : UnitRef → PowerFields
  | .caster => u.caster
  | .other => u.other

/-- Write of `unit_fields::Power1 + k` on the unit behind a reference. -/
def DrainUnits.setPower (u : DrainUnits) (ref : UnitRef) (k : Int) (v : Nat) : DrainUnits :=
  match ref with
  | .caster => { u with caster := u.caster.setPower k v }
  | .other => { u with other := u.other.setPower k v }

/-- Method `SingleCastState::spellEffectDrainPower` (lines 818-912), in
`UInt32` arithmetic. -/
def spellEffectDrainPower (s : SingleCastState) (effect : SpellEffect) (raw : Nat)
    (u : DrainUnits) : DrainUnits :=
  let powerToDrain : Nat := toUInt32 (calculateEffectBasePoints s effect raw)
  let powerType : Int := effect.miscvaluea
  let unitTarget : Option UnitRef :=
    if u.targetMapIsSelf then none
    else if u.hasWorldInstance then u.resolved
    else none
  match unitTarget with
  | none => u
  | some unitTarget =>
    if ((u.unit unitTarget).powerType : Int) ≠ powerType then u
    else if powerToDrain = 0 then u
    else
      let currentPower : Nat := (u.unit unitTarget).power powerType
      if currentPower = 0 then u
      else
        let powerToDrain : Nat := if powerToDrain > currentPower then currentPower else powerToDrain
        let u := u.setPower unitTarget powerType (currentPower - powerToDrain)
        if powerType = power_type.Mana then
          let casterPowerType : Nat := u.caster.powerType
          if (casterPowerType : Int) ≠ powerType then u
          else
            let u := { u with energizeLog := u.energizeLog ++ [powerToDrain] }
            let casterPower : Nat := u.caster.power casterPowerType
            let maxCasterPower : Nat := u.caster.maxPower casterPowerType
            let powerToDrain : Nat :=
              if (casterPower + powerToDrain) % 2 ^ 32 > maxCasterPower then
                (maxCasterPower + 2 ^ 32 - casterPower) % 2 ^ 32
              else powerToDrain
            u.setPower .caster casterPowerType ((casterPower + powerToDrain) % 2 ^ 32)
        else u

/-- A state whose cast time is 3500 ms, for which the spell power counts in
full. -/
def longCast : SingleCastState :=
  { castTime := 3500 }

/-- A periodic damage aura effect with 100 base points. -/
def periodicDamageEffect : SpellEffect :=
  { type := .ApplyAura, basepoints := 100, aura := .PeriodicDamage }

/-- A power burn effect with 100 base points that deals the burnt mana as
damage. -/
def powerBurnEffect : SpellEffect :=
  { type := .PowerBurn, basepoints := 100, multiplevalue := 1 }

/-- A mana drain effect with 30 base points. -/
def manaDrainEffect : SpellEffect :=
  { type := .PowerDrain, basepoints := 30, miscvaluea := 0 }

/-- A caster with 100 of 200 mana whose unit target resolves to itself. -/
def selfDrain : DrainUnits :=
  { caster := { powerType := 0, power := fun _ => 100, maxPower := fun _ => 200 },
    resolved := some .caster }

/-- A caster with 100 of 200 mana draining another mana user that has 20
mana. -/
def otherDrain : DrainUnits :=
  { caster := { powerType := 0, power := fun _ => 100, maxPower := fun _ => 200 },
    other := { powerType := 0, power := fun _ => 20, maxPower := fun _ => 50 },
    resolved := some .other }

/-! ## The projectile leg -/

/-- What the handler of the target's `moved` signal gets from the vector
arithmetic of `math::Vector3`, which is not part of the sources at hand. -/
structure TargetMove where
  /-- The value of `m_projectileOrigin.lerp(oldPosition, percentage)` for an origin and
  a percentage. -/
  lerp : ℚ × ℚ × ℚ → ℚ → ℚ × ℚ × ℚ := fun origin _ => origin
  /-- The value of `(targetLoc - projectilePos).length()` for a projectile
  position. -/
  distance : ℚ × ℚ × ℚ → ℚ := fun _ => 0

/-- The handler connected to the `moved` signal of the target by
`onCastFinished` (lines 413-441).  The result is `none` where the elapsed
fraction divides by a leg of length zero.  Times are natural numbers of
milliseconds; the clock does not run backwards. -/
def onTargetMovedHandler (w : World) (m : TargetMove) (s : SingleCastState) :
    Option SingleCastState :=
  if s.impactCountdown.running then
    let currentTime := w.currentTime
    if s.projectileEnd = s.projectileStart then none
    else
      let percentage : ℚ :=
        f32 (f32 ((currentTime - s.projectileStart : Nat) : ℚ)
          / f32 ((s.projectileEnd - s.projectileStart : Nat) : ℚ))
      let projectilePos := m.lerp s.projectileOrigin percentage
      let dist : ℚ := m.distance projectilePos
      let timeMS := travelTimeMS dist s.spell.speed
      let s := { s with
        projectileOrigin := projectilePos
        projectileStart := currentTime
        projectileEnd := currentTime + timeMS }
      if timeMS ≥ 50 then
        some { s with impactCountdown := s.impactCountdown.setEnd (currentTime + timeMS) }
      else
        some (applyAllEffects { s with impactCountdown := s.impactCountdown.cancel })
  else some s

/-- Modelled from the spec: the expiry of the impact countdown, whose
implementation is not part of the sources at hand: a running countdown stops
running and its `ended` signal runs the connected `applyAllEffects` (lines
404-408). -/
def onImpact (s : SingleCastState) : SingleCastState :=
  if s.impactCountdown.running then
    applyAllEffects { s with impactCountdown := { s.impactCountdown with running := false } }
  else s

/-- What can happen to a cast: one of its operations, a move of its target or
the expiry of the impact countdown. -/
inductive CastEvent where
  | op (o : CastOp)
  | targetMoved (m : TargetMove)
  | impact

/-- The state of the cast after one event in the world `w`. -/
def CastEvent.step (w : World) (e : CastEvent) (s : SingleCastState) :
    Option SingleCastState :=
  match e with
  | .op o => o.step w s
  | .targetMoved m => onTargetMovedHandler w m s
  | .impact => some (onImpact s)

/-- The state of the cast after a sequence of events, each in its own world. -/
def runEvents : List (World × CastEvent) → SingleCastState → Option SingleCastState
  | [], s => some s
  | (w, e) :: rest, s =>
    match e.step w s with
    | some s' => runEvents rest s'
    | none => none

/-- The impact countdown and the two ends of the current leg of the
projectile. -/
def legOf (s : SingleCastState) : Countdown × Nat × Nat :=
  (s.impactCountdown, s.projectileStart, s.projectileEnd)

/-- The invariant of the projectile leg: while the impact countdown runs, the
leg is at least 50 ms long and the countdown ends at the end of the leg. -/
def projectileLegInv (s : SingleCastState) : Prop :=
  s.impactCountdown.running = true →
    s.projectileStart + 50 ≤ s.projectileEnd ∧ s.impactCountdown.endTime = s.projectileEnd

/-- A move of the target that leaves the projectile 40 yards away. -/
def exampleMove : TargetMove :=
  { distance := fun _ => 40 }

/-- The world of `farTargetWorld` one second later. -/
def laterWorld : World :=
  { farTargetWorld with currentTime := 2000 }

/-! ## The handler calls in list form -/

/-- The calls made by the slot loop for one table entry, from slot `k` on. -/
def slotHits (entry : SpellEffectKind × EffectHandler) :
    Nat → List SpellEffect → List Invocation
  | _, [] => []
  | k, e :: rest =>
    (if entry.1 = e.type then [⟨entry.2, k, e⟩] else []) ++ slotHits entry (k + 1) rest

/-- The calls made by the table loop. -/
def tableHits : List (SpellEffectKind × EffectHandler) → List SpellEffect → List Invocation
  | [], _ => []
  | entry :: table, effects => slotHits entry 0 effects ++ tableHits table effects

/-- Run a list of calls under a handler semantics. -/
def runCalls {σ : Type} (call : EffectHandler → Nat → SpellEffect → σ → σ)
    (calls : List Invocation) (s : σ) : σ :=
  calls.foldl (fun st i => call i.handler i.slot i.effect st) s

/-- The order of the dispatch: earlier table position first, and declaration
order among calls of one kind. -/
def dispatchedBefore (a b : Invocation) : Prop :=
  tablePos a.effect.type < tablePos b.effect.type
    ∨ (tablePos a.effect.type = tablePos b.effect.type ∧ a.slot < b.slot)

/-- The kinds of the last two table entries. -/
def isAuraOrSchoolDamage (i : Invocation) : Prop :=
  i.effect.type = .ApplyAura ∨ i.effect.type = .SchoolDamage

/-! ## Theorems -/

theorem effectSlotLoop_eq_runCalls {σ : Type}
    (call : EffectHandler → Nat → SpellEffect → σ → σ)
    (entry : SpellEffectKind × EffectHandler) (effects : List SpellEffect) :
    ∀ (k : Nat) (s : σ),
      effectSlotLoop call entry k effects s = runCalls call (slotHits entry k effects) s := by
  induction effects with
  | nil => intro k s; rfl
  | cons e rest ih =>
    intro k s
    simp only [effectSlotLoop, slotHits, runCalls, List.foldl_append]
    rw [ih]
    by_cases h : entry.1 = e.type <;> simp [h, runCalls]

theorem effectTableLoop_eq_runCalls {σ : Type}
    (call : EffectHandler → Nat → SpellEffect → σ → σ)
    (table : List (SpellEffectKind × EffectHandler)) (effects : List SpellEffect) :
    ∀ s : σ, effectTableLoop call table effects s
      = runCalls call (tableHits table effects) s := by
  induction table with
  | nil => intro s; rfl
  | cons entry table ih =>
    intro s
    simp only [effectTableLoop, tableHits]
    rw [ih, effectSlotLoop_eq_runCalls]
    simp [runCalls, List.foldl_append]

theorem runCalls_recordCall (calls log : List Invocation) :
    runCalls recordCall calls log = log ++ calls := by
  induction calls generalizing log with
  | nil => simp [runCalls]
  | cons i rest ih =>
    have := ih (log ++ [i])
    simp only [runCalls, List.foldl_cons, recordCall] at this ⊢
    rw [this]; simp

theorem dispatchTrace_eq_tableHits (effects : List SpellEffect) :
    dispatchTrace effects = tableHits effectMap effects := by
  simp [dispatchTrace, dispatchEffects, effectTableLoop_eq_runCalls, runCalls_recordCall]

theorem mem_slotHits {entry : SpellEffectKind × EffectHandler} {effects : List SpellEffect} :
    ∀ {k : Nat} {i : Invocation}, i ∈ slotHits entry k effects →
      i.handler = entry.2 ∧ i.effect.type = entry.1 ∧ k ≤ i.slot
        ∧ effects[i.slot - k]? = some i.effect := by
  induction effects with
  | nil => intro k i h; simp [slotHits] at h
  | cons e rest ih =>
    intro k i h
    simp only [slotHits, List.mem_append] at h
    rcases h with h | h
    · by_cases hk : entry.1 = e.type
      · simp only [hk, if_true, List.mem_singleton] at h
        subst h
        simp [hk]
      · simp [hk] at h
    · obtain ⟨h1, h2, h3, h4⟩ := ih h
      refine ⟨h1, h2, by omega, ?_⟩
      have : i.slot - k = (i.slot - (k + 1)) + 1 := by omega
      rw [this]
      simpa using h4

theorem pairwise_slotHits (entry : SpellEffectKind × EffectHandler)
    (effects : List SpellEffect) :
    ∀ k : Nat, (slotHits entry k effects).Pairwise (fun a b => a.slot < b.slot) := by
  induction effects with
  | nil => intro k; simp [slotHits]
  | cons e rest ih =>
    intro k
    simp only [slotHits]
    rw [List.pairwise_append]
    refine ⟨?_, ih (k + 1), ?_⟩
    · by_cases hk : entry.1 = e.type <;> simp [hk]
    · intro a ha b hb
      have hb' := (mem_slotHits hb).2.2.1
      by_cases hk : entry.1 = e.type
      · simp only [hk, if_true, List.mem_singleton] at ha
        subst ha
        simp only
        omega
      · simp [hk] at ha

theorem slotHits_map (entry : SpellEffectKind × EffectHandler) (effects : List SpellEffect) :
    ∀ k : Nat, (slotHits entry k effects).map (fun i => (i.slot, i.effect))
      = (effects.enumFrom k).filter (fun p => decide (entry.1 = p.2.type)) := by
  induction effects with
  | nil => intro k; simp [slotHits]
  | cons e rest ih =>
    intro k
    simp only [slotHits, List.map_append, ih, List.enumFrom_cons]
    by_cases hk : entry.1 = e.type <;> simp [hk, List.filter_cons]

theorem tableHits_perm (effects : List SpellEffect) :
    ∀ table : List (SpellEffectKind × EffectHandler), (table.map Prod.fst).Nodup →
      ((tableHits table effects).map (fun i => (i.slot, i.effect))).Perm
        (effects.enum.filter (fun p => decide (p.2.type ∈ table.map Prod.fst))) := by
  intro table
  induction table with
  | nil => intro _; simp [tableHits]
  | cons entry table ih =>
    intro hnd
    rw [List.map_cons, List.nodup_cons] at hnd
    have hrest := ih hnd.2
    simp only [tableHits, List.map_append, slotHits_map]
    have hsplit := List.filter_append_perm
      (fun p : Nat × SpellEffect => decide (entry.1 = p.2.type))
      (effects.enum.filter (fun p => decide (p.2.type ∈ (entry :: table).map Prod.fst)))
    refine List.Perm.trans ?_ hsplit
    rw [List.filter_filter, List.filter_filter]
    apply List.Perm.append
    · rw [List.enum]
      apply List.Perm.of_eq
      apply List.filter_congr
      intro p _
      by_cases h : entry.1 = p.2.type <;> simp [h]
    · refine hrest.trans (List.Perm.of_eq ?_)
      apply List.filter_congr
      intro p _
      by_cases h : entry.1 = p.2.type
      · have : p.2.type ∉ table.map Prod.fst := h ▸ hnd.1
        simp [h, this]
      · have h' : ¬ p.2.type = entry.1 := fun e => h e.symm
        simp [h, h']

theorem mem_tableHits {effects : List SpellEffect} {i : Invocation} :
    ∀ {table : List (SpellEffectKind × EffectHandler)}, i ∈ tableHits table effects →
      (i.effect.type, i.handler) ∈ table ∧ effects[i.slot]? = some i.effect := by
  intro table
  induction table with
  | nil => intro h; simp [tableHits] at h
  | cons entry table ih =>
    intro h
    simp only [tableHits, List.mem_append] at h
    rcases h with h | h
    · obtain ⟨h1, h2, _, h4⟩ := mem_slotHits h
      refine ⟨?_, by simpa using h4⟩
      rw [h1, h2]
      exact List.mem_cons_self _ _
    · exact ⟨List.mem_cons_of_mem _ (ih h).1, (ih h).2⟩

theorem tableHits_pairwise (effects : List SpellEffect) :
    ∀ table : List (SpellEffectKind × EffectHandler), (table.map Prod.fst).Nodup →
      (tableHits table effects).Pairwise (fun a b =>
        (table.map Prod.fst).indexOf a.effect.type < (table.map Prod.fst).indexOf b.effect.type
          ∨ ((table.map Prod.fst).indexOf a.effect.type
                = (table.map Prod.fst).indexOf b.effect.type ∧ a.slot < b.slot)) := by
  intro table
  induction table with
  | nil => intro _; simp [tableHits]
  | cons entry table ih =>
    intro hnd
    rw [List.map_cons, List.nodup_cons] at hnd
    have key : ∀ b ∈ tableHits table effects,
        (entry.1 :: table.map Prod.fst).indexOf b.effect.type
          = (table.map Prod.fst).indexOf b.effect.type + 1 := by
      intro b hb
      have hmem : b.effect.type ∈ table.map Prod.fst :=
        List.mem_map_of_mem Prod.fst (mem_tableHits hb).1
      have hne : entry.1 ≠ b.effect.type := fun e => hnd.1 (e ▸ hmem)
      exact List.indexOf_cons_ne _ hne
    simp only [tableHits, List.map_cons]
    rw [List.pairwise_append]
    refine ⟨?_, ?_, ?_⟩
    · refine (pairwise_slotHits entry effects 0).imp_of_mem ?_
      intro a b ha hb hlt
      right
      rw [(mem_slotHits ha).2.1, (mem_slotHits hb).2.1]
      exact ⟨rfl, hlt⟩
    · refine (ih hnd.2).imp_of_mem ?_
      intro a b ha hb hab
      rw [key a ha, key b hb]
      omega
    · intro a ha b hb
      left
      rw [(mem_slotHits ha).2.1, List.indexOf_cons_self, key b hb]
      omega

theorem effectMap_keys_nodup : (effectMap.map Prod.fst).Nodup := by
  decide

theorem tablePos_last_two (kind : SpellEffectKind) (hmem : kind ∈ effectMap.map Prod.fst)
    (hpos : 26 ≤ tablePos kind) : kind = .ApplyAura ∨ kind = .SchoolDamage := by
  cases kind <;> first
    | (left; rfl)
    | (right; rfl)
    | (exfalso; revert hpos; decide)
    | (exfalso; simp [effectMap] at hmem)

theorem countP_enumFrom_slot (Q : SpellEffect → Bool) :
    ∀ (l : List SpellEffect) (n k : Nat) (e : SpellEffect), n ≤ k → l[k - n]? = some e →
      (l.enumFrom n).countP (fun p => decide (p.1 = k) && Q p.2) = if Q e then 1 else 0 := by
  intro l
  induction l with
  | nil => intro n k e _ h; simp at h
  | cons x xs ih =>
    intro n k e hnk h
    rw [List.enumFrom_cons, List.countP_cons]
    rcases Nat.eq_or_lt_of_le hnk with heq | hlt
    · subst heq
      simp only [Nat.sub_self, List.getElem?_cons_zero, Option.some.injEq] at h
      subst h
      have hzero : (xs.enumFrom (n + 1)).countP (fun p => decide (p.1 = n) && Q p.2) = 0 := by
        rw [List.countP_eq_zero]
        intro p hp
        have := List.le_fst_of_mem_enumFrom hp
        have hne : ¬ p.1 = n := by omega
        simp [hne]
      rw [hzero]
      by_cases hq : Q x = true <;> simp [hq]
    · have hstep : k - n = (k - (n + 1)) + 1 := by omega
      rw [hstep, List.getElem?_cons_succ] at h
      rw [ih (n + 1) k e (by omega) h]
      have hne : ¬ n = k := by omega
      simp [hne]

theorem dispatchTrace_pairwise (effects : List SpellEffect) :
    (dispatchTrace effects).Pairwise dispatchedBefore := by
  rw [dispatchTrace_eq_tableHits]
  exact tableHits_pairwise effects effectMap effectMap_keys_nodup

theorem mem_dispatchTrace {effects : List SpellEffect} {i : Invocation}
    (h : i ∈ dispatchTrace effects) :
    (i.effect.type, i.handler) ∈ effectMap ∧ effects[i.slot]? = some i.effect := by
  rw [dispatchTrace_eq_tableHits] at h
  exact mem_tableHits h

theorem dispatchTrace_perm (effects : List SpellEffect) :
    ((dispatchTrace effects).map (fun i => (i.slot, i.effect))).Perm
      (effects.enum.filter (fun p => inTable p.2.type)) := by
  rw [dispatchTrace_eq_tableHits]
  exact tableHits_perm effects effectMap effectMap_keys_nodup

theorem runCalls_emit (calls : List Invocation) (s : SingleCastState) :
    runCalls (fun h k e st => st.emit (.effectHandler ⟨h, k, e⟩)) calls s
      = { s with cast := { s.cast with log := s.cast.log ++ calls.map Event.effectHandler } } := by
  induction calls generalizing s with
  | nil => simp [runCalls]
  | cons i rest ih =>
    have := ih (s.emit (.effectHandler i))
    simp only [runCalls, List.foldl_cons] at this ⊢
    rw [this]
    simp [SingleCastState.emit]

theorem foldl_emit {α : Type} (f : α → Event) (l : List α) (s : SingleCastState) :
    l.foldl (fun st a => st.emit (f a)) s
      = { s with cast := { s.cast with log := s.cast.log ++ l.map f } } := by
  induction l generalizing s with
  | nil => simp
  | cons a rest ih =>
    rw [List.foldl_cons, ih]
    simp [SingleCastState.emit]

theorem applyAllEffects_log (s : SingleCastState) :
    (applyAllEffects s).cast.log
        = s.cast.log ++ (dispatchTrace s.spell.effects).map Event.effectHandler
          ++ [.completedEffects]
          ++ s.spell.additionalspells.map (fun spell => Event.castSpell
              { spell := spell, target := s.target, basePoints := -1, castTime := 0,
                isProc := true })
      ∧ (applyAllEffects s).cast.executer = s.cast.executer
      ∧ (applyAllEffects s).hasFinished = s.hasFinished := by
  unfold applyAllEffects dispatchEffects
  simp only [effectTableLoop_eq_runCalls, ← dispatchTrace_eq_tableHits, runCalls_emit,
    foldl_emit]
  simp [SingleCastState.emit]

/-- Claim C1: the calls of `applyAllEffects` are the handler calls of the
dispatch, then the completion signal, then the additional spells; the handler
calls are the declared effect slots with a kind of the dispatch table, each
passed to the handler bound to its kind, sorted by table position with
declaration order kept among equal kinds (a stable sort).  Hence a heal call never follows a school-damage call, also
when School Damage is declared first, and after a call for Apply Aura or School
Damage only such calls follow. -/
theorem applyAllEffects_runs_in_table_order (s : SingleCastState) :
    (applyAllEffects s).cast.log
        = s.cast.log ++ (dispatchTrace s.spell.effects).map Event.effectHandler
          ++ [.completedEffects]
          ++ s.spell.additionalspells.map (fun spell => Event.castSpell
              { spell := spell, target := s.target, basePoints := -1, castTime := 0,
                isProc := true })
      ∧ ((dispatchTrace s.spell.effects).map (fun i => (i.slot, i.effect))).Perm
          (s.spell.effects.enum.filter (fun p => inTable p.2.type))
      ∧ (∀ i ∈ dispatchTrace s.spell.effects, (i.effect.type, i.handler) ∈ effectMap)
      ∧ (dispatchTrace s.spell.effects).Pairwise dispatchedBefore
      ∧ (dispatchTrace s.spell.effects).Pairwise
          (fun a b => ¬ (a.effect.type = .SchoolDamage ∧ b.effect.type = .Heal))
      ∧ dispatchTrace [{ type := .SchoolDamage }, { type := .Heal }]
          = [⟨.spellEffectHeal, 1, { type := .Heal }⟩,
             ⟨.spellEffectSchoolDamage, 0, { type := .SchoolDamage }⟩]
      ∧ (dispatchTrace s.spell.effects).Pairwise
          (fun a b => isAuraOrSchoolDamage a → isAuraOrSchoolDamage b) := by
  refine ⟨(applyAllEffects_log s).1, ?_⟩
  generalize s.spell.effects = effects
  refine ⟨dispatchTrace_perm effects, fun i hi => (mem_dispatchTrace hi).1,
    dispatchTrace_pairwise effects, ?_, rfl, ?_⟩
  · refine (dispatchTrace_pairwise effects).imp ?_
    rintro a b hab ⟨ha, hb⟩
    unfold dispatchedBefore at hab
    rw [ha, hb] at hab
    rcases hab with h | ⟨h, _⟩ <;> revert h <;> decide
  · refine (dispatchTrace_pairwise effects).imp_of_mem ?_
    intro a b _ hb hab ha
    have hmem : b.effect.type ∈ effectMap.map Prod.fst :=
      List.mem_map_of_mem Prod.fst (mem_dispatchTrace hb).1
    apply tablePos_last_two _ hmem
    have hpa : 26 ≤ tablePos a.effect.type := by
      rcases ha with ha | ha <;> rw [ha] <;> decide
    unfold dispatchedBefore at hab
    omega

/-- Claim C2: apart from the completion signal and the additional spells, the
calls of `applyAllEffects` are the handler calls of the dispatch.  A handler is
called exactly once for each declared effect slot whose kind is in the dispatch
table, with the effect of that slot and the handler bound to its kind, and
never for a slot of another kind; the
number of calls is the number of declared slots with a table kind; under every
handler semantics the state after the dispatch is the one reached by these
calls alone, so slots of other kinds change nothing and raise no error. -/
theorem applyAllEffects_calls_each_table_slot_once (s : SingleCastState) :
    (applyAllEffects s).cast.log
        = s.cast.log ++ (dispatchTrace s.spell.effects).map Event.effectHandler
          ++ [.completedEffects]
          ++ s.spell.additionalspells.map (fun spell => Event.castSpell
              { spell := spell, target := s.target, basePoints := -1, castTime := 0,
                isProc := true })
      ∧ (∀ (k : Nat) (e : SpellEffect), s.spell.effects[k]? = some e →
          (dispatchTrace s.spell.effects).countP (fun i => decide (i.slot = k))
            = if inTable e.type then 1 else 0)
      ∧ (∀ i ∈ dispatchTrace s.spell.effects,
          s.spell.effects[i.slot]? = some i.effect ∧ inTable i.effect.type = true
            ∧ (i.effect.type, i.handler) ∈ effectMap)
      ∧ (dispatchTrace s.spell.effects).length
          = (s.spell.effects.filter (fun e => inTable e.type)).length
      ∧ (∀ (σ : Type) (call : EffectHandler → Nat → SpellEffect → σ → σ) (st : σ),
          dispatchEffects call s.spell.effects st
            = runCalls call (dispatchTrace s.spell.effects) st)
      ∧ ((∀ e ∈ s.spell.effects, inTable e.type = false) →
          ∀ (σ : Type) (call : EffectHandler → Nat → SpellEffect → σ → σ) (st : σ),
            dispatchEffects call s.spell.effects st = st) := by
  refine ⟨(applyAllEffects_log s).1, ?_⟩
  generalize s.spell.effects = effects
  have hrun : ∀ (σ : Type) (call : EffectHandler → Nat → SpellEffect → σ → σ) (s : σ),
      dispatchEffects call effects s = runCalls call (dispatchTrace effects) s := by
    intro σ call s
    rw [dispatchTrace_eq_tableHits]
    exact effectTableLoop_eq_runCalls call effectMap effects s
  have hlen : (dispatchTrace effects).length
      = (effects.filter (fun e => inTable e.type)).length := by
    have h1 := (dispatchTrace_perm effects).length_eq
    rw [List.length_map] at h1
    rw [h1]
    have h2 : (effects.enum.filter (fun p => inTable p.2.type)).map Prod.snd
        = effects.filter (fun e => inTable e.type) := by
      have hcomp : (fun p : Nat × SpellEffect => inTable p.2.type)
          = (fun e : SpellEffect => inTable e.type) ∘ Prod.snd := rfl
      rw [hcomp, ← List.filter_map, List.enum_map_snd]
    rw [← h2, List.length_map]
  refine ⟨?_, ?_, hlen, hrun, ?_⟩
  · intro k e hk
    have hmap : (dispatchTrace effects).countP (fun i => decide (i.slot = k))
        = ((dispatchTrace effects).map (fun i => (i.slot, i.effect))).countP
            (fun p => decide (p.1 = k)) := by
      rw [List.countP_map]; rfl
    rw [hmap, (dispatchTrace_perm effects).countP_eq, List.countP_filter, List.enum]
    have := countP_enumFrom_slot (fun e => inTable e.type) effects 0 k e (Nat.zero_le k)
      (by simpa using hk)
    simpa using this
  · intro i hi
    refine ⟨(mem_dispatchTrace hi).2, ?_, (mem_dispatchTrace hi).1⟩
    simp only [inTable, decide_eq_true_eq]
    exact List.mem_map_of_mem Prod.fst (mem_dispatchTrace hi).1
  · intro hnone σ call s
    rw [hrun]
    have hnil : dispatchTrace effects = [] := by
      apply List.eq_nil_of_length_eq_zero
      rw [hlen, List.length_eq_zero, List.filter_eq_nil_iff]
      intro e he
      simp [hnone e he]
    rw [hnil]
    rfl

/-! ### Rounding -/

theorem log2Nat_spec : ∀ (fuel n : Nat), 1 ≤ n → n ≤ fuel →
    2 ^ log2Nat fuel n ≤ n ∧ n < 2 ^ (log2Nat fuel n + 1) := by
  intro fuel
  induction fuel with
  | zero => intro n h1 h2; omega
  | succ fuel ih =>
    intro n h1 h2
    unfold log2Nat
    by_cases hn : n < 2
    · simp only [hn, if_true]
      constructor <;> simp <;> omega
    · simp only [hn, if_false]
      obtain ⟨ha, hb⟩ := ih (n / 2) (by omega) (by omega)
      rw [pow_succ, pow_succ]
      constructor <;> omega

theorem ilog2_spec (q : ℚ) (hq : q ≠ 0) :
    (2 : ℚ) ^ ilog2 q ≤ |q| ∧ |q| < (2 : ℚ) ^ (ilog2 q + 1) := by
  have hnum : q.num ≠ 0 := Rat.num_ne_zero.mpr hq
  have ha1 : 1 ≤ q.num.natAbs := Int.natAbs_pos.mpr hnum
  have hb1 : 1 ≤ q.den := q.den_pos
  obtain ⟨hal, hau⟩ := log2Nat_spec q.num.natAbs q.num.natAbs ha1 le_rfl
  obtain ⟨hbl, hbu⟩ := log2Nat_spec q.den q.den hb1 le_rfl
  have habs : |q| = (q.num.natAbs : ℚ) / (q.den : ℚ) := by
    conv_lhs => rw [← Rat.num_div_den q]
    rw [abs_div, Nat.abs_cast, Nat.cast_natAbs, Int.cast_abs]
  have hbpos : (0 : ℚ) < q.den := by exact_mod_cast hb1
  have hal' : (2 : ℚ) ^ (log2Nat q.num.natAbs q.num.natAbs) ≤ (q.num.natAbs : ℚ) := by
    exact_mod_cast hal
  have hau' : (q.num.natAbs : ℚ) < (2 : ℚ) ^ (log2Nat q.num.natAbs q.num.natAbs + 1) := by
    exact_mod_cast hau
  have hbl' : (2 : ℚ) ^ (log2Nat q.den q.den) ≤ (q.den : ℚ) := by exact_mod_cast hbl
  have hbu' : (q.den : ℚ) < (2 : ℚ) ^ (log2Nat q.den q.den + 1) := by exact_mod_cast hbu
  have h2 : (2 : ℚ) ≠ 0 := by norm_num
  unfold ilog2
  simp only
  split
  · rename_i hle
    refine ⟨hle, ?_⟩
    rw [habs, div_lt_iff₀ hbpos]
    calc (q.num.natAbs : ℚ) < (2 : ℚ) ^ (log2Nat q.num.natAbs q.num.natAbs + 1) := hau'
      _ = (2 : ℚ) ^ ((log2Nat q.num.natAbs q.num.natAbs : ℤ) - (log2Nat q.den q.den : ℤ) + 1)
            * (2 : ℚ) ^ (log2Nat q.den q.den) := by
          rw [← zpow_natCast, ← zpow_natCast, ← zpow_add₀ h2]
          congr 1; push_cast; ring
      _ ≤ _ := by
          apply mul_le_mul_of_nonneg_left hbl'
          positivity
  · rename_i hnle
    refine ⟨?_, ?_⟩
    · rw [habs, le_div_iff₀ hbpos]
      calc (2 : ℚ) ^ ((log2Nat q.num.natAbs q.num.natAbs : ℤ) - (log2Nat q.den q.den : ℤ) - 1)
            * (q.den : ℚ)
          ≤ (2 : ℚ) ^ ((log2Nat q.num.natAbs q.num.natAbs : ℤ) - (log2Nat q.den q.den : ℤ) - 1)
            * (2 : ℚ) ^ (log2Nat q.den q.den + 1) := by
            apply mul_le_mul_of_nonneg_left hbu'.le
            positivity
        _ = (2 : ℚ) ^ (log2Nat q.num.natAbs q.num.natAbs) := by
            rw [← zpow_natCast, ← zpow_natCast, ← zpow_add₀ h2]
            congr 1; push_cast; ring
        _ ≤ _ := hal'
    · have : (log2Nat q.num.natAbs q.num.natAbs : ℤ) - (log2Nat q.den q.den : ℤ) - 1 + 1
          = (log2Nat q.num.natAbs q.num.natAbs : ℤ) - (log2Nat q.den q.den : ℤ) := by ring
      rw [this]
      exact not_le.mp hnle

theorem roundHalfEven_intCast (m : ℤ) : roundHalfEven (m : ℚ) = m := by
  simp [roundHalfEven]

theorem fround_zero (p : Nat) : fround p 0 = 0 := by
  simp [fround]

theorem fround_of_exact (p : Nat) (q : ℚ) (m : ℤ)
    (h : q / 2 ^ (ilog2 q - ((p : ℤ) - 1)) = (m : ℚ)) : fround p q = q := by
  by_cases hq : q = 0
  · simp [fround, hq]
  · simp only [fround, hq, if_false]
    rw [h, roundHalfEven_intCast, ← h]
    have : (2 : ℚ) ^ (ilog2 q - ((p : ℤ) - 1)) ≠ 0 := by positivity
    field_simp

theorem ilog2_intCast_bounds (p : Nat) (n : ℤ) (hn0 : n ≠ 0) (hn : |n| ≤ 2 ^ p) :
    0 ≤ ilog2 (n : ℚ) ∧ ilog2 (n : ℚ) ≤ p
      ∧ (ilog2 (n : ℚ) = p → |n| = 2 ^ p) := by
  have hq : (n : ℚ) ≠ 0 := by exact_mod_cast hn0
  obtain ⟨hl, hu⟩ := ilog2_spec (n : ℚ) hq
  have habs1 : (1 : ℚ) ≤ |(n : ℚ)| := by
    have : (1 : ℤ) ≤ |n| := Int.one_le_abs hn0
    exact_mod_cast this
  have habs2 : |(n : ℚ)| ≤ (2 : ℚ) ^ (p : ℤ) := by
    rw [zpow_natCast]
    exact_mod_cast hn
  have h1 : (1 : ℚ) ≤ 2 := by norm_num
  have hlow : 0 ≤ ilog2 (n : ℚ) := by
    by_contra hneg
    have : ilog2 (n : ℚ) + 1 ≤ 0 := by omega
    have := zpow_le_zpow_right₀ h1 this
    rw [zpow_zero] at this
    linarith
  have hup : ilog2 (n : ℚ) ≤ p := by
    by_contra hgt
    have : (p : ℤ) + 1 ≤ ilog2 (n : ℚ) := by omega
    have h3 := zpow_le_zpow_right₀ h1 this
    have h4 : (2 : ℚ) ^ (p : ℤ) < (2 : ℚ) ^ ((p : ℤ) + 1) := by
      rw [zpow_add_one₀ (by norm_num : (2 : ℚ) ≠ 0)]
      have : (0 : ℚ) < (2 : ℚ) ^ (p : ℤ) := by positivity
      linarith
    linarith
  refine ⟨hlow, hup, ?_⟩
  intro heq
  rw [heq] at hl
  have : |(n : ℚ)| = (2 : ℚ) ^ (p : ℤ) := le_antisymm habs2 hl
  rw [zpow_natCast] at this
  exact_mod_cast this

theorem fround_intCast (p : Nat) (hp : 1 ≤ p) (n : ℤ) (hn : |n| ≤ 2 ^ p) :
    fround p (n : ℚ) = (n : ℚ) := by
  by_cases hn0 : n = 0
  · simp [hn0, fround_zero]
  obtain ⟨hlow, hup, htop⟩ := ilog2_intCast_bounds p n hn0 hn
  by_cases hlt : ilog2 (n : ℚ) ≤ (p : ℤ) - 1
  · -- the unit in the last place is at most one
    obtain ⟨j, hj⟩ : ∃ j : Nat, ilog2 (n : ℚ) - ((p : ℤ) - 1) = -(j : ℤ) :=
      ⟨((p : ℤ) - 1 - ilog2 (n : ℚ)).toNat, by omega⟩
    apply fround_of_exact p (n : ℚ) (n * 2 ^ j)
    rw [hj, zpow_neg, zpow_natCast]
    push_cast
    field_simp
  · -- the magnitude is exactly `2 ^ p`
    have heq : ilog2 (n : ℚ) = p := by omega
    have habs := htop heq
    obtain ⟨k, hk⟩ : ∃ k : Nat, p = k + 1 := ⟨p - 1, by omega⟩
    have hhalf : ∃ m : ℤ, n = 2 * m := by
      rcases abs_eq (by positivity : (0 : ℤ) ≤ 2 ^ p) |>.mp habs with h | h
      · exact ⟨2 ^ k, by rw [h, hk, pow_succ]; ring⟩
      · exact ⟨-2 ^ k, by rw [h, hk, pow_succ]; ring⟩
    obtain ⟨m, hm⟩ := hhalf
    apply fround_of_exact p (n : ℚ) m
    have he : ilog2 (n : ℚ) - ((p : ℤ) - 1) = 1 := by omega
    rw [he, zpow_one, hm]
    push_cast
    field_simp

theorem f32_intCast (n : ℤ) (hn : |n| ≤ 2 ^ 24) : f32 (n : ℚ) = (n : ℚ) :=
  fround_intCast 24 (by norm_num) n hn

theorem f32_zero : f32 0 = 0 := fround_zero 24

theorem f32_one : f32 1 = 1 := by
  have := f32_intCast 1 (by norm_num)
  simpa using this

theorem truncToInt_intCast (n : ℤ) : truncToInt (n : ℚ) = n := by
  unfold truncToInt
  split
  · simp
  · rw [← Int.cast_neg, Int.floor_intCast]; simp

theorem uniformInt_mem (a b : Int) (raw : Nat) (h : a < b) :
    a ≤ uniformInt a b raw ∧ uniformInt a b raw ≤ b := by
  unfold uniformInt
  have hpos : 0 < (b - a + 1).toNat := by omega
  have hlt := Nat.mod_lt raw hpos
  constructor <;> omega

/-! ### Base points -/

theorem scaledLevel_eq_specLevel (s : SingleCastState)
    (h : s.spell.maxlevel > 0 → s.spell.baselevel ≤ s.spell.maxlevel) :
    scaledLevel s = specLevel s := by
  unfold scaledLevel specLevel
  simp only [max_def, min_def]
  by_cases hm : s.spell.maxlevel > 0
  · have := h hm
    split_ifs <;> omega
  · split_ifs <;> omega

/-- Claim C3: `calculateEffectBasePoints` is the reference algorithm of the
specification, provided `baseLevel ≤ maxLevel` when `maxLevel > 0`: the result
is base plus random value plus combo bonus, over the clamped level; the random
value is the base dice when they reach the random range and otherwise lies
between the base dice and the random range; the combo bonus is zero for a
caster that is not a player. -/
theorem calculateEffectBasePoints_eq_spec (s : SingleCastState) (effect : SpellEffect)
    (raw : Nat) (h : s.spell.maxlevel > 0 → s.spell.baselevel ≤ s.spell.maxlevel) :
    calculateEffectBasePoints s effect raw
        = specBase s effect + specRandomValue s effect raw + specComboBonus s effect
      ∧ (effect.basedice ≥ specRandomRange s effect →
          specRandomValue s effect raw = effect.basedice)
      ∧ (effect.basedice < specRandomRange s effect →
          effect.basedice ≤ specRandomValue s effect raw
            ∧ specRandomValue s effect raw ≤ specRandomRange s effect)
      ∧ (s.cast.executer.isCharacter = false → specComboBonus s effect = 0) := by
  have hl := scaledLevel_eq_specLevel s h
  refine ⟨?_, ?_, ?_, ?_⟩
  · unfold calculateEffectBasePoints effectBasePoints effectRandomPoints effectComboDamage
      specBase specRandomValue specRandomRange specComboBonus casterComboPoints
    rw [hl]
    by_cases hb : s.basePoints = -1 <;> simp [hb]
  · intro hge
    simp [specRandomValue, hge]
  · intro hlt
    have hnot : ¬ effect.basedice ≥ specRandomRange s effect := by omega
    simp only [specRandomValue, hnot, if_false]
    exact uniformInt_mem _ _ raw hlt
  · intro hnp
    simp [specComboBonus, hnp, f32_zero, truncToInt]

/-- Witness for C3 on `exampleCast`, whose spell has levels five to ten. -/
theorem calculateEffectBasePoints_eq_spec_witness :
    calculateEffectBasePoints exampleCast exampleEffect 7
        = specBase exampleCast exampleEffect + specRandomValue exampleCast exampleEffect 7
          + specComboBonus exampleCast exampleEffect
      ∧ (exampleEffect.basedice ≥ specRandomRange exampleCast exampleEffect →
          specRandomValue exampleCast exampleEffect 7 = exampleEffect.basedice)
      ∧ (exampleEffect.basedice < specRandomRange exampleCast exampleEffect →
          exampleEffect.basedice ≤ specRandomValue exampleCast exampleEffect 7
            ∧ specRandomValue exampleCast exampleEffect 7
                ≤ specRandomRange exampleCast exampleEffect)
      ∧ (exampleCast.cast.executer.isCharacter = false →
          specComboBonus exampleCast exampleEffect = 0) :=
  calculateEffectBasePoints_eq_spec exampleCast exampleEffect 7 (by decide)

/-- Claim C4: when the base dice reach the level-scaled random range, the
result of `calculateEffectBasePoints` is the same for any two outputs of the
random engine and equals base plus base dice plus combo bonus. -/
theorem calculateEffectBasePoints_deterministic (s : SingleCastState)
    (effect : SpellEffect) (raw₁ raw₂ : Nat)
    (h : effect.basedice ≥ effectRandomPoints s effect) :
    calculateEffectBasePoints s effect raw₁ = calculateEffectBasePoints s effect raw₂
      ∧ calculateEffectBasePoints s effect raw₁
          = effectBasePoints s effect + effect.basedice + effectComboDamage s effect := by
  simp [calculateEffectBasePoints, h]

/-- Witness for C4: an effect with six base dice and a range of six. -/
theorem calculateEffectBasePoints_deterministic_witness :
    calculateEffectBasePoints exampleCast { exampleEffect with basedice := 6 } 3
        = calculateEffectBasePoints exampleCast { exampleEffect with basedice := 6 } 11
      ∧ calculateEffectBasePoints exampleCast { exampleEffect with basedice := 6 } 3
          = effectBasePoints exampleCast { exampleEffect with basedice := 6 }
            + ({ exampleEffect with basedice := 6 } : SpellEffect).basedice
            + effectComboDamage exampleCast { exampleEffect with basedice := 6 } :=
  calculateEffectBasePoints_deterministic exampleCast { exampleEffect with basedice := 6 } 3 11
    (by decide!)

/-- Counterexample for C5: with `-5` points the total is not a `UInt32` at all,
and with `16777217` points (base points `2 ^ 24` and one base die) the
single-precision sum loses the last unit: in both cases
`getSpellPointsTotal(effect, 0, 0)` differs from
`calculateEffectBasePoints(effect)`. -/
theorem getSpellPointsTotal_zero_bonus_differs :
    (calculateEffectBasePoints exampleCast (fixedEffect (-5)) 0 = -5
        ∧ getSpellPointsTotal exampleCast (fixedEffect (-5)) 0 0 0 = none)
      ∧ (calculateEffectBasePoints exampleCast
            { fixedEffect 16777216 with basedice := 1 } 0 = 16777217
        ∧ getSpellPointsTotal exampleCast
            { fixedEffect 16777216 with basedice := 1 } 0 0 0 = some 16777216) := by
  decide!

/-- Claim C5, amended: when `calculateEffectBasePoints(effect)` lies between `0`
and `2 ^ 24`, `getSpellPointsTotal(effect, 0, 0)` with the same random draw is
defined and equal to it, whatever the cast time. -/
theorem getSpellPointsTotal_zero_bonus (s : SingleCastState) (effect : SpellEffect)
    (raw : Nat) (h₀ : 0 ≤ calculateEffectBasePoints s effect raw)
    (h₁ : calculateEffectBasePoints s effect raw ≤ 2 ^ 24) :
    ∃ n : Nat, getSpellPointsTotal s effect 0 0 raw = some n
      ∧ (n : Int) = calculateEffectBasePoints s effect raw := by
  refine ⟨(calculateEffectBasePoints s effect raw).toNat, ?_, Int.toNat_of_nonneg h₀⟩
  have habs : |calculateEffectBasePoints s effect raw| ≤ 2 ^ 24 := by
    rw [abs_of_nonneg h₀]; exact h₁
  have hone : (((1 + 0 / 100) % 2 ^ 32 : Nat) : ℚ) = 1 := by norm_num
  unfold getSpellPointsTotal
  simp only [hone, Nat.cast_zero, f32_zero, mul_zero, add_zero, f32_one, mul_one,
    f32_intCast _ habs, floatToUInt32, truncToInt_intCast]
  have hlt : calculateEffectBasePoints s effect raw < 4294967296 := by
    have h₂ : calculateEffectBasePoints s effect raw ≤ 16777216 := by
      simpa using h₁
    omega
  simp [h₀, hlt]

/-- Witness for C5 on `exampleCast`, whose effect yields nine points. -/
theorem getSpellPointsTotal_zero_bonus_witness :
    ∃ n : Nat, getSpellPointsTotal exampleCast exampleEffect 0 0 7 = some n
      ∧ (n : Int) = calculateEffectBasePoints exampleCast exampleEffect 7 :=
  getSpellPointsTotal_zero_bonus exampleCast exampleEffect 7 (by decide!) (by decide!)

/-- Claim C6, evaluated where the code departs from it: with a cast time of
3500 ms, 100 base points and a spell power of 100, a bonus of 50 percent
yields 200, the value without any bonus, where the exact quotient would give
300; the quotient `bonusPct / 100` is taken between integers. -/
theorem getSpellPointsTotal_bonus_percent_truncated :
    calculateEffectBasePoints { exampleCast with castTime := 3500 } (fixedEffect 100) 0 = 100
      ∧ getSpellPointsTotal { exampleCast with castTime := 3500 } (fixedEffect 100) 100 50 0
          = some 200
      ∧ getSpellPointsTotal { exampleCast with castTime := 3500 } (fixedEffect 100) 100 0 0
          = some 200 := by
  decide!

/-! ### Resource consumption and the cast life cycle -/

theorem totalCost_eq_specTotalCost (s : SingleCastState)
    (hfit : s.cast.executer.baseHealth * s.spell.costpct < 2 ^ 32
      ∧ s.cast.executer.baseMana * s.spell.costpct < 2 ^ 32) :
    totalCost s = specTotalCost s := by
  have h1 : s.cast.executer.baseHealth * s.spell.costpct < 4294967296 := by
    simpa using hfit.1
  have h2 : s.cast.executer.baseMana * s.spell.costpct < 4294967296 := by
    simpa using hfit.2
  unfold totalCost specTotalCost
  by_cases hc : s.spell.cost > 0
  · simp [hc]
  · by_cases hp : s.spell.costpct > 0
    · simp only [hc, hp, if_true, if_false]
      cases s.spell.powertype <;>
        simp [Nat.mod_eq_of_lt h1, Nat.mod_eq_of_lt h2]
    · have hz : s.spell.costpct = 0 := by omega
      simp only [hc, hp, if_false]
      cases s.spell.powertype <;> simp [hz]

/-- Counterexample for C7: with a base health of `2 ^ 31` and a cost of two
percent the cost of the specification is 42949672, more than the 100 health of
the caster, yet `consumePower` returns true and deducts nothing: the product
is taken in 32-bit arithmetic and wraps to zero. -/
theorem consumePower_percent_cost_wraps :
    specTotalCost wrappingCostCast = 42949672
      ∧ wrappingCostCast.cast.executer.getPower wrappingCostCast.spell.powertype
          < specTotalCost wrappingCostCast
      ∧ (consumePower {} wrappingCostCast).1 = true
      ∧ (consumePower {} wrappingCostCast).2.cast.executer
          = wrappingCostCast.cast.executer := by
  decide

/-- Claim C7, amended: when the percentage products fit in 32 bits,
`consumePower` returns false exactly when the cost is positive and exceeds the
paying field, and then no unit field of the caster changes; otherwise it
returns true, the paying field is reduced by exactly the cost and every other
health or power field, base health and base mana keep their value. -/
theorem consumePower_all_or_nothing (w : World) (s : SingleCastState)
    (hfit : s.cast.executer.baseHealth * s.spell.costpct < 2 ^ 32
      ∧ s.cast.executer.baseMana * s.spell.costpct < 2 ^ 32) :
    ((consumePower w s).1 = false ↔
        (0 < specTotalCost s
          ∧ s.cast.executer.getPower s.spell.powertype < specTotalCost s))
      ∧ ((consumePower w s).1 = false →
          (consumePower w s).2.cast.executer = s.cast.executer)
      ∧ ((consumePower w s).1 = true →
          (consumePower w s).2.cast.executer.getPower s.spell.powertype + specTotalCost s
              = s.cast.executer.getPower s.spell.powertype
            ∧ (∀ t : PowerType, t ≠ s.spell.powertype →
                (consumePower w s).2.cast.executer.getPower t = s.cast.executer.getPower t)
            ∧ (consumePower w s).2.cast.executer.baseHealth = s.cast.executer.baseHealth
            ∧ (consumePower w s).2.cast.executer.baseMana = s.cast.executer.baseMana) := by
  rw [← totalCost_eq_specTotalCost s hfit]
  unfold consumePower
  simp only
  by_cases hc : totalCost s > 0
  · by_cases hh : s.spell.powertype = .Health
    · by_cases hlt : s.cast.executer.health < totalCost s
      · simp [hc, hh, hlt, GameUnit.getPower, sendEndCast, SingleCastState.emit]
        split_ifs <;> simp
      · simp [hc, hh, hlt, GameUnit.getPower, SingleCastState.setExecuter]
        refine ⟨by omega, ?_⟩
        intro t ht
        cases t <;> simp_all [GameUnit.getPower]
    · by_cases hlt : s.cast.executer.getPower s.spell.powertype < totalCost s
      · simp [hc, hh, hlt, sendEndCast, SingleCastState.emit]
        split_ifs <;> simp
      · simp only [hc, hh, hlt, if_true, if_false]
        have hle : totalCost s ≤ s.cast.executer.getPower s.spell.powertype := by omega
        generalize totalCost s = cost at hle hc hlt ⊢
        revert hle hh
        cases s.spell.powertype <;> intro hh hle <;>
          simp_all [GameUnit.getPower, GameUnit.setPower, SingleCastState.setExecuter] <;>
          (intro t ht; cases t <;> simp_all [GameUnit.getPower])
  · simp [hc]
    omega

/-- Witness for C7 on `exampleCast`: a cost of 30 paid from 100 mana. -/
theorem consumePower_all_or_nothing_witness :
    ((consumePower {} exampleCast).1 = false ↔
        (0 < specTotalCost exampleCast
          ∧ exampleCast.cast.executer.getPower exampleCast.spell.powertype
              < specTotalCost exampleCast))
      ∧ ((consumePower {} exampleCast).1 = false →
          (consumePower {} exampleCast).2.cast.executer = exampleCast.cast.executer)
      ∧ ((consumePower {} exampleCast).1 = true →
          (consumePower {} exampleCast).2.cast.executer.getPower exampleCast.spell.powertype
                + specTotalCost exampleCast
              = exampleCast.cast.executer.getPower exampleCast.spell.powertype
            ∧ (∀ t : PowerType, t ≠ exampleCast.spell.powertype →
                (consumePower {} exampleCast).2.cast.executer.getPower t
                  = exampleCast.cast.executer.getPower t)
            ∧ (consumePower {} exampleCast).2.cast.executer.baseHealth
                = exampleCast.cast.executer.baseHealth
            ∧ (consumePower {} exampleCast).2.cast.executer.baseMana
                = exampleCast.cast.executer.baseMana) :=
  consumePower_all_or_nothing {} exampleCast (by decide)

/-- Claim C8, evaluated where the code departs from it: a player with 100 mana
casts a spell costing 30 mana through an item that is not in the inventory.
Completion pays the mana, then fails on the item and aborts without effect,
notification or `ended` signal, leaving 70 mana; the swing callback does the
same and reports the missing item. -/
theorem onCastFinished_item_failure_after_power_paid :
    itemCast.cast.executer.mana = 100
      ∧ (consumeItem {} (consumePower {} itemCast).2).1 = false
      ∧ (onCastFinished {} itemCast).cast.executer.mana = 70
      ∧ (onCastFinished {} itemCast).cast.log = []
      ∧ (attackSwingCallback {} itemCast).1 = false
      ∧ (attackSwingCallback {} itemCast).2.cast.executer.mana = 70
      ∧ (attackSwingCallback {} itemCast).2.cast.log
          = [.spellCastError .FailedItemNotFound] := by
  decide!

/-- Claim C9: `startCast` returns `FailedSpellInProgress` with the handle of
the existing cast exactly when the cast has not finished and the replace flag
is false, and then the cast and its context are unchanged; in every other case
it returns `CastOkay` with the handle of the cast created from the request,
which the context then holds. -/
theorem startCast_in_progress (s : SingleCastState) (request : CastRequest)
    (doReplacePreviousCast : Bool) :
    ((startCast s request doReplacePreviousCast).1.1 = .FailedSpellInProgress ↔
        (s.hasFinished = false ∧ doReplacePreviousCast = false))
      ∧ ((s.hasFinished = false ∧ doReplacePreviousCast = false) →
          (startCast s request doReplacePreviousCast).1 = (.FailedSpellInProgress, .existing)
            ∧ (startCast s request doReplacePreviousCast).2 = s)
      ∧ (¬ (s.hasFinished = false ∧ doReplacePreviousCast = false) →
          (startCast s request doReplacePreviousCast).1 = (.CastOkay, .created request)
            ∧ (startCast s request doReplacePreviousCast).2.cast.state = .newCast request) := by
  unfold startCast castSpell
  cases hf : s.hasFinished <;> cases hr : doReplacePreviousCast <;> simp

/-- Counterexample for C10: a cast that has not finished, stopped when its
caster has no world instance any more, sends no failure notification. -/
theorem stopCast_silent_outside_world :
    exampleCast.hasFinished = false
      ∧ (stopCast { hasWorldInstance := false } exampleCast).cast.log = [.ended false] := by
  decide

/-- Claim C10, amended: `stopCast` cancels the cast-time countdown and leaves
`finished` set; the calls it makes are the two failure notifications, exactly
when the cast had not finished, the caster has a world instance and the spell
is not passive, followed by one `ended(false)` signal, and nothing else: no
effect handler, no item removal; the unit fields of the caster are unchanged;
the Cast Context becomes idle when the cast object survives the signal, and
is left as it was otherwise. -/
theorem stopCast_effects (w : World) (s : SingleCastState) :
    (stopCast w s).countdown.running = false
      ∧ (stopCast w s).hasFinished = true
      ∧ (stopCast w s).cast.log
          = s.cast.log
            ++ (if !s.hasFinished && w.hasWorldInstance && !s.spell.passive
                then [.spellFailure, .spellFailedOther] else [])
            ++ [.ended false]
      ∧ (stopCast w s).cast.executer = s.cast.executer
      ∧ (w.aliveAfterEnded = true → (stopCast w s).cast.state = .noCastState)
      ∧ (w.aliveAfterEnded = false → (stopCast w s).cast.state = s.cast.state) := by
  unfold stopCast sendEndCast Countdown.cancel SingleCastState.emit
  cases hf : s.hasFinished <;> cases hw : w.hasWorldInstance <;> cases hp : s.spell.passive <;>
    cases ha : w.aliveAfterEnded <;> simp [hf, hw, hp, ha]

/-! ### State equations -/

theorem handlerCalls_append (a b : List Event) :
    handlerCalls (a ++ b) = handlerCalls a ++ handlerCalls b := by
  simp [handlerCalls, List.filterMap_append]

theorem endedSignals_append (a b : List Event) :
    endedSignals (a ++ b) = endedSignals a ++ endedSignals b := by
  simp [endedSignals, List.filterMap_append]

theorem itemRemovals_append (a b : List Event) :
    itemRemovals (a ++ b) = itemRemovals a ++ itemRemovals b := by
  simp [itemRemovals, List.filterMap_append]

theorem castErrors_append (a b : List Event) :
    castErrors (a ++ b) = castErrors a ++ castErrors b := by
  simp [castErrors, List.filterMap_append]

theorem effectRuns_append (a b : List Event) :
    effectRuns (a ++ b) = effectRuns a + effectRuns b := by
  simp [effectRuns, List.countP_append]

theorem failureNotifications_append (a b : List Event) :
    failureNotifications (a ++ b) = failureNotifications a + failureNotifications b := by
  simp [failureNotifications, List.countP_append]

theorem successNotifications_append (a b : List Event) :
    successNotifications (a ++ b) = successNotifications a + successNotifications b := by
  simp [successNotifications, List.countP_append]

theorem swingCallbacks_append (a b : List Event) :
    swingCallbacks (a ++ b) = swingCallbacks a + swingCallbacks b := by
  simp [swingCallbacks, List.countP_append]

theorem endCastPackets_records (w : World) (spell : SpellEntry) (success : Bool) :
    handlerCalls (endCastPackets w spell success) = []
      ∧ effectRuns (endCastPackets w spell success) = 0
      ∧ endedSignals (endCastPackets w spell success) = []
      ∧ itemRemovals (endCastPackets w spell success) = []
      ∧ castErrors (endCastPackets w spell success) = []
      ∧ swingCallbacks (endCastPackets w spell success) = 0 := by
  unfold endCastPackets
  split_ifs <;>
    simp [handlerCalls, effectRuns, endedSignals, itemRemovals, castErrors, swingCallbacks]

theorem effectEvents_records (s : SingleCastState) :
    handlerCalls (effectEvents s) = dispatchTrace s.spell.effects
      ∧ effectRuns (effectEvents s) = 1
      ∧ endedSignals (effectEvents s) = []
      ∧ itemRemovals (effectEvents s) = []
      ∧ castErrors (effectEvents s) = []
      ∧ swingCallbacks (effectEvents s) = 0
      ∧ failureNotifications (effectEvents s) = 0
      ∧ successNotifications (effectEvents s) = 0 := by
  unfold effectEvents
  refine ⟨?_, ?_, ?_, ?_, ?_, ?_, ?_, ?_⟩ <;>
    simp [handlerCalls, effectRuns, endedSignals, itemRemovals, castErrors, swingCallbacks,
      failureNotifications, successNotifications, List.filterMap_append, List.filterMap_map,
      List.countP_append, List.countP_map, List.countP_eq_zero, Function.comp_def]

theorem finishEvents_records (w : World) (s : SingleCastState) :
    handlerCalls (finishEvents w s) = []
      ∧ effectRuns (finishEvents w s) = 0
      ∧ endedSignals (finishEvents w s) = [true]
      ∧ itemRemovals (finishEvents w s) = []
      ∧ castErrors (finishEvents w s) = []
      ∧ swingCallbacks (finishEvents w s) = 0
      ∧ failureNotifications (finishEvents w s) = 0
      ∧ successNotifications (finishEvents w s) = 0 := by
  unfold finishEvents
  refine ⟨?_, ?_, ?_, ?_, ?_, ?_, ?_, ?_⟩ <;> split_ifs <;>
    simp [handlerCalls, effectRuns, endedSignals, itemRemovals, castErrors, swingCallbacks,
      failureNotifications, successNotifications]

theorem sendEndCast_eq (w : World) (success : Bool) (s : SingleCastState) :
    sendEndCast w success s
      = { s with cast := { s.cast with
            log := s.cast.log ++ endCastPackets w s.spell success } } := by
  unfold sendEndCast endCastPackets SingleCastState.emit
  split_ifs <;> simp

theorem applyAllEffects_eq (s : SingleCastState) :
    applyAllEffects s
      = { s with cast := { s.cast with log := s.cast.log ++ effectEvents s } } := by
  unfold applyAllEffects dispatchEffects effectEvents
  simp only [effectTableLoop_eq_runCalls, ← dispatchTrace_eq_tableHits, runCalls_emit,
    foldl_emit]
  simp [SingleCastState.emit]

theorem finishCast_eq (w : World) (s : SingleCastState) :
    finishCast w s
      = { s with cast := { s.cast with
            executer :=
              if s.spell.reqComboPoints1 && s.cast.executer.isCharacter then
                { s.cast.executer with comboPoints := 0 }
              else s.cast.executer
            log := s.cast.log ++ finishEvents w s } } := by
  cases h1 : s.spell.reqComboPoints1 <;> cases h2 : s.cast.executer.isCharacter <;>
    cases h3 : s.spell.meleeCombatStart <;> cases h4 : w.attackTargetFound <;>
    simp [finishCast, finishEvents, SingleCastState.emit, SingleCastState.setExecuter,
      h1, h2, h3, h4]

theorem consumePower_eq (w : World) (s : SingleCastState) :
    (consumePower w s).2
      = { s with
          cast := { s.cast with
            executer := (consumePower w s).2.cast.executer
            log := s.cast.log
              ++ (if (consumePower w s).1 then [] else endCastPackets w s.spell false) }
          hasFinished := s.hasFinished || !(consumePower w s).1 } := by
  by_cases hc : totalCost s > 0
  · by_cases hh : s.spell.powertype = .Health
    · by_cases hlt : s.cast.executer.health < totalCost s
      · simp [consumePower, hc, hh, hlt, sendEndCast_eq]
      · simp [consumePower, hc, hh, hlt, SingleCastState.setExecuter]
    · by_cases hlt : s.cast.executer.getPower s.spell.powertype < totalCost s
      · simp [consumePower, hc, hh, hlt, sendEndCast_eq]
      · simp [consumePower, hc, hh, hlt, SingleCastState.setExecuter]
  · simp [consumePower, hc]

theorem consumePower_executer_of_false (w : World) (s : SingleCastState)
    (h : (consumePower w s).1 = false) :
    (consumePower w s).2.cast.executer = s.cast.executer := by
  by_cases hc : totalCost s > 0
  · by_cases hh : s.spell.powertype = .Health
    · by_cases hlt : s.cast.executer.health < totalCost s
      · simp [consumePower, hc, hh, hlt, sendEndCast_eq]
      · simp [consumePower, hc, hh, hlt] at h
    · by_cases hlt : s.cast.executer.getPower s.spell.powertype < totalCost s
      · simp [consumePower, hc, hh, hlt, sendEndCast_eq]
      · simp [consumePower, hc, hh, hlt] at h
  · simp [consumePower, hc] at h

theorem consumeItem_cases (w : World) (s : SingleCastState) :
    ((consumeItem w s).2 = s ∧ consumeItemEvents w s = [])
      ∨ (∃ slot, consumeItem w s = (true, s.emit (.removeItem slot 1))
          ∧ consumeItemEvents w s = [.removeItem slot 1])
      ∨ (consumeItem w s = (false, s.emit .inventoryChangeFailure)
          ∧ consumeItemEvents w s = [.inventoryChangeFailure]) := by
  unfold consumeItemEvents consumeItem
  by_cases h0 : s.itemGuid = 0
  · simp [h0]
  by_cases hc : s.cast.executer.isCharacter = true
  · simp only [h0, hc, if_true, if_false]
    cases h1 : w.findItemByGUID s.itemGuid with
    | none => simp
    | some itemSlot =>
      cases h2 : w.getItemAtSlot itemSlot with
      | none => simp [h2]
      | some spells =>
        cases h3 : spells.find? (fun spell =>
            spell.spell == s.spell.id && (spell.trigger == 0 || spell.trigger == 5)) with
        | none => simp [h2, h3]
        | some spell =>
          by_cases h4 : spell.charges = 4294967295
          · cases h5 : w.removeItem itemSlot 1 with
            | Okay =>
              right; left
              exact ⟨itemSlot, by simp [h2, h3, h4, h5, SingleCastState.emit]⟩
            | failure code =>
              right; right
              simp [h2, h3, h4, h5, SingleCastState.emit]
          · simp [h2, h3, h4]
  · simp [h0, hc]

theorem consumeItem_eq (w : World) (s : SingleCastState) :
    (consumeItem w s).2
      = { s with cast := { s.cast with log := s.cast.log ++ consumeItemEvents w s } } := by
  rcases consumeItem_cases w s with ⟨h, he⟩ | ⟨slot, h, he⟩ | ⟨h, he⟩
  · rw [h, he]; simp
  · rw [h, he]; simp [SingleCastState.emit]
  · rw [h, he]; simp [SingleCastState.emit]

theorem consumeItemEvents_records (w : World) (s : SingleCastState) :
    handlerCalls (consumeItemEvents w s) = []
      ∧ effectRuns (consumeItemEvents w s) = 0
      ∧ endedSignals (consumeItemEvents w s) = []
      ∧ castErrors (consumeItemEvents w s) = []
      ∧ swingCallbacks (consumeItemEvents w s) = 0
      ∧ failureNotifications (consumeItemEvents w s) = 0
      ∧ successNotifications (consumeItemEvents w s) = 0
      ∧ ((consumeItem w s).1 = false → itemRemovals (consumeItemEvents w s) = []) := by
  rcases consumeItem_cases w s with ⟨_, he⟩ | ⟨slot, h, he⟩ | ⟨h, he⟩
  · simp [he, handlerCalls, effectRuns, endedSignals, castErrors, swingCallbacks,
      failureNotifications, successNotifications, itemRemovals]
  · simp [he, h, handlerCalls, effectRuns, endedSignals, castErrors, swingCallbacks,
      failureNotifications, successNotifications]
  · simp [he, handlerCalls, effectRuns, endedSignals, castErrors, swingCallbacks,
      failureNotifications, successNotifications, itemRemovals]

theorem stopCast_eq (w : World) (s : SingleCastState) :
    stopCast w s
      = { s with
          countdown := s.countdown.cancel
          hasFinished := true
          cast := { s.cast with
            log := s.cast.log
              ++ (if s.hasFinished then [] else endCastPackets w s.spell false)
              ++ [.ended false]
            state := if w.aliveAfterEnded then .noCastState else s.cast.state } } := by
  unfold stopCast
  simp only [sendEndCast_eq, SingleCastState.emit]
  cases hf : s.hasFinished <;> cases ha : w.aliveAfterEnded <;> simp [hf, ha]

theorem stopCast_records (w : World) (s : SingleCastState) :
    (stopCast w s).hasFinished = true
      ∧ (stopCast w s).countdown.running = false
      ∧ (stopCast w s).cast.executer = s.cast.executer
      ∧ (stopCast w s).impactCountdown = s.impactCountdown
      ∧ endedSignals (stopCast w s).cast.log = endedSignals s.cast.log ++ [false]
      ∧ handlerCalls (stopCast w s).cast.log = handlerCalls s.cast.log
      ∧ effectRuns (stopCast w s).cast.log = effectRuns s.cast.log
      ∧ itemRemovals (stopCast w s).cast.log = itemRemovals s.cast.log
      ∧ swingCallbacks (stopCast w s).cast.log = swingCallbacks s.cast.log := by
  rw [stopCast_eq]
  have h := endCastPackets_records w s.spell false
  cases hf : s.hasFinished <;>
    simp [hf, h, Countdown.cancel, endedSignals_append, handlerCalls_append, effectRuns_append,
      itemRemovals_append, swingCallbacks_append] <;>
    simp [endedSignals, handlerCalls, effectRuns, itemRemovals, swingCallbacks]

theorem onCastFinished_of_aborted {w : World} {s aborted : SingleCastState}
    (h : validateCastFinished w s = some aborted) : onCastFinished w s = aborted := by
  unfold onCastFinished
  rw [h]

theorem onCastFinished_of_swing {w : World} {s : SingleCastState}
    (hv : validateCastFinished w s = none)
    (hs : (s.spell.onNextSwing || s.spell.onNextSwing2) = true) :
    onCastFinished w s
      = finishCast w (({ s with hasFinished := true } : SingleCastState).emit
          .setAttackSwingCallback) := by
  unfold onCastFinished
  rw [hv]
  simp only [hs, if_true]

theorem onCastFinished_of_unpaid_power {w : World} {s : SingleCastState}
    (hv : validateCastFinished w s = none)
    (hs : (s.spell.onNextSwing || s.spell.onNextSwing2) = false)
    (hp : (consumePower w { s with hasFinished := true }).1 = false) :
    onCastFinished w s = (consumePower w { s with hasFinished := true }).2 := by
  unfold onCastFinished
  rw [hv]
  simp only [hs, Bool.false_eq_true, if_false]
  generalize consumePower w { s with hasFinished := true } = p at hp ⊢
  obtain ⟨b, s2⟩ := p
  simp only at hp
  subst hp
  rfl

theorem onCastFinished_of_unpaid_item {w : World} {s : SingleCastState}
    (hv : validateCastFinished w s = none)
    (hs : (s.spell.onNextSwing || s.spell.onNextSwing2) = false)
    (hp : (consumePower w { s with hasFinished := true }).1 = true)
    (hi : (consumeItem w (consumePower w { s with hasFinished := true }).2).1 = false) :
    onCastFinished w s
      = (consumeItem w (consumePower w { s with hasFinished := true }).2).2 := by
  unfold onCastFinished
  rw [hv]
  simp only [hs]
  generalize consumePower w { s with hasFinished := true } = p at hp hi ⊢
  obtain ⟨b, s2⟩ := p
  simp only at hp hi ⊢
  subst hp
  simp only [Bool.false_eq_true, if_false]
  generalize consumeItem w s2 = q at hi ⊢
  obtain ⟨c, s3⟩ := q
  simp only at hi
  subst hi
  simp

theorem onCastFinished_of_paid {w : World} {s : SingleCastState}
    (hv : validateCastFinished w s = none)
    (hs : (s.spell.onNextSwing || s.spell.onNextSwing2) = false)
    (hp : (consumePower w { s with hasFinished := true }).1 = true)
    (hi : (consumeItem w (consumePower w { s with hasFinished := true }).2).1 = true) :
    onCastFinished w s
      = if (paidCast w s).spell.speed > 0 then
          if w.hasWorldInstance then
            match w.unitTarget with
            | some unitTarget =>
              if travelTimeMS unitTarget.distance (paidCast w s).spell.speed ≥ 50 then
                finishCast w { paidCast w s with
                  projectileStart := w.currentTime
                  projectileEnd := w.currentTime
                    + travelTimeMS unitTarget.distance (paidCast w s).spell.speed
                  projectileOrigin := w.location
                  onTargetMoved := true
                  impactCountdown := (paidCast w s).impactCountdown.setEnd
                    (w.currentTime
                      + travelTimeMS unitTarget.distance (paidCast w s).spell.speed) }
              else finishCast w (applyAllEffects (paidCast w s))
            | none => finishCast w (paidCast w s)
          else finishCast w (paidCast w s)
        else finishCast w (applyAllEffects (paidCast w s)) := by
  unfold onCastFinished paidCast
  rw [hv]
  simp only [hs]
  generalize consumePower w { s with hasFinished := true } = p at hp hi ⊢
  obtain ⟨b, s2⟩ := p
  simp only at hp hi ⊢
  subst hp
  simp only [Bool.false_eq_true, if_false]
  generalize consumeItem w s2 = q at hi ⊢
  obtain ⟨c, s3⟩ := q
  simp only at hi
  subst hi
  rfl

theorem paidCast_records (w : World) (s : SingleCastState) :
    (paidCast w s).spell = s.spell
      ∧ (paidCast w s).target = s.target
      ∧ (paidCast w s).hasFinished = true
      ∧ (paidCast w s).impactCountdown = s.impactCountdown
      ∧ (paidCast w s).onTargetMoved = s.onTargetMoved
      ∧ (paidCast w s).cast.executer
          = (consumePower w { s with hasFinished := true }).2.cast.executer
      ∧ handlerCalls (paidCast w s).cast.log = handlerCalls s.cast.log
      ∧ effectRuns (paidCast w s).cast.log = effectRuns s.cast.log
      ∧ endedSignals (paidCast w s).cast.log = endedSignals s.cast.log
      ∧ swingCallbacks (paidCast w s).cast.log = swingCallbacks s.cast.log
      ∧ castErrors (paidCast w s).cast.log = castErrors s.cast.log := by
  unfold paidCast
  rw [sendEndCast_eq, consumeItem_eq, consumePower_eq]
  have h1 := endCastPackets_records w s.spell true
  have h2 := endCastPackets_records w s.spell false
  have h3 := consumeItemEvents_records w
    { s with
      cast := { s.cast with
        executer := (consumePower w { s with hasFinished := true }).2.cast.executer
        log := s.cast.log
          ++ (if (consumePower w { s with hasFinished := true }).1 then []
              else endCastPackets w s.spell false) }
      hasFinished := true || !(consumePower w { s with hasFinished := true }).1 }
  cases hp : (consumePower w { s with hasFinished := true }).1 <;>
    simp [hp, h1, h2, handlerCalls_append, effectRuns_append, endedSignals_append,
      swingCallbacks_append, castErrors_append] at h3 ⊢ <;>
    simp [h3]

theorem finishCast_records (w : World) (t : SingleCastState) :
    (finishCast w t).spell = t.spell
      ∧ (finishCast w t).hasFinished = t.hasFinished
      ∧ (finishCast w t).impactCountdown = t.impactCountdown
      ∧ (finishCast w t).projectileStart = t.projectileStart
      ∧ (finishCast w t).projectileEnd = t.projectileEnd
      ∧ (finishCast w t).onTargetMoved = t.onTargetMoved
      ∧ (∀ p : PowerType,
          (finishCast w t).cast.executer.getPower p = t.cast.executer.getPower p)
      ∧ handlerCalls (finishCast w t).cast.log = handlerCalls t.cast.log
      ∧ effectRuns (finishCast w t).cast.log = effectRuns t.cast.log
      ∧ endedSignals (finishCast w t).cast.log = endedSignals t.cast.log ++ [true]
      ∧ swingCallbacks (finishCast w t).cast.log = swingCallbacks t.cast.log
      ∧ castErrors (finishCast w t).cast.log = castErrors t.cast.log
      ∧ itemRemovals (finishCast w t).cast.log = itemRemovals t.cast.log := by
  rw [finishCast_eq]
  have h := finishEvents_records w t
  refine ⟨rfl, rfl, rfl, rfl, rfl, rfl, ?_, ?_, ?_, ?_, ?_, ?_, ?_⟩
  · intro p
    cases p <;> simp only [GameUnit.getPower] <;> split_ifs <;> rfl
  all_goals
    simp [h, handlerCalls_append, effectRuns_append, endedSignals_append,
      swingCallbacks_append, castErrors_append, itemRemovals_append]

theorem applyAllEffects_records (t : SingleCastState) :
    (applyAllEffects t).spell = t.spell
      ∧ (applyAllEffects t).hasFinished = t.hasFinished
      ∧ (applyAllEffects t).impactCountdown = t.impactCountdown
      ∧ (applyAllEffects t).onTargetMoved = t.onTargetMoved
      ∧ (applyAllEffects t).cast.executer = t.cast.executer
      ∧ handlerCalls (applyAllEffects t).cast.log
          = handlerCalls t.cast.log ++ dispatchTrace t.spell.effects
      ∧ effectRuns (applyAllEffects t).cast.log = effectRuns t.cast.log + 1
      ∧ endedSignals (applyAllEffects t).cast.log = endedSignals t.cast.log
      ∧ swingCallbacks (applyAllEffects t).cast.log = swingCallbacks t.cast.log
      ∧ castErrors (applyAllEffects t).cast.log = castErrors t.cast.log
      ∧ itemRemovals (applyAllEffects t).cast.log = itemRemovals t.cast.log := by
  rw [applyAllEffects_eq]
  have h := effectEvents_records t
  refine ⟨rfl, rfl, rfl, rfl, rfl, ?_, ?_, ?_, ?_, ?_, ?_⟩
  all_goals
    simp [h, handlerCalls_append, effectRuns_append, endedSignals_append,
      swingCallbacks_append, castErrors_append, itemRemovals_append]

@[simp] theorem handlerCalls_nil : handlerCalls [] = [] := rfl

@[simp] theorem handlerCalls_cons (e : Event) (log : List Event) :
    handlerCalls (e :: log)
      = (match e with
          | .effectHandler call => [call]
          | _ => []) ++ handlerCalls log := by
  cases e <;> simp [handlerCalls]

@[simp] theorem endedSignals_nil : endedSignals [] = [] := rfl

@[simp] theorem endedSignals_cons (e : Event) (log : List Event) :
    endedSignals (e :: log)
      = (match e with
          | .ended success => [success]
          | _ => []) ++ endedSignals log := by
  cases e <;> simp [endedSignals]

@[simp] theorem itemRemovals_nil : itemRemovals [] = [] := rfl

@[simp] theorem itemRemovals_cons (e : Event) (log : List Event) :
    itemRemovals (e :: log)
      = (match e with
          | .removeItem slot count => [(slot, count)]
          | _ => []) ++ itemRemovals log := by
  cases e <;> simp [itemRemovals]

@[simp] theorem castErrors_nil : castErrors [] = [] := rfl

@[simp] theorem castErrors_cons (e : Event) (log : List Event) :
    castErrors (e :: log)
      = (match e with
          | .spellCastError code => [code]
          | _ => []) ++ castErrors log := by
  cases e <;> simp [castErrors]

@[simp] theorem effectRuns_nil : effectRuns [] = 0 := rfl

@[simp] theorem effectRuns_cons (e : Event) (log : List Event) :
    effectRuns (e :: log)
      = effectRuns log + (match e with
          | .completedEffects => 1
          | _ => 0) := by
  cases e <;> simp [effectRuns]

@[simp] theorem failureNotifications_nil : failureNotifications [] = 0 := rfl

@[simp] theorem failureNotifications_cons (e : Event) (log : List Event) :
    failureNotifications (e :: log)
      = failureNotifications log + (match e with
          | .spellFailure => 1
          | _ => 0) := by
  cases e <;> simp [failureNotifications]

@[simp] theorem successNotifications_nil : successNotifications [] = 0 := rfl

@[simp] theorem successNotifications_cons (e : Event) (log : List Event) :
    successNotifications (e :: log)
      = successNotifications log + (match e with
          | .spellGo => 1
          | _ => 0) := by
  cases e <;> simp [successNotifications]

@[simp] theorem swingCallbacks_nil : swingCallbacks [] = 0 := rfl

@[simp] theorem swingCallbacks_cons (e : Event) (log : List Event) :
    swingCallbacks (e :: log)
      = swingCallbacks log + (match e with
          | .setAttackSwingCallback => 1
          | _ => 0) := by
  cases e <;> simp [swingCallbacks]

attribute [simp] handlerCalls_append endedSignals_append itemRemovals_append castErrors_append
  effectRuns_append failureNotifications_append successNotifications_append
  swingCallbacks_append

@[simp] theorem handlerCalls_endCastPackets (w : World) (spell : SpellEntry) (success : Bool) :
    handlerCalls (endCastPackets w spell success) = [] :=
  (endCastPackets_records w spell success).1

@[simp] theorem effectRuns_endCastPackets (w : World) (spell : SpellEntry) (success : Bool) :
    effectRuns (endCastPackets w spell success) = 0 :=
  (endCastPackets_records w spell success).2.1

@[simp] theorem endedSignals_endCastPackets (w : World) (spell : SpellEntry) (success : Bool) :
    endedSignals (endCastPackets w spell success) = [] :=
  (endCastPackets_records w spell success).2.2.1

@[simp] theorem itemRemovals_endCastPackets (w : World) (spell : SpellEntry) (success : Bool) :
    itemRemovals (endCastPackets w spell success) = [] :=
  (endCastPackets_records w spell success).2.2.2.1

@[simp] theorem castErrors_endCastPackets (w : World) (spell : SpellEntry) (success : Bool) :
    castErrors (endCastPackets w spell success) = [] :=
  (endCastPackets_records w spell success).2.2.2.2.1

@[simp] theorem swingCallbacks_endCastPackets (w : World) (spell : SpellEntry) (success : Bool) :
    swingCallbacks (endCastPackets w spell success) = 0 :=
  (endCastPackets_records w spell success).2.2.2.2.2

@[simp] theorem handlerCalls_effectEvents (s : SingleCastState) :
    handlerCalls (effectEvents s) = dispatchTrace s.spell.effects :=
  (effectEvents_records s).1

@[simp] theorem effectRuns_effectEvents (s : SingleCastState) :
    effectRuns (effectEvents s) = 1 :=
  (effectEvents_records s).2.1

@[simp] theorem endedSignals_effectEvents (s : SingleCastState) :
    endedSignals (effectEvents s) = [] :=
  (effectEvents_records s).2.2.1

@[simp] theorem itemRemovals_effectEvents (s : SingleCastState) :
    itemRemovals (effectEvents s) = [] :=
  (effectEvents_records s).2.2.2.1

@[simp] theorem castErrors_effectEvents (s : SingleCastState) :
    castErrors (effectEvents s) = [] :=
  (effectEvents_records s).2.2.2.2.1

@[simp] theorem swingCallbacks_effectEvents (s : SingleCastState) :
    swingCallbacks (effectEvents s) = 0 :=
  (effectEvents_records s).2.2.2.2.2.1

@[simp] theorem failureNotifications_effectEvents (s : SingleCastState) :
    failureNotifications (effectEvents s) = 0 :=
  (effectEvents_records s).2.2.2.2.2.2.1

@[simp] theorem successNotifications_effectEvents (s : SingleCastState) :
    successNotifications (effectEvents s) = 0 :=
  (effectEvents_records s).2.2.2.2.2.2.2

@[simp] theorem handlerCalls_finishEvents (w : World) (s : SingleCastState) :
    handlerCalls (finishEvents w s) = [] :=
  (finishEvents_records w s).1

@[simp] theorem effectRuns_finishEvents (w : World) (s : SingleCastState) :
    effectRuns (finishEvents w s) = 0 :=
  (finishEvents_records w s).2.1

@[simp] theorem endedSignals_finishEvents (w : World) (s : SingleCastState) :
    endedSignals (finishEvents w s) = [true] :=
  (finishEvents_records w s).2.2.1

@[simp] theorem itemRemovals_finishEvents (w : World) (s : SingleCastState) :
    itemRemovals (finishEvents w s) = [] :=
  (finishEvents_records w s).2.2.2.1

@[simp] theorem castErrors_finishEvents (w : World) (s : SingleCastState) :
    castErrors (finishEvents w s) = [] :=
  (finishEvents_records w s).2.2.2.2.1

@[simp] theorem swingCallbacks_finishEvents (w : World) (s : SingleCastState) :
    swingCallbacks (finishEvents w s) = 0 :=
  (finishEvents_records w s).2.2.2.2.2.1

@[simp] theorem failureNotifications_finishEvents (w : World) (s : SingleCastState) :
    failureNotifications (finishEvents w s) = 0 :=
  (finishEvents_records w s).2.2.2.2.2.2.1

@[simp] theorem successNotifications_finishEvents (w : World) (s : SingleCastState) :
    successNotifications (finishEvents w s) = 0 :=
  (finishEvents_records w s).2.2.2.2.2.2.2

@[simp] theorem handlerCalls_consumeItemEvents (w : World) (s : SingleCastState) :
    handlerCalls (consumeItemEvents w s) = [] :=
  (consumeItemEvents_records w s).1

@[simp] theorem effectRuns_consumeItemEvents (w : World) (s : SingleCastState) :
    effectRuns (consumeItemEvents w s) = 0 :=
  (consumeItemEvents_records w s).2.1

@[simp] theorem endedSignals_consumeItemEvents (w : World) (s : SingleCastState) :
    endedSignals (consumeItemEvents w s) = [] :=
  (consumeItemEvents_records w s).2.2.1

@[simp] theorem castErrors_consumeItemEvents (w : World) (s : SingleCastState) :
    castErrors (consumeItemEvents w s) = [] :=
  (consumeItemEvents_records w s).2.2.2.1

@[simp] theorem swingCallbacks_consumeItemEvents (w : World) (s : SingleCastState) :
    swingCallbacks (consumeItemEvents w s) = 0 :=
  (consumeItemEvents_records w s).2.2.2.2.1

@[simp] theorem failureNotifications_consumeItemEvents (w : World) (s : SingleCastState) :
    failureNotifications (consumeItemEvents w s) = 0 :=
  (consumeItemEvents_records w s).2.2.2.2.2.1

@[simp] theorem successNotifications_consumeItemEvents (w : World) (s : SingleCastState) :
    successNotifications (consumeItemEvents w s) = 0 :=
  (consumeItemEvents_records w s).2.2.2.2.2.2.1

@[simp] theorem paidCast_spell (w : World) (s : SingleCastState) :
    (paidCast w s).spell = s.spell :=
  (paidCast_records w s).1

@[simp] theorem paidCast_target (w : World) (s : SingleCastState) :
    (paidCast w s).target = s.target :=
  (paidCast_records w s).2.1

@[simp] theorem paidCast_hasFinished (w : World) (s : SingleCastState) :
    (paidCast w s).hasFinished = true :=
  (paidCast_records w s).2.2.1

@[simp] theorem paidCast_impactCountdown (w : World) (s : SingleCastState) :
    (paidCast w s).impactCountdown = s.impactCountdown :=
  (paidCast_records w s).2.2.2.1

@[simp] theorem paidCast_onTargetMoved (w : World) (s : SingleCastState) :
    (paidCast w s).onTargetMoved = s.onTargetMoved :=
  (paidCast_records w s).2.2.2.2.1

@[simp] theorem paidCast_executer (w : World) (s : SingleCastState) :
    (paidCast w s).cast.executer
      = (consumePower w { s with hasFinished := true }).2.cast.executer :=
  (paidCast_records w s).2.2.2.2.2.1

@[simp] theorem handlerCalls_paidCast (w : World) (s : SingleCastState) :
    handlerCalls (paidCast w s).cast.log = handlerCalls s.cast.log :=
  (paidCast_records w s).2.2.2.2.2.2.1

@[simp] theorem effectRuns_paidCast (w : World) (s : SingleCastState) :
    effectRuns (paidCast w s).cast.log = effectRuns s.cast.log :=
  (paidCast_records w s).2.2.2.2.2.2.2.1

@[simp] theorem endedSignals_paidCast (w : World) (s : SingleCastState) :
    endedSignals (paidCast w s).cast.log = endedSignals s.cast.log :=
  (paidCast_records w s).2.2.2.2.2.2.2.2.1

@[simp] theorem swingCallbacks_paidCast (w : World) (s : SingleCastState) :
    swingCallbacks (paidCast w s).cast.log = swingCallbacks s.cast.log :=
  (paidCast_records w s).2.2.2.2.2.2.2.2.2.1

@[simp] theorem castErrors_paidCast (w : World) (s : SingleCastState) :
    castErrors (paidCast w s).cast.log = castErrors s.cast.log :=
  (paidCast_records w s).2.2.2.2.2.2.2.2.2.2

/-! ### Completion, interruption and the finished flag -/

theorem validateCastFinished_instant {w : World} {s : SingleCastState}
    (h : s.castTime = 0) : validateCastFinished w s = none := by
  simp [validateCastFinished, h]

/-- Counterexample for C11: a cast with `castTime = 0` whose caster has 10 mana
for a cost of 30 is activated; the call returns after the failure
notification, with no effect applied and no `ended` signal. -/
theorem activate_instant_without_power :
    poorCast.castTime = 0
      ∧ (activate {} poorCast).map (fun r => r.cast.log)
          = some [.spellFailure, .spellFailedOther]
      ∧ (activate {} poorCast).map (fun r => effectRuns r.cast.log) = some 0
      ∧ (activate {} poorCast).map (fun r => endedSignals r.cast.log) = some [] := by
  decide

/-- Claim C11, amended: for a cast with `castTime = 0`, `activate` runs the
completion before it returns.  When the spell has no on-next-swing attribute,
power and item are paid, and the projectile speed is zero or the unit target is
less than 50 ms of travel away, all effects are applied and `ended(true)` is
emitted within the call.  When power or item cannot be paid, the call returns
with no effect applied and no `ended` signal.  For an on-next-swing spell, and
for a projectile with a travel time of 50 ms or more, `ended(true)` is emitted
within the call and no effect is applied by it. -/
theorem activate_instant (w : World) (s : SingleCastState) (h0 : s.castTime = 0) :
    activate w s = some (onCastFinished w s)
      ∧ ((s.spell.onNextSwing || s.spell.onNextSwing2) = false →
          (consumePower w { s with hasFinished := true }).1 = true →
          (consumeItem w (consumePower w { s with hasFinished := true }).2).1 = true →
          (¬ s.spell.speed > 0 ∨ (w.hasWorldInstance = true ∧ ∃ t, w.unitTarget = some t
              ∧ travelTimeMS t.distance s.spell.speed < 50)) →
          handlerCalls (onCastFinished w s).cast.log
              = handlerCalls s.cast.log ++ dispatchTrace s.spell.effects
            ∧ effectRuns (onCastFinished w s).cast.log = effectRuns s.cast.log + 1
            ∧ endedSignals (onCastFinished w s).cast.log = endedSignals s.cast.log ++ [true])
      ∧ ((s.spell.onNextSwing || s.spell.onNextSwing2) = false →
          ((consumePower w { s with hasFinished := true }).1 = false
            ∨ (consumeItem w (consumePower w { s with hasFinished := true }).2).1 = false) →
          handlerCalls (onCastFinished w s).cast.log = handlerCalls s.cast.log
            ∧ effectRuns (onCastFinished w s).cast.log = effectRuns s.cast.log
            ∧ endedSignals (onCastFinished w s).cast.log = endedSignals s.cast.log)
      ∧ ((s.spell.onNextSwing || s.spell.onNextSwing2) = true →
          handlerCalls (onCastFinished w s).cast.log = handlerCalls s.cast.log
            ∧ effectRuns (onCastFinished w s).cast.log = effectRuns s.cast.log
            ∧ endedSignals (onCastFinished w s).cast.log = endedSignals s.cast.log ++ [true])
      ∧ ((s.spell.onNextSwing || s.spell.onNextSwing2) = false →
          (consumePower w { s with hasFinished := true }).1 = true →
          (consumeItem w (consumePower w { s with hasFinished := true }).2).1 = true →
          s.spell.speed > 0 → w.hasWorldInstance = true →
          (∃ t, w.unitTarget = some t ∧ 50 ≤ travelTimeMS t.distance s.spell.speed) →
          handlerCalls (onCastFinished w s).cast.log = handlerCalls s.cast.log
            ∧ effectRuns (onCastFinished w s).cast.log = effectRuns s.cast.log
            ∧ endedSignals (onCastFinished w s).cast.log
                = endedSignals s.cast.log ++ [true]) := by
  have hv : validateCastFinished w s = none := validateCastFinished_instant h0
  refine ⟨by simp [activate, h0], ?_, ?_, ?_, ?_⟩
  · intro hs hp hi hnear
    rw [onCastFinished_of_paid hv hs hp hi, paidCast_spell]
    rcases hnear with hz | ⟨hw, t, ht, hlt⟩
    · simp [hz, finishCast_eq, applyAllEffects_eq]
    · by_cases hsp : s.spell.speed > 0
      · have hnot : ¬ travelTimeMS t.distance s.spell.speed ≥ 50 := by omega
        simp only [hsp, hw, ht, hnot, if_true, if_false]
        simp [finishCast_eq, applyAllEffects_eq]
      · simp [hsp, finishCast_eq, applyAllEffects_eq]
  · intro hs hfail
    by_cases hp : (consumePower w { s with hasFinished := true }).1 = true
    · have hi : (consumeItem w (consumePower w { s with hasFinished := true }).2).1 = false := by
        rcases hfail with h | h
        · rw [hp] at h; cases h
        · exact h
      rw [onCastFinished_of_unpaid_item hv hs hp hi, consumeItem_eq, consumePower_eq]
      simp [hp]
    · have hp' : (consumePower w { s with hasFinished := true }).1 = false := by
        simpa using hp
      rw [onCastFinished_of_unpaid_power hv hs hp', consumePower_eq]
      simp [hp']
  · intro hs
    rw [onCastFinished_of_swing hv hs]
    simp [finishCast_eq, SingleCastState.emit]
  · intro hs hp hi hsp hw ht
    obtain ⟨t, ht, hge⟩ := ht
    rw [onCastFinished_of_paid hv hs hp hi, paidCast_spell]
    simp only [hsp, hw, ht, hge, if_true]
    simp [finishCast_eq]

/-- Witness for C11 on `exampleCast`, an instant cast that can pay its cost. -/
theorem activate_instant_witness :
    activate {} exampleCast = some (onCastFinished {} exampleCast)
      ∧ handlerCalls (onCastFinished {} exampleCast).cast.log
          = handlerCalls exampleCast.cast.log ++ dispatchTrace exampleCast.spell.effects
      ∧ effectRuns (onCastFinished {} exampleCast).cast.log
          = effectRuns exampleCast.cast.log + 1
      ∧ endedSignals (onCastFinished {} exampleCast).cast.log
          = endedSignals exampleCast.cast.log ++ [true] :=
  ⟨(activate_instant {} exampleCast (by decide)).1,
    (activate_instant {} exampleCast (by decide)).2.1 (by decide) (by decide) (by decide)
      (Or.inl (by decide!))⟩

theorem activate_delayed_eq (w : World) (s : SingleCastState)
    (hct : 0 < s.castTime) (hw : w.hasWorldInstance = true) :
    activate w s
      = some { s with
          countdown := { running := true, endTime := w.currentTime + s.castTime }
          onTargetDied := s.onTargetDied || w.unitTarget.isSome
          onTargetRemoved := s.onTargetRemoved || w.unitTarget.isSome
          onUserMoved := true } := by
  cases hu : w.unitTarget <;> simp [activate, hct, hw, hu, Countdown.setEnd]

theorem onUserStartsMoving_moved (w : World) (t : SingleCastState)
    (hnf : t.hasFinished = false)
    (hmove : w.location.1 ≠ t.x ∨ w.location.2.1 ≠ t.y ∨ w.location.2.2 ≠ t.z) :
    onUserStartsMoving w t = stopCast w t
      ∧ (onUserStartsMoving w t).hasFinished = true
      ∧ endedSignals (onUserStartsMoving w t).cast.log = endedSignals t.cast.log ++ [false]
      ∧ (onUserStartsMoving w t).cast.executer = t.cast.executer
      ∧ handlerCalls (onUserStartsMoving w t).cast.log = handlerCalls t.cast.log
      ∧ effectRuns (onUserStartsMoving w t).cast.log = effectRuns t.cast.log
      ∧ itemRemovals (onUserStartsMoving w t).cast.log = itemRemovals t.cast.log := by
  have hstop : onUserStartsMoving w t = stopCast w t := by
    simp only [onUserStartsMoving, hnf]
    simp [hmove]
  rw [hstop]
  have hr := stopCast_records w t
  exact ⟨rfl, hr.1, hr.2.2.2.2.1, hr.2.2.1, hr.2.2.2.2.2.1, hr.2.2.2.2.2.2.1,
    hr.2.2.2.2.2.2.2.1⟩

/-- Claim C12: for a cast with `castTime > 0` that has not finished, in a world
instance, `activate` makes no call at all (hence invokes no effect handler) and
sets the countdown to end at `now + castTime`.  The constructor records the
location of the caster.  A caster-moved notification at a location that
differs in some coordinate from the recorded one runs `stopCast`: `ended(false)`
is emitted, `finished` is set, the unit fields of the caster are unchanged and
no effect handler or item removal is recorded; a notification at the recorded
location, or on a finished cast, changes nothing. -/
theorem activate_delayed_and_caster_moves (w : World) (s : SingleCastState)
    (hct : 0 < s.castTime) (hw : w.hasWorldInstance = true)
    (hnf : s.hasFinished = false) :
    (∃ s', activate w s = some s'
        ∧ s'.cast = s.cast
        ∧ s'.countdown = { running := true, endTime := w.currentTime + s.castTime }
        ∧ s'.hasFinished = false
        ∧ s'.onUserMoved = true
        ∧ (∀ w' : World,
            (w'.location.1 ≠ s'.x ∨ w'.location.2.1 ≠ s'.y ∨ w'.location.2.2 ≠ s'.z) →
            onUserStartsMoving w' s' = stopCast w' s'
              ∧ (onUserStartsMoving w' s').hasFinished = true
              ∧ endedSignals (onUserStartsMoving w' s').cast.log
                  = endedSignals s.cast.log ++ [false]
              ∧ (onUserStartsMoving w' s').cast.executer = s.cast.executer
              ∧ handlerCalls (onUserStartsMoving w' s').cast.log = handlerCalls s.cast.log
              ∧ effectRuns (onUserStartsMoving w' s').cast.log = effectRuns s.cast.log
              ∧ itemRemovals (onUserStartsMoving w' s').cast.log = itemRemovals s.cast.log)
        ∧ (∀ w' : World,
            (w'.location.1 = s'.x ∧ w'.location.2.1 = s'.y ∧ w'.location.2.2 = s'.z) →
            onUserStartsMoving w' s' = s'))
      ∧ (∀ (w' : World) (t : SingleCastState), t.hasFinished = true →
          onUserStartsMoving w' t = t)
      ∧ (∀ (w₀ : World) (cast : SpellCast) (spell : SpellEntry) (target : SpellTargetMap)
          (basePoints : Int) (castTime : Nat) (isProc : Bool) (itemGuid : Nat),
          ((SingleCastState.create w₀ cast spell target basePoints castTime isProc itemGuid).x,
            (SingleCastState.create w₀ cast spell target basePoints castTime isProc itemGuid).y,
            (SingleCastState.create w₀ cast spell target basePoints castTime isProc itemGuid).z)
              = w₀.location) := by
  refine ⟨⟨_, activate_delayed_eq w s hct hw, rfl, rfl, hnf, rfl, ?_, ?_⟩, ?_, ?_⟩
  · intro w' hmove
    exact onUserStartsMoving_moved w'
      { s with
        countdown := { running := true, endTime := w.currentTime + s.castTime }
        onTargetDied := s.onTargetDied || w.unitTarget.isSome
        onTargetRemoved := s.onTargetRemoved || w.unitTarget.isSome
        onUserMoved := true } hnf hmove
  · intro w' hsame
    simp [onUserStartsMoving, hsame]
  · intro w' t ht
    simp [onUserStartsMoving, ht]
  · intro w₀ cast spell target basePoints castTime isProc itemGuid
    rfl

/-- Witness for C12 on `delayedCast`, activated at time zero. -/
theorem activate_delayed_and_caster_moves_witness :
    ∃ s', activate {} delayedCast = some s'
      ∧ s'.cast = delayedCast.cast
      ∧ s'.countdown = { running := true, endTime := 1000 } :=
  match (activate_delayed_and_caster_moves {} delayedCast (by decide) (by decide)
      (by decide)).1 with
  | ⟨s', h1, h2, h3, _⟩ => ⟨s', h1, h2, h3⟩

/-- Counterexample for C18: the unit target of `delayedCast`, which has not
finished, dies; the two failure notifications are sent before the `ended`
signal. -/
theorem onTargetRemovedOrDead_notifies :
    delayedCast.hasFinished = false
      ∧ (onTargetRemovedOrDead {} delayedCast).cast.log
          = [.spellFailure, .spellFailedOther, .ended false]
      ∧ failureNotifications (onTargetRemovedOrDead {} delayedCast).cast.log = 1 := by
  decide

/-- Claim C18, amended: when the unit target of an unfinished cast dies or
despawns, the cast is stopped: `finished` is set, `ended(false)` is emitted, no
effect handler and no item removal is recorded and the unit fields of the
caster are unchanged; the calls made are the failure notification of
`stopCast`, sent exactly when the caster has a world instance and the spell is
not passive, followed by the `ended` signal. -/
theorem onTargetRemovedOrDead_stops (w : World) (s : SingleCastState)
    (hnf : s.hasFinished = false) :
    (onTargetRemovedOrDead w s).hasFinished = true
      ∧ (onTargetRemovedOrDead w s).cast.log
          = s.cast.log ++ endCastPackets w s.spell false ++ [.ended false]
      ∧ failureNotifications (onTargetRemovedOrDead w s).cast.log
          = failureNotifications s.cast.log
            + (if w.hasWorldInstance && !s.spell.passive then 1 else 0)
      ∧ endedSignals (onTargetRemovedOrDead w s).cast.log = endedSignals s.cast.log ++ [false]
      ∧ handlerCalls (onTargetRemovedOrDead w s).cast.log = handlerCalls s.cast.log
      ∧ effectRuns (onTargetRemovedOrDead w s).cast.log = effectRuns s.cast.log
      ∧ itemRemovals (onTargetRemovedOrDead w s).cast.log = itemRemovals s.cast.log
      ∧ (onTargetRemovedOrDead w s).cast.executer = s.cast.executer
      ∧ (onTargetRemovedOrDead w s).onTargetMoved = false := by
  unfold onTargetRemovedOrDead
  rw [stopCast_eq]
  cases hw : w.hasWorldInstance <;> cases hp : s.spell.passive <;>
    simp [hnf, endCastPackets, hw, hp]

/-- Witness for C18 on `delayedCast`. -/
theorem onTargetRemovedOrDead_stops_witness :
    (onTargetRemovedOrDead {} delayedCast).hasFinished = true
      ∧ (onTargetRemovedOrDead {} delayedCast).cast.log
          = delayedCast.cast.log ++ endCastPackets {} delayedCast.spell false
            ++ [.ended false] :=
  ⟨(onTargetRemovedOrDead_stops {} delayedCast (by decide)).1,
    (onTargetRemovedOrDead_stops {} delayedCast (by decide)).2.1⟩

theorem validateCastFinished_some {w : World} {s s' : SingleCastState}
    (h : validateCastFinished w s = some s') :
    (w.hasWorldInstance = false ∧ s' = { s with hasFinished := true })
      ∨ (w.hasWorldInstance = true ∧ ∃ code, s' = abortCast w code s
          ∧ (code = .FailedTooClose ∨ code = .FailedOutOfRange ∨ code = .FailedLineOfSight
              ∨ code = .FailedUnitNotInfront)) := by
  unfold validateCastFinished at h
  simp only at h
  by_cases hct : s.castTime > 0
  · cases hw : w.hasWorldInstance
    · left
      simp [hct, hw] at h
      exact ⟨rfl, h.symm⟩
    · right
      refine ⟨rfl, ?_⟩
      simp only [hct, hw, if_true, Bool.not_true, Bool.false_eq_true, if_false] at h
      cases hu : w.unitTarget with
      | none =>
        simp [hu] at h
      | some t =>
        simp only [hu] at h
        split_ifs at h <;> simp only [Option.some.injEq, reduceCtorEq] at h <;>
          first
            | exact ⟨.FailedTooClose, h.symm, by simp⟩
            | exact ⟨.FailedOutOfRange, h.symm, by simp⟩
            | exact ⟨.FailedLineOfSight, h.symm, by simp⟩
            | exact ⟨.FailedUnitNotInfront, h.symm, by simp⟩
  · simp [hct] at h

theorem abortCast_eq (w : World) (code : SpellCastResult) (s : SingleCastState) :
    abortCast w code s
      = { s with
          hasFinished := true
          cast := { s.cast with
            log := s.cast.log ++ [.spellCastError code] ++ endCastPackets w s.spell false } } := by
  unfold abortCast
  rw [sendEndCast_eq]
  simp [SingleCastState.emit]

/-- Counterexample for C13: a passive spell with a minimum range of five
completes after its cast time with the target one yard away; the too-close
error is reported and the cast is finished, but no failure notification is
sent. -/
theorem onCastFinished_too_close_passive :
    (onCastFinished nearTargetWorld passiveRangedCast).cast.log
        = [.spellCastError .FailedTooClose]
      ∧ failureNotifications (onCastFinished nearTargetWorld passiveRangedCast).cast.log = 0
      ∧ (onCastFinished nearTargetWorld passiveRangedCast).hasFinished = true := by
  decide!

/-- Claim C13, amended: when the completion of a cast with a cast time, in a
world instance, with a unit target, fails a validation, it reports the error of
the first failed check (too close, out of range, line of sight, not in front),
sends the failure notification unless the spell is passive, marks the cast
finished and aborts: the unit fields of the caster are unchanged, no effect
handler, item removal or swing callback is recorded and the impact countdown
is untouched.  Every aborted validation in a world instance is of this form. -/
theorem onCastFinished_validation_failure (w : World) (s : SingleCastState)
    (t : UnitTarget) (hct : 0 < s.castTime) (hw : w.hasWorldInstance = true)
    (ht : w.unitTarget = some t) :
    ((s.spell.minrange ≠ 0 ∨ s.spell.maxrange ≠ 0) → tooClose s t →
        onCastFinished w s = abortCast w .FailedTooClose s)
      ∧ ((s.spell.minrange ≠ 0 ∨ s.spell.maxrange ≠ 0) → ¬ tooClose s t → outOfRange w s t →
          onCastFinished w s = abortCast w .FailedOutOfRange s)
      ∧ ((s.spell.minrange ≠ 0 ∨ s.spell.maxrange ≠ 0) → ¬ tooClose s t →
          ¬ outOfRange w s t → t.inLineOfSight = false →
          onCastFinished w s = abortCast w .FailedLineOfSight s)
      ∧ (((s.spell.minrange = 0 ∧ s.spell.maxrange = 0)
            ∨ (¬ tooClose s t ∧ ¬ outOfRange w s t ∧ t.inLineOfSight = true)) →
          s.spell.facingFront = true → t.inArc = false →
          onCastFinished w s = abortCast w .FailedUnitNotInfront s)
      ∧ (∀ s', validateCastFinished w s = some s' →
          onCastFinished w s = s' ∧ ∃ code, s' = abortCast w code s)
      ∧ (∀ code : SpellCastResult,
          (abortCast w code s).cast.log
              = s.cast.log ++ [.spellCastError code]
                ++ (if s.spell.passive then [] else [.spellFailure, .spellFailedOther])
            ∧ (abortCast w code s).hasFinished = true
            ∧ (abortCast w code s).cast.executer = s.cast.executer
            ∧ (abortCast w code s).impactCountdown = s.impactCountdown
            ∧ handlerCalls (abortCast w code s).cast.log = handlerCalls s.cast.log
            ∧ effectRuns (abortCast w code s).cast.log = effectRuns s.cast.log
            ∧ itemRemovals (abortCast w code s).cast.log = itemRemovals s.cast.log
            ∧ swingCallbacks (abortCast w code s).cast.log = swingCallbacks s.cast.log) := by
  refine ⟨?_, ?_, ?_, ?_, ?_, ?_⟩
  · intro hr hc
    apply onCastFinished_of_aborted
    unfold tooClose at hc
    simp [validateCastFinished, hct, hw, ht, hr, hc, abortCast]
  · intro hr hc hf
    apply onCastFinished_of_aborted
    unfold tooClose at hc
    unfold outOfRange at hf
    simp [validateCastFinished, hct, hw, ht, hr, hc, hf, abortCast]
  · intro hr hc hf hl
    apply onCastFinished_of_aborted
    unfold tooClose at hc
    unfold outOfRange at hf
    simp [validateCastFinished, hct, hw, ht, hr, hc, hf, hl, abortCast]
  · intro hpass hfront harc
    apply onCastFinished_of_aborted
    rcases hpass with ⟨h1, h2⟩ | ⟨hc, hf, hl⟩
    · simp [validateCastFinished, hct, hw, ht, h1, h2, hfront, harc, abortCast]
    · unfold tooClose at hc
      unfold outOfRange at hf
      by_cases hr : s.spell.minrange ≠ 0 ∨ s.spell.maxrange ≠ 0
      · simp [validateCastFinished, hct, hw, ht, hr, hc, hf, hl, hfront, harc, abortCast]
      · simp [validateCastFinished, hct, hw, ht, hr, hfront, harc, abortCast]
  · intro s' h
    refine ⟨onCastFinished_of_aborted h, ?_⟩
    rcases validateCastFinished_some h with ⟨hnw, _⟩ | ⟨_, code, hcode, _⟩
    · rw [hw] at hnw; cases hnw
    · exact ⟨code, hcode⟩
  · intro code
    rw [abortCast_eq]
    cases hp : s.spell.passive <;> simp [endCastPackets, hw, hp]

theorem onCastFinished_validation_failure_witness :
    onCastFinished nearTargetWorld passiveRangedCast
      = abortCast nearTargetWorld .FailedTooClose passiveRangedCast :=
  (onCastFinished_validation_failure nearTargetWorld passiveRangedCast { distance := 1 }
    (by decide) rfl rfl).1 (by decide!) (by unfold tooClose; decide!)

/-- Counterexample for C14: an instant cast (cast time 0) completes with the
target resolved to a unit that is not in the line of sight; no error is
reported and the damage effect is applied. -/
theorem onCastFinished_instant_ignores_line_of_sight :
    exampleCast.castTime = 0
      ∧ (hiddenTargetWorld.unitTarget.map fun t => t.inLineOfSight) = some false
      ∧ castErrors (onCastFinished hiddenTargetWorld exampleCast).cast.log = []
      ∧ effectRuns (onCastFinished hiddenTargetWorld exampleCast).cast.log = 1
      ∧ (handlerCalls (onCastFinished hiddenTargetWorld exampleCast).cast.log).length = 1 := by
  decide!

/-- Claim C14, amended: with the target resolved to a unit that is not in the
line of sight, completion in a world instance reports the line-of-sight
failure, marks the cast finished and applies no effect when the cast has a cast
time, the spell has a nonzero minimum or maximum range and both range checks
pass.  With a cast time of 0 nothing is validated at all, and with both ranges
zero the line of sight is not among the checks: the only failure that can be
reported is the facing one. -/
theorem onCastFinished_line_of_sight (w : World) (s : SingleCastState) (t : UnitTarget)
    (hw : w.hasWorldInstance = true) (ht : w.unitTarget = some t)
    (hl : t.inLineOfSight = false) :
    (0 < s.castTime → (s.spell.minrange ≠ 0 ∨ s.spell.maxrange ≠ 0) →
        ¬ tooClose s t → ¬ outOfRange w s t →
        onCastFinished w s = abortCast w .FailedLineOfSight s
          ∧ castErrors (onCastFinished w s).cast.log
              = castErrors s.cast.log ++ [.FailedLineOfSight]
          ∧ (onCastFinished w s).hasFinished = true
          ∧ handlerCalls (onCastFinished w s).cast.log = handlerCalls s.cast.log
          ∧ effectRuns (onCastFinished w s).cast.log = effectRuns s.cast.log)
      ∧ (s.castTime = 0 → validateCastFinished w s = none)
      ∧ (0 < s.castTime → s.spell.minrange = 0 → s.spell.maxrange = 0 →
          validateCastFinished w s
            = if s.spell.facingFront = true ∧ t.inArc = false
              then some (abortCast w .FailedUnitNotInfront s) else none) := by
  refine ⟨?_, ?_, ?_⟩
  · intro hct hr hc hf
    have h : onCastFinished w s = abortCast w .FailedLineOfSight s := by
      apply onCastFinished_of_aborted
      unfold tooClose at hc
      unfold outOfRange at hf
      simp [validateCastFinished, hct, hw, ht, hr, hc, hf, hl, abortCast]
    rw [h, abortCast_eq]
    refine ⟨rfl, ?_⟩
    simp
  · intro h0
    simp [validateCastFinished, h0]
  · intro hct h1 h2
    cases hfront : s.spell.facingFront <;> cases harc : t.inArc <;>
      simp [validateCastFinished, hct, hw, ht, h1, h2, hfront, harc, abortCast]

theorem onCastFinished_line_of_sight_witness :
    onCastFinished hiddenTargetWorld rangedCast
      = abortCast hiddenTargetWorld .FailedLineOfSight rangedCast :=
  ((onCastFinished_line_of_sight hiddenTargetWorld rangedCast
    { distance := 10, inLineOfSight := false } rfl rfl rfl).1 (by decide) (by decide!)
    (by unfold tooClose; decide!) (by unfold outOfRange; decide!)).1


/-- Claim C15 fails in the code: `projectileCast` (speed 20, cost 30) completes
in a world instance where the target resolves to no unit.  The validations
pass, the 30 mana are deducted and the success notification is sent, but no
effect handler is called, the effects are not run and no impact is scheduled:
the log holds the success notification and the ended signal only.  The same
spell with speed 0 runs its effects in the completion call. -/
theorem onCastFinished_projectile_without_unit_target :
    projectileCast.spell.speed = 20
      ∧ ({} : World).hasWorldInstance = true
      ∧ ({} : World).unitTarget.isNone = true
      ∧ (projectileCast.spell.onNextSwing || projectileCast.spell.onNextSwing2) = false
      ∧ (validateCastFinished {} projectileCast).isNone = true
      ∧ (consumePower {} { projectileCast with hasFinished := true }).1 = true
      ∧ (onCastFinished {} projectileCast).cast.executer.mana = 70
      ∧ (onCastFinished {} projectileCast).cast.log = [.spellGo, .ended true]
      ∧ handlerCalls (onCastFinished {} projectileCast).cast.log = []
      ∧ effectRuns (onCastFinished {} projectileCast).cast.log = 0
      ∧ (onCastFinished {} projectileCast).impactCountdown.running = false
      ∧ effectRuns (onCastFinished {} exampleCast).cast.log = 1 := by
  decide!

theorem paidCast_projectileEnd (w : World) (s : SingleCastState) :
    (paidCast w s).projectileEnd = s.projectileEnd := by
  unfold paidCast
  rw [sendEndCast_eq, consumeItem_eq, consumePower_eq]

/-- Claim C16: a spell that is not executed on the next swing, with projectile
speed above 0, passes its validations and pays its cost in a world instance
where the target resolves to a unit.  With `t` the travel time of the code
(distance over speed times 1000 in single precision, truncated): if `t < 50`
the effects run in the completion call and the impact countdown is untouched;
if `t ≥ 50` no effect runs in the completion call, the projectile starts at the
current time, ends `t` ms later and the impact countdown is set to end at that
time.  Speed 20 and distance 100 give 5000 ms. -/
theorem onCastFinished_projectile (w : World) (s : SingleCastState) (t : UnitTarget)
    (hv : validateCastFinished w s = none)
    (hs : (s.spell.onNextSwing || s.spell.onNextSwing2) = false)
    (hp : (consumePower w { s with hasFinished := true }).1 = true)
    (hi : (consumeItem w (consumePower w { s with hasFinished := true }).2).1 = true)
    (hsp : s.spell.speed > 0) (hw : w.hasWorldInstance = true)
    (ht : w.unitTarget = some t) :
    (travelTimeMS t.distance s.spell.speed < 50 →
        handlerCalls (onCastFinished w s).cast.log
            = handlerCalls s.cast.log ++ dispatchTrace s.spell.effects
          ∧ effectRuns (onCastFinished w s).cast.log = effectRuns s.cast.log + 1
          ∧ (onCastFinished w s).impactCountdown = s.impactCountdown
          ∧ (onCastFinished w s).projectileEnd = s.projectileEnd)
      ∧ (50 ≤ travelTimeMS t.distance s.spell.speed →
          handlerCalls (onCastFinished w s).cast.log = handlerCalls s.cast.log
            ∧ effectRuns (onCastFinished w s).cast.log = effectRuns s.cast.log
            ∧ (onCastFinished w s).projectileStart = w.currentTime
            ∧ (onCastFinished w s).projectileEnd
                = (onCastFinished w s).projectileStart
                  + travelTimeMS t.distance s.spell.speed
            ∧ (onCastFinished w s).impactCountdown
                = { running := true,
                    endTime := w.currentTime + travelTimeMS t.distance s.spell.speed })
      ∧ travelTimeMS 100 20 = 5000 := by
  refine ⟨?_, ?_, by decide!⟩
  · intro hlt
    have hnot : ¬ travelTimeMS t.distance s.spell.speed ≥ 50 := by omega
    rw [onCastFinished_of_paid hv hs hp hi, paidCast_spell]
    simp only [hsp, hw, ht, hnot, if_true, if_false]
    simp [finishCast_eq, applyAllEffects_eq, paidCast_projectileEnd]
  · intro hge
    rw [onCastFinished_of_paid hv hs hp hi, paidCast_spell]
    simp only [hsp, hw, ht, hge, if_true]
    simp [finishCast_eq, Countdown.setEnd]

theorem onCastFinished_projectile_witness :
    (onCastFinished farTargetWorld projectileCast).projectileEnd = 1000 + 5000
      ∧ (onCastFinished farTargetWorld projectileCast).impactCountdown
          = { running := true, endTime := 6000 }
      ∧ effectRuns (onCastFinished farTargetWorld projectileCast).cast.log = 0 := by
  have h := (onCastFinished_projectile farTargetWorld projectileCast { distance := 100 }
    (validateCastFinished_instant rfl) (by decide) (by decide) (by decide) (by decide!)
    rfl rfl).2.1 (by decide!)
  refine ⟨?_, ?_, ?_⟩
  · rw [h.2.2.2.1, h.2.2.1]; decide!
  · rw [h.2.2.2.2]; decide!
  · rw [h.2.1]; decide


theorem consumePower_fst_eq_false_iff (w : World) (s : SingleCastState) :
    (consumePower w s).1 = false ↔
      (0 < totalCost s ∧ s.cast.executer.getPower s.spell.powertype < totalCost s) := by
  by_cases hc : totalCost s > 0
  · by_cases hh : s.spell.powertype = .Health
    · by_cases hlt : s.cast.executer.health < totalCost s
      · simp [consumePower, hc, hh, hlt, GameUnit.getPower]
      · simp [consumePower, hc, hh, hlt, GameUnit.getPower]
    · by_cases hlt : s.cast.executer.getPower s.spell.powertype < totalCost s
      · simp [consumePower, hc, hh, hlt]
      · simp [consumePower, hc, hh, hlt]
  · simp [consumePower, hc]

theorem consumePower_paid (w : World) (s : SingleCastState)
    (h : (consumePower w s).1 = true) :
    (consumePower w s).2.cast.executer.getPower s.spell.powertype + totalCost s
      = s.cast.executer.getPower s.spell.powertype := by
  by_cases hc : totalCost s > 0
  · by_cases hh : s.spell.powertype = .Health
    · by_cases hlt : s.cast.executer.health < totalCost s
      · simp [consumePower, hc, hh, hlt] at h
      · simp [consumePower, hc, hh, hlt, GameUnit.getPower, SingleCastState.setExecuter]
        omega
    · by_cases hlt : s.cast.executer.getPower s.spell.powertype < totalCost s
      · simp [consumePower, hc, hh, hlt] at h
      · simp only [consumePower, hc, hh, hlt, if_true, if_false]
        have hle : totalCost s ≤ s.cast.executer.getPower s.spell.powertype := by omega
        generalize totalCost s = cost at hle hc hlt ⊢
        revert hle hh
        cases s.spell.powertype <;> intro hh hle <;>
          simp_all [GameUnit.getPower, GameUnit.setPower, SingleCastState.setExecuter]
  · simp [consumePower, hc]
    omega

theorem attackSwingCallback_of_unpaid_power {w : World} {s : SingleCastState}
    (hp : (consumePower w s).1 = false) :
    attackSwingCallback w s
      = (false, (consumePower w s).2.emit (.spellCastError .FailedNoPower)) := by
  unfold attackSwingCallback
  generalize consumePower w s = p at hp ⊢
  obtain ⟨b, s2⟩ := p
  simp only at hp
  subst hp
  rfl

theorem attackSwingCallback_of_paid {w : World} {s : SingleCastState}
    (hp : (consumePower w s).1 = true)
    (hi : (consumeItem w (consumePower w s).2).1 = true) :
    attackSwingCallback w s
      = (true, applyAllEffects (sendEndCast w true (consumeItem w (consumePower w s).2).2)) := by
  unfold attackSwingCallback
  generalize consumePower w s = p at hp hi ⊢
  obtain ⟨b, s2⟩ := p
  simp only at hp hi ⊢
  subst hp
  simp only
  generalize consumeItem w s2 = q at hi ⊢
  obtain ⟨c, s3⟩ := q
  simp only at hi
  subst hi
  rfl

/-- Counterexample for C17: the swing callback of a passive on-next-swing spell
pays the 30 mana, applies the effects and returns true, but sends no success
notification. -/
theorem attackSwingCallback_passive_silent :
    (attackSwingCallback {} passiveSwingCast).1 = true
      ∧ (attackSwingCallback {} passiveSwingCast).2.cast.executer.mana = 70
      ∧ effectRuns (attackSwingCallback {} passiveSwingCast).2.cast.log = 1
      ∧ successNotifications (attackSwingCallback {} passiveSwingCast).2.cast.log = 0 := by
  decide

/-- Claim C17, amended: the swing callback re-checks the cost.  If the cost is
positive and the paying field is below it, the callback returns false, reports
the no-power error, calls no effect handler and leaves every unit field of the
caster unchanged.  If the power and the item can be paid it returns true, the
paying field is reduced by the cost, the effects are applied in the call, and
the success notification is sent exactly when the caster has a world instance
and the spell is not passive.  Completion of an on-next-swing spell changes no
health or power field and applies no effect; when the validations pass it
registers the callback. -/
theorem attackSwingCallback_rechecks_cost (w : World) (s : SingleCastState) :
    ((0 < totalCost s ∧ s.cast.executer.getPower s.spell.powertype < totalCost s) →
        (attackSwingCallback w s).1 = false
          ∧ castErrors (attackSwingCallback w s).2.cast.log
              = castErrors s.cast.log ++ [.FailedNoPower]
          ∧ handlerCalls (attackSwingCallback w s).2.cast.log = handlerCalls s.cast.log
          ∧ effectRuns (attackSwingCallback w s).2.cast.log = effectRuns s.cast.log
          ∧ (attackSwingCallback w s).2.cast.executer = s.cast.executer)
      ∧ (¬ (0 < totalCost s ∧ s.cast.executer.getPower s.spell.powertype < totalCost s) →
          (consumeItem w (consumePower w s).2).1 = true →
          (attackSwingCallback w s).1 = true
            ∧ (attackSwingCallback w s).2.cast.executer.getPower s.spell.powertype
                  + totalCost s
                = s.cast.executer.getPower s.spell.powertype
            ∧ successNotifications (attackSwingCallback w s).2.cast.log
                = successNotifications s.cast.log
                  + (if w.hasWorldInstance = true ∧ s.spell.passive = false then 1 else 0)
            ∧ handlerCalls (attackSwingCallback w s).2.cast.log
                = handlerCalls s.cast.log ++ dispatchTrace s.spell.effects
            ∧ effectRuns (attackSwingCallback w s).2.cast.log = effectRuns s.cast.log + 1)
      ∧ ((s.spell.onNextSwing || s.spell.onNextSwing2) = true →
          (∀ p : PowerType,
              (onCastFinished w s).cast.executer.getPower p = s.cast.executer.getPower p)
            ∧ handlerCalls (onCastFinished w s).cast.log = handlerCalls s.cast.log
            ∧ effectRuns (onCastFinished w s).cast.log = effectRuns s.cast.log
            ∧ (validateCastFinished w s = none →
                swingCallbacks (onCastFinished w s).cast.log
                  = swingCallbacks s.cast.log + 1)) := by
  refine ⟨?_, ?_, ?_⟩
  · intro hlow
    have hp : (consumePower w s).1 = false := (consumePower_fst_eq_false_iff w s).2 hlow
    rw [attackSwingCallback_of_unpaid_power hp, consumePower_eq]
    simp [hp, SingleCastState.emit, consumePower_executer_of_false w s hp]
  · intro hok hi
    have hp : (consumePower w s).1 = true := by
      cases h : (consumePower w s).1
      · exact absurd ((consumePower_fst_eq_false_iff w s).1 h) hok
      · rfl
    have hpaid := consumePower_paid w s hp
    rw [attackSwingCallback_of_paid hp hi]
    rw [consumeItem_eq, consumePower_eq] at *
    cases hw : w.hasWorldInstance <;> cases hpass : s.spell.passive <;>
      simp [applyAllEffects_eq, sendEndCast_eq, hp, hw, hpass, endCastPackets] <;>
      simpa [hp] using hpaid
  · intro hs
    cases hv : validateCastFinished w s with
    | none =>
      rw [onCastFinished_of_swing hv hs]
      have h := finishCast_records w
        (({ s with hasFinished := true } : SingleCastState).emit .setAttackSwingCallback)
      refine ⟨?_, ?_, ?_, ?_⟩
      · intro p
        rw [h.2.2.2.2.2.2.1 p]
        rfl
      · simp [finishCast_eq, SingleCastState.emit]
      · simp [finishCast_eq, SingleCastState.emit]
      · intro _
        simp [finishCast_eq, SingleCastState.emit]
    | some s' =>
      rw [onCastFinished_of_aborted hv]
      rcases validateCastFinished_some hv with ⟨_, hs'⟩ | ⟨_, code, hs', _⟩
      · subst hs'
        simp
      · subst hs'
        rw [abortCast_eq]
        simp

theorem attackSwingCallback_rechecks_cost_witness :
    (attackSwingCallback {} poorCast).1 = false
      ∧ castErrors (attackSwingCallback {} poorCast).2.cast.log
          = castErrors poorCast.cast.log ++ [.FailedNoPower]
      ∧ handlerCalls (attackSwingCallback {} poorCast).2.cast.log
          = handlerCalls poorCast.cast.log
      ∧ effectRuns (attackSwingCallback {} poorCast).2.cast.log = effectRuns poorCast.cast.log
      ∧ (attackSwingCallback {} poorCast).2.cast.executer = poorCast.cast.executer :=
  (attackSwingCallback_rechecks_cost {} poorCast).1 (by decide)

theorem onCastFinished_hasFinished (w : World) (s : SingleCastState) :
    (onCastFinished w s).hasFinished = true := by
  cases hv : validateCastFinished w s with
  | some s' =>
    rw [onCastFinished_of_aborted hv]
    rcases validateCastFinished_some hv with ⟨_, hs'⟩ | ⟨_, code, hs', _⟩
    · subst hs'; rfl
    · subst hs'; rw [abortCast_eq]
  | none =>
    cases hs : (s.spell.onNextSwing || s.spell.onNextSwing2) with
    | true =>
      rw [onCastFinished_of_swing hv hs, finishCast_eq]
      rfl
    | false =>
      cases hp : (consumePower w { s with hasFinished := true }).1 with
      | false =>
        rw [onCastFinished_of_unpaid_power hv hs hp, consumePower_eq]
        simp
      | true =>
        cases hi : (consumeItem w (consumePower w { s with hasFinished := true }).2).1 with
        | false =>
          rw [onCastFinished_of_unpaid_item hv hs hp hi, consumeItem_eq, consumePower_eq]
          simp
        | true =>
          have hF : ∀ t, (finishCast w t).hasFinished = t.hasFinished :=
            fun t => (finishCast_records w t).2.1
          have hA : ∀ t, (applyAllEffects t).hasFinished = t.hasFinished :=
            fun t => (applyAllEffects_records t).2.1
          rw [onCastFinished_of_paid hv hs hp hi]
          cases hu : w.unitTarget with
          | none => split_ifs <;> simp [hF, hA]
          | some t => simp only; split_ifs <;> simp [hF, hA]

theorem attackSwingCallback_of_unpaid_item {w : World} {s : SingleCastState}
    (hp : (consumePower w s).1 = true)
    (hi : (consumeItem w (consumePower w s).2).1 = false) :
    attackSwingCallback w s
      = (false, (consumeItem w (consumePower w s).2).2.emit
          (.spellCastError .FailedItemNotFound)) := by
  unfold attackSwingCallback
  generalize consumePower w s = p at hp hi ⊢
  obtain ⟨b, s2⟩ := p
  simp only at hp hi ⊢
  subst hp
  simp only
  generalize consumeItem w s2 = q at hi ⊢
  obtain ⟨c, s3⟩ := q
  simp only at hi
  subst hi
  rfl

theorem attackSwingCallback_hasFinished (w : World) (s : SingleCastState)
    (h : s.hasFinished = true) : (attackSwingCallback w s).2.hasFinished = true := by
  have he : (consumePower w s).2.hasFinished = true := by
    rw [consumePower_eq]
    simp [h]
  have hc : ∀ t, (consumeItem w t).2.hasFinished = t.hasFinished := fun t => by
    rw [consumeItem_eq]
  cases hp : (consumePower w s).1 with
  | false =>
    rw [attackSwingCallback_of_unpaid_power hp]
    exact he
  | true =>
    cases hi : (consumeItem w (consumePower w s).2).1 with
    | false =>
      rw [attackSwingCallback_of_unpaid_item hp hi]
      exact (hc _).trans he
    | true =>
      rw [attackSwingCallback_of_paid hp hi]
      simp only [applyAllEffects_eq, sendEndCast_eq]
      exact (hc _).trans he

theorem step_hasFinished (w : World) (op : CastOp) (s s' : SingleCastState)
    (hstep : op.step w s = some s') (h : s.hasFinished = true) : s'.hasFinished = true := by
  cases op with
  | activate =>
    simp only [CastOp.step, activate] at hstep
    by_cases hct : s.castTime > 0
    · cases hw : w.hasWorldInstance
      · simp [hct, hw] at hstep
      · cases hu : w.unitTarget <;> simp [hct, hw, hu] at hstep <;> subst hstep <;> exact h
    · simp only [hct, if_false, Option.some.injEq] at hstep
      subst hstep
      exact onCastFinished_hasFinished w s
  | startCast request doReplacePreviousCast =>
    simp only [CastOp.step, startCast, h, Option.some.injEq] at hstep
    subst hstep
    simp [h]
  | stopCast =>
    simp only [CastOp.step, Option.some.injEq] at hstep
    subst hstep
    rw [stopCast_eq]
  | onUserStartsMoving =>
    simp only [CastOp.step, onUserStartsMoving, h, Option.some.injEq] at hstep
    subst hstep
    simpa using h
  | onTargetRemovedOrDead =>
    simp only [CastOp.step, onTargetRemovedOrDead, Option.some.injEq] at hstep
    subst hstep
    rw [stopCast_eq]
  | onCastFinished =>
    simp only [CastOp.step, Option.some.injEq] at hstep
    subst hstep
    exact onCastFinished_hasFinished w s
  | consumePower =>
    simp only [CastOp.step, Option.some.injEq] at hstep
    subst hstep
    rw [consumePower_eq]
    simp [h]
  | consumeItem =>
    simp only [CastOp.step, Option.some.injEq] at hstep
    subst hstep
    rw [consumeItem_eq]
    exact h
  | attackSwingCallback =>
    simp only [CastOp.step, Option.some.injEq] at hstep
    subst hstep
    exact attackSwingCallback_hasFinished w s h
  | applyAllEffects =>
    simp only [CastOp.step, Option.some.injEq] at hstep
    subst hstep
    rw [applyAllEffects_eq]
    exact h

theorem runCast_hasFinished : ∀ (ops : List (World × CastOp)) (s s' : SingleCastState),
    runCast ops s = some s' → s.hasFinished = true → s'.hasFinished = true
  | [], s, s', hrun, h => by
    simp only [runCast, Option.some.injEq] at hrun
    subst hrun
    exact h
  | (w, op) :: rest, s, s', hrun, h => by
    simp only [runCast] at hrun
    cases hstep : op.step w s with
    | none => simp [hstep] at hrun
    | some s1 =>
      simp only [hstep] at hrun
      exact runCast_hasFinished rest s1 s' hrun (step_hasFinished w op s s1 hstep h)

/-- Claim C19: the finished flag is monotone.  It is false in the state built
by the constructor; every operation of a cast returns a state unless it is
`activate` outside a world instance; no operation turns a true flag back to
false; and along any run of operations a flag that is true stays true, so it
rises at most once. -/
theorem hasFinished_monotone :
    (∀ (w : World) (cast : SpellCast) (spell : SpellEntry) (target : SpellTargetMap)
        (basePoints : Int) (castTime : Nat) (isProc : Bool) (itemGuid : Nat),
        (SingleCastState.create w cast spell target basePoints castTime isProc
          itemGuid).hasFinished = false)
      ∧ (∀ (w : World) (op : CastOp) (s : SingleCastState),
          (w.hasWorldInstance = true ∨ op ≠ .activate) → (op.step w s).isSome = true)
      ∧ (∀ (w : World) (op : CastOp) (s s' : SingleCastState),
          op.step w s = some s' → s.hasFinished = true → s'.hasFinished = true)
      ∧ (∀ (ops₁ ops₂ : List (World × CastOp)) (s s₁ s₂ : SingleCastState),
          runCast ops₁ s = some s₁ → runCast ops₂ s₁ = some s₂ →
          s₁.hasFinished = true → s₂.hasFinished = true) := by
  refine ⟨?_, ?_, step_hasFinished, ?_⟩
  · intro w cast spell target basePoints castTime isProc itemGuid
    rfl
  · intro w op s hop
    cases op with
    | activate =>
      rcases hop with hw | hne
      · simp only [CastOp.step, activate]
        split_ifs <;> simp_all
      · exact absurd rfl hne
    | _ => rfl
  · intro ops₁ ops₂ s s₁ s₂ _ h2 hf
    exact runCast_hasFinished ops₂ s₁ s₂ h2 hf

/-- Claim C20: in `executeMeleeAttack`, for a blocked target with accumulated
damage `D` and the block value 50, the damage after blocking is `max(D - 50, 0)`,
never negative nor wrapped around, and the blocked amount is 50 when `D > 50`
and 0, the already zeroed damage, when `D ≤ 50`. -/
theorem executeMeleeAttack_block (hitInfo : HitInfo) (D : Nat) :
    ∃ damage blocked : Nat,
      meleeOutcomeDamage .Blocks hitInfo D = some (damage, blocked, false)
        ∧ (damage : Int) = max ((D : Int) - 50) 0
        ∧ damage ≤ D
        ∧ (50 < D → blocked = 50)
        ∧ (D ≤ 50 → blocked = 0 ∧ damage = 0 ∧ blocked = damage) := by
  by_cases h : 50 ≥ D
  · refine ⟨0, 0, by simp [meleeOutcomeDamage, h], ?_, by omega, by omega, by omega⟩
    simp only [max_def]
    split_ifs <;> omega
  · refine ⟨D - 50, 50, by simp [meleeOutcomeDamage, h], ?_, by omega, by omega, by omega⟩
    simp only [max_def]
    split_ifs <;> omega

/-! ### Effects, base points and range -/

theorem spellCasts_append (a b : List Event) :
    spellCasts (a ++ b) = spellCasts a ++ spellCasts b := by
  simp [spellCasts, List.filterMap_append]

theorem spellCasts_effectEvents (s : SingleCastState) :
    spellCasts (effectEvents s)
      = s.spell.additionalspells.map (fun spell =>
          ({ spell := spell, target := s.target, basePoints := -1, castTime := 0,
             isProc := true } : CastRequest)) := by
  unfold effectEvents
  rw [spellCasts_append, spellCasts_append]
  have h1 : spellCasts ((dispatchTrace s.spell.effects).map Event.effectHandler) = [] := by
    induction dispatchTrace s.spell.effects with
    | nil => rfl
    | cons a l ih => simp [spellCasts]
  have h2 : spellCasts [Event.completedEffects] = [] := rfl
  rw [h1, h2]
  simp only [List.nil_append]
  induction s.spell.additionalspells with
  | nil => rfl
  | cons a l ih => simpa [spellCasts] using ih

/-- Claim C23: a run of `applyAllEffects` appends to the log the handler calls,
then one `completedEffects` signal, then one `castSpell` call for every
additional spell of the spell entry, in declaration order, each with the target
selection of the cast, no override of the base points (`-1`), cast time 0 and
the proc flag.  So the signal is fired exactly once, after the last handler
call and before the first additional spell, and the additional spells are cast
exactly once each. -/
theorem applyAllEffects_completion_then_additional_spells (s : SingleCastState) :
    (applyAllEffects s).cast.log
        = s.cast.log ++ (dispatchTrace s.spell.effects).map Event.effectHandler
          ++ [.completedEffects]
          ++ s.spell.additionalspells.map (fun spell => Event.castSpell
              { spell := spell, target := s.target, basePoints := -1, castTime := 0,
                isProc := true })
      ∧ effectRuns (applyAllEffects s).cast.log = effectRuns s.cast.log + 1
      ∧ handlerCalls (applyAllEffects s).cast.log
          = handlerCalls s.cast.log ++ dispatchTrace s.spell.effects
      ∧ spellCasts (applyAllEffects s).cast.log
          = spellCasts s.cast.log
            ++ s.spell.additionalspells.map (fun spell =>
                ({ spell := spell, target := s.target, basePoints := -1, castTime := 0,
                   isProc := true } : CastRequest))
      ∧ (spellCasts (applyAllEffects s).cast.log).length
          = (spellCasts s.cast.log).length + s.spell.additionalspells.length
      ∧ (applyAllEffects s).cast.executer = s.cast.executer
      ∧ (applyAllEffects s).target = s.target := by
  have hlog := (applyAllEffects_log s).1
  have hc : spellCasts (applyAllEffects s).cast.log
      = spellCasts s.cast.log
        ++ s.spell.additionalspells.map (fun spell =>
            ({ spell := spell, target := s.target, basePoints := -1, castTime := 0,
               isProc := true } : CastRequest)) := by
    rw [applyAllEffects_eq]
    simp only [spellCasts_append, spellCasts_effectEvents]
  refine ⟨hlog, ?_, ?_, hc, ?_, ?_, ?_⟩
  · rw [applyAllEffects_eq]; simp
  · rw [applyAllEffects_eq]; simp
  · rw [hc]; simp
  · rw [applyAllEffects_eq]
  · rw [applyAllEffects_eq]

/-- Counterexample for C24: the effect has ten base points, no die sides, no
level scaling and one base die; the caster has no combo points and the cast no
override.  The result is 11: the base die is added when it reaches the random
range. -/
theorem calculateEffectBasePoints_adds_base_dice :
    ({} : SingleCastState).spell.baselevel = 0
      ∧ ({} : SingleCastState).spell.maxlevel = 0
      ∧ oneDieEffect.pointsperlevel = 0
      ∧ oneDieEffect.diesides = 0
      ∧ oneDieEffect.basepoints = 10
      ∧ casterComboPoints {} = 0
      ∧ ({} : SingleCastState).basePoints = -1
      ∧ ∀ raw : Nat, calculateEffectBasePoints {} oneDieEffect raw = 11 := by
  refine ⟨rfl, rfl, rfl, rfl, rfl, by decide, rfl, ?_⟩
  intro raw
  have e1 : effectBasePoints {} oneDieEffect = 10 := by decide!
  have e2 : effectRandomPoints {} oneDieEffect = 0 := by decide!
  have e3 : effectComboDamage {} oneDieEffect = 0 := by decide!
  unfold calculateEffectBasePoints
  simp only [e1, e2, e3]
  simp [oneDieEffect]

/-- Claim C24, amended: for an effect with ten base points, no points per
level, no die sides, no dice per level and a base dice value that is not
negative, cast without override by a caster without combo points, the result
is ten plus the base dice, whatever the levels of the spell and of the caster
and whatever the random engine gives; it is exactly ten when the base dice are
zero. -/
theorem calculateEffectBasePoints_ten (s : SingleCastState) (effect : SpellEffect)
    (raw : Nat) (hppl : effect.pointsperlevel = 0) (hds : effect.diesides = 0)
    (hdpl : effect.diceperlevel = 0) (hbp : effect.basepoints = 10)
    (hcombo : casterComboPoints s = 0) (hov : s.basePoints = -1)
    (hbd : 0 ≤ effect.basedice) :
    calculateEffectBasePoints s effect raw = 10 + effect.basedice
      ∧ (effect.basedice = 0 → calculateEffectBasePoints s effect raw = 10) := by
  have h10 : f32 10 = 10 := by
    have := f32_intCast 10 (by norm_num)
    simpa using this
  have e1 : effectBasePoints s effect = 10 := by
    unfold effectBasePoints
    simp only [hppl, hov, hbp, if_true, mul_zero, f32_zero, add_zero]
    have h : ((10 : Int) : ℚ) = 10 := by norm_num
    rw [h, h10, h10]
    have := truncToInt_intCast 10
    simpa using this
  have e2 : effectRandomPoints s effect = 0 := by
    unfold effectRandomPoints
    simp only [hds, hdpl, mul_zero, f32_zero, add_zero, Int.cast_zero]
    have := truncToInt_intCast 0
    simpa using this
  have e3 : effectComboDamage s effect = 0 := by
    unfold effectComboDamage
    simp only [hcombo, Int.cast_zero, f32_zero, mul_zero]
    have := truncToInt_intCast 0
    simpa using this
  have hmain : calculateEffectBasePoints s effect raw = 10 + effect.basedice := by
    unfold calculateEffectBasePoints
    simp only [e1, e2, e3]
    simp [hbd]
  exact ⟨hmain, fun h0 => by rw [hmain, h0]; rfl⟩

theorem calculateEffectBasePoints_ten_witness :
    calculateEffectBasePoints {} (fixedEffect 10) 7 = 10 :=
  (calculateEffectBasePoints_ten {} (fixedEffect 10) 7 rfl rfl rfl rfl (by decide) rfl
    (by decide)).2 rfl

theorem abortCast_code_injective {w : World} {s : SingleCastState}
    {c₁ c₂ : SpellCastResult} (h : abortCast w c₁ s = abortCast w c₂ s) : c₁ = c₂ := by
  have h' := congrArg (fun x : SingleCastState => castErrors x.cast.log) h
  simp only [abortCast_eq] at h'
  simpa using h'

theorem validateCastFinished_range (w : World) (s : SingleCastState) (t : UnitTarget)
    (hct : 0 < s.castTime) (hw : w.hasWorldInstance = true) (ht : w.unitTarget = some t)
    (hr : s.spell.minrange ≠ 0 ∨ s.spell.maxrange ≠ 0) :
    (tooClose s t → validateCastFinished w s = some (abortCast w .FailedTooClose s))
      ∧ (¬ tooClose s t → outOfRange w s t →
          validateCastFinished w s = some (abortCast w .FailedOutOfRange s))
      ∧ (¬ tooClose s t → ¬ outOfRange w s t →
          validateCastFinished w s = none
            ∨ validateCastFinished w s = some (abortCast w .FailedLineOfSight s)
            ∨ validateCastFinished w s = some (abortCast w .FailedUnitNotInfront s)) := by
  refine ⟨?_, ?_, ?_⟩
  · intro hc
    unfold tooClose at hc
    simp [validateCastFinished, hct, hw, ht, hr, hc, abortCast]
  · intro hc hf
    unfold tooClose at hc
    unfold outOfRange at hf
    simp [validateCastFinished, hct, hw, ht, hr, hc, hf, abortCast]
  · intro hc hf
    unfold tooClose at hc
    unfold outOfRange at hf
    cases hl : t.inLineOfSight <;> cases hfront : s.spell.facingFront <;>
      cases harc : t.inArc <;>
      simp [validateCastFinished, hct, hw, ht, hr, hc, hf, hl, hfront, harc, abortCast]

/-- Claim C25: on completion of a cast with a cast time, in a world instance,
whose target resolves to a unit at distance `d` and whose spell has a nonzero
minimum or maximum range, the completion fails with the too-close error exactly
when `minrange > 0` and `d < minrange`; otherwise it fails with the
out-of-range error exactly when `maxrange > 0` and `d` exceeds `maxrange` plus
the sum of the combat reaches of target and caster, both sums taken in single
precision as in the code (they are the exact sums when those are
representable).  The reach enters the maximum only, and a target at exactly
`minrange` or exactly the extended maximum passes the range check. -/
theorem validateCastFinished_range_check (w : World) (s : SingleCastState) (t : UnitTarget)
    (hct : 0 < s.castTime) (hw : w.hasWorldInstance = true) (ht : w.unitTarget = some t)
    (hr : s.spell.minrange ≠ 0 ∨ s.spell.maxrange ≠ 0) :
    (validateCastFinished w s = some (abortCast w .FailedTooClose s)
        ↔ (s.spell.minrange > 0 ∧ t.distance < s.spell.minrange))
      ∧ (validateCastFinished w s = some (abortCast w .FailedOutOfRange s)
          ↔ (¬ (s.spell.minrange > 0 ∧ t.distance < s.spell.minrange)
              ∧ s.spell.maxrange > 0
              ∧ t.distance
                  > f32 (s.spell.maxrange + f32 (t.combatReach + w.combatReach))))
      ∧ (f32 (t.combatReach + w.combatReach) = t.combatReach + w.combatReach →
          f32 (s.spell.maxrange + (t.combatReach + w.combatReach))
            = s.spell.maxrange + (t.combatReach + w.combatReach) →
          (outOfRange w s t
            ↔ (s.spell.maxrange > 0
                ∧ t.distance > s.spell.maxrange + (t.combatReach + w.combatReach))))
      ∧ (t.distance = s.spell.minrange →
          validateCastFinished w s ≠ some (abortCast w .FailedTooClose s))
      ∧ (t.distance = f32 (s.spell.maxrange + f32 (t.combatReach + w.combatReach)) →
          validateCastFinished w s ≠ some (abortCast w .FailedOutOfRange s)) := by
  obtain ⟨h1, h2, h3⟩ := validateCastFinished_range w s t hct hw ht hr
  have hclose : validateCastFinished w s = some (abortCast w .FailedTooClose s)
      ↔ tooClose s t := by
    constructor
    · intro h
      by_contra hc
      by_cases hf : outOfRange w s t
      · rw [h2 hc hf] at h
        exact absurd (abortCast_code_injective (Option.some.inj h)) (by decide)
      · rcases h3 hc hf with h' | h' | h'
        · rw [h'] at h; cases h
        · rw [h'] at h
          exact absurd (abortCast_code_injective (Option.some.inj h)) (by decide)
        · rw [h'] at h
          exact absurd (abortCast_code_injective (Option.some.inj h)) (by decide)
    · exact h1
  have hfar : validateCastFinished w s = some (abortCast w .FailedOutOfRange s)
      ↔ (¬ tooClose s t ∧ outOfRange w s t) := by
    constructor
    · intro h
      by_cases hc : tooClose s t
      · rw [h1 hc] at h
        exact absurd (abortCast_code_injective (Option.some.inj h)) (by decide)
      · refine ⟨hc, ?_⟩
        by_contra hf
        rcases h3 hc hf with h' | h' | h'
        · rw [h'] at h; cases h
        · rw [h'] at h
          exact absurd (abortCast_code_injective (Option.some.inj h)) (by decide)
        · rw [h'] at h
          exact absurd (abortCast_code_injective (Option.some.inj h)) (by decide)
    · rintro ⟨hc, hf⟩
      exact h2 hc hf
  refine ⟨hclose, ?_, ?_, ?_, ?_⟩
  · rw [hfar]
    unfold tooClose outOfRange
    tauto
  · intro e1 e2
    unfold outOfRange
    rw [e1, e2]
  · intro hd h
    have := hclose.1 h
    unfold tooClose at this
    rw [hd] at this
    exact lt_irrefl _ this.2
  · intro hd h
    have := (hfar.1 h).2
    unfold outOfRange at this
    rw [hd] at this
    exact lt_irrefl _ this.2

theorem validateCastFinished_range_check_witness :
    validateCastFinished farTargetWorld rangedCast
      = some (abortCast farTargetWorld .FailedOutOfRange rangedCast) :=
  (validateCastFinished_range_check farTargetWorld rangedCast { distance := 100 }
    (by decide) rfl rfl (Or.inr (by decide!))).2.1.2
    ⟨by decide!, by decide!, by decide!⟩

/-! ### Trade sessions and social lists -/

/-- Claim C29: the gold exchange of `setAcceptedState`.  A call with the current
acceptance state changes nothing.  For a call that makes both traders accepted,
with `ownerMoney` and `otherMoney` the coinage of the two characters: if each
has at least the gold offered, the owner ends with
`ownerMoney - ownerGold + targetGold` and the other with
`otherMoney - targetGold + ownerGold`, both modulo `2 ^ 32`, and the sum of the
two is preserved when neither result overflows; if one of them has less than
the gold offered, both coinages are unchanged. -/
theorem setAcceptedState_gold_exchange (d : TradeData) (index : Trader)
    (ownerMoney otherMoney : Nat)
    (ho : d.ownerCoinage = some ownerMoney) (ht : d.otherCoinage = some otherMoney) :
    d.setAcceptedState index (d.data index).accepted = some d
      ∧ ((d.data index).accepted = false →
          (d.setAccepted index true).owner.accepted = true →
          (d.setAccepted index true).target.accepted = true →
          ∃ d', d.setAcceptedState index true = some d'
            ∧ d'.owner.accepted = true ∧ d'.target.accepted = true
            ∧ (d.owner.gold ≤ ownerMoney → d.target.gold ≤ otherMoney →
                d'.ownerCoinage
                    = some ((ownerMoney - d.owner.gold + d.target.gold) % 2 ^ 32)
                  ∧ d'.otherCoinage
                    = some ((otherMoney - d.target.gold + d.owner.gold) % 2 ^ 32)
                  ∧ (ownerMoney - d.owner.gold + d.target.gold < 2 ^ 32 →
                      otherMoney - d.target.gold + d.owner.gold < 2 ^ 32 →
                      ∃ a b, d'.ownerCoinage = some a ∧ d'.otherCoinage = some b
                        ∧ a + b = ownerMoney + otherMoney))
            ∧ ((ownerMoney < d.owner.gold ∨ otherMoney < d.target.gold) →
                d'.ownerCoinage = d.ownerCoinage ∧ d'.otherCoinage = d.otherCoinage
                  ∧ d'.log = d.log)) := by
  refine ⟨by simp [TradeData.setAcceptedState], ?_⟩
  intro hacc h1 h2
  have hgo : (d.setAccepted index true).owner.gold = d.owner.gold := by
    cases index <;> rfl
  have hgt : (d.setAccepted index true).target.gold = d.target.gold := by
    cases index <;> rfl
  have hco : (d.setAccepted index true).ownerCoinage = some ownerMoney := by
    cases index <;> exact ho
  have hct : (d.setAccepted index true).otherCoinage = some otherMoney := by
    cases index <;> exact ht
  have hlog : (d.setAccepted index true).log = d.log := by
    cases index <;> rfl
  by_cases hlo : ownerMoney < d.owner.gold
  · refine ⟨d.setAccepted index true, ?_, h1, h2, ?_, ?_⟩
    · simp [TradeData.setAcceptedState, hacc, h1, h2, hco, hct, hgo, hlo]
    · intro h; omega
    · intro _; exact ⟨by rw [hco, ho], by rw [hct, ht], hlog⟩
  by_cases hlt : otherMoney < d.target.gold
  · refine ⟨d.setAccepted index true, ?_, h1, h2, ?_, ?_⟩
    · simp [TradeData.setAcceptedState, hacc, h1, h2, hco, hct, hgo, hgt, hlo, hlt]
    · intro _ h; omega
    · intro _; exact ⟨by rw [hco, ho], by rw [hct, ht], hlog⟩
  · refine ⟨({ d.setAccepted index true with
        ownerCoinage := some ((ownerMoney - d.owner.gold + d.target.gold) % 2 ^ 32)
        otherCoinage := some ((otherMoney - d.target.gold + d.owner.gold) % 2 ^ 32) }
        : TradeData).emit [.sendTradeStatus .Owner .TradeComplete,
          .sendTradeStatus .Target .TradeComplete,
          .resetTradeSession .Owner, .resetTradeSession .Target], ?_, h1, h2, ?_, ?_⟩
    · simp [TradeData.setAcceptedState, hacc, h1, h2, hco, hct, hgo, hgt, hlo, hlt]
    · intro _ _
      refine ⟨rfl, rfl, ?_⟩
      intro ha hb
      refine ⟨_, _, rfl, rfl, ?_⟩
      rw [Nat.mod_eq_of_lt ha, Nat.mod_eq_of_lt hb]
      omega
    · intro h
      omega

theorem setAcceptedState_gold_exchange_witness :
    ∃ d', exampleTrade.setAcceptedState .Owner true = some d'
      ∧ d'.ownerCoinage = some 75 ∧ d'.otherCoinage = some 75 := by
  obtain ⟨d', h, _, _, hx, _⟩ :=
    (setAcceptedState_gold_exchange exampleTrade .Owner 100 50 rfl rfl).2 rfl rfl rfl
  obtain ⟨h1, h2, _⟩ := hx (by decide) (by decide)
  exact ⟨d', h, h1, h2⟩

/-- Claim C30: after `addToSocialList(guid, ignore)`, `isFriend(guid)` is
`!ignore` and `isIgnored(guid)` is `ignore`, and the entry of every other guid
is unchanged.  The result is the already-added one (`AlreadyAdded`, or
`IgnoreAlreadyAdded` when ignoring) exactly when the guid was present with the
same flag, and then the list is unchanged; otherwise it is `AddedOffline`
(`IgnoreAdded` when ignoring).  In every list, `isFriend` and `isIgnored` are
never both true for a guid, and both are false exactly when the guid is not in
the list. -/
theorem addToSocialList_sets_flag (p : PlayerSocial) (guid : Nat) (ignore : Bool) :
    (p.addToSocialList guid ignore).2.isFriend guid = !ignore
      ∧ (p.addToSocialList guid ignore).2.isIgnored guid = ignore
      ∧ (∀ other : Nat, other ≠ guid →
          (p.addToSocialList guid ignore).2.contacts other = p.contacts other)
      ∧ ((p.addToSocialList guid ignore).1
            = (if ignore then FriendResult.IgnoreAlreadyAdded else FriendResult.AlreadyAdded)
          ↔ ∃ info, p.contacts guid = some info
              ∧ info.flags = (if ignore then social_flag.Ignored else social_flag.Friend))
      ∧ ((p.addToSocialList guid ignore).1
            = (if ignore then FriendResult.IgnoreAlreadyAdded else FriendResult.AlreadyAdded)
          → (p.addToSocialList guid ignore).2.contacts = p.contacts)
      ∧ ((p.addToSocialList guid ignore).1
            ≠ (if ignore then FriendResult.IgnoreAlreadyAdded else FriendResult.AlreadyAdded)
          → (p.addToSocialList guid ignore).1
              = (if ignore then FriendResult.IgnoreAdded else FriendResult.AddedOffline))
      ∧ (∀ (q : PlayerSocial) (g : Nat),
          ¬ (q.isFriend g = true ∧ q.isIgnored g = true)
            ∧ ((q.isFriend g = false ∧ q.isIgnored g = false) ↔ q.contacts g = none)) := by
  have hne : social_flag.Ignored ≠ social_flag.Friend := by decide
  refine ⟨?_, ?_, ?_, ?_, ?_, ?_, ?_⟩
  · unfold PlayerSocial.addToSocialList PlayerSocial.isFriend
    cases hc : p.contacts guid with
    | none => cases ignore <;> simp [hne]
    | some info =>
      cases ignore <;> simp only [Bool.false_eq_true, if_false, if_true] <;>
        split_ifs with hf <;> simp [hc, hf, hne]
  · unfold PlayerSocial.addToSocialList PlayerSocial.isIgnored
    cases hc : p.contacts guid with
    | none => cases ignore <;> simp [hne]
    | some info =>
      cases ignore <;> simp only [Bool.false_eq_true, if_false, if_true] <;>
        split_ifs with hf <;> simp [hc, hf, hne]
  · intro other ho
    unfold PlayerSocial.addToSocialList
    cases hc : p.contacts guid with
    | none => simp [Function.update, ho]
    | some info =>
      simp only
      split_ifs <;> simp [Function.update, ho]
  · unfold PlayerSocial.addToSocialList
    cases hc : p.contacts guid with
    | none => cases ignore <;> simp
    | some info =>
      cases ignore <;> simp only [Bool.false_eq_true, if_false, if_true] <;>
        split_ifs with hf <;> simp [hf]
  · unfold PlayerSocial.addToSocialList
    cases hc : p.contacts guid with
    | none => cases ignore <;> simp
    | some info =>
      cases ignore <;> simp only [Bool.false_eq_true, if_false, if_true] <;>
        split_ifs with hf <;> simp
  · unfold PlayerSocial.addToSocialList
    cases hc : p.contacts guid with
    | none => cases ignore <;> simp
    | some info =>
      cases ignore <;> simp only [Bool.false_eq_true, if_false, if_true] <;>
        split_ifs with hf <;> simp
  · intro q g
    unfold PlayerSocial.isFriend PlayerSocial.isIgnored
    cases hc : q.contacts g with
    | none => simp
    | some info => by_cases hf : info.flags = social_flag.Friend <;> simp [hf]

/-! ### Effect handlers -/

/-- Claim C21 fails in the code for an immune target: the test for `IsImmune`
is not chained to the test for `Miss`, so for an immune target that was not
missed the `else` branch computes the burn again.  With 100 base points, no
resist and a target that loses what is asked, `addPower` is called with `-100`
and 100 damage is passed to `dealDamage`.  For a missed target nothing is
removed and the damage passed is 0, whatever the other inputs. -/
theorem spellEffectPowerBurn_immune_still_burns :
    spellEffectPowerBurnTarget {} powerBurnEffect 0 .IsImmune .NormalSwing 0
        (fun amount => amount) (fun _ => 0)
      = some { addPowerAmount := some (-100), burn := 100, damage := 100, resisted := 0,
               absorbed := 0, dealt := 100 }
    ∧ ∀ (s : SingleCastState) (effect : SpellEffect) (raw : Nat) (victimState : VictimState)
        (resist : ℚ) (addPower : Int → Int) (consumeAbsorb : Nat → Nat),
        spellEffectPowerBurnTarget s effect raw victimState .Miss resist addPower consumeAbsorb
          = some { addPowerAmount := none, burn := 0, damage := 0, resisted := 0,
                   absorbed := 0, dealt := 0 } := by
  refine ⟨by decide!, ?_⟩
  intro s effect raw victimState resist addPower consumeAbsorb
  simp [spellEffectPowerBurnTarget]

/-- Claim C22 fails in the code: the `switch` on the aura type has no `break`,
so `modifiedByBonus` is false for every aura type and the base points of the
aura are `calculateEffectBasePoints(effect)` also for the periodic types.  For
a periodic damage aura with 100 base points, a cast time of 3500 ms, 100 spell
power and no resist the aura gets 100 points, where the power-scaled total is
200. -/
theorem spellEffectApplyAura_never_scaled :
    (∀ aura : AuraType, applyAuraModifiedByBonus aura = false)
      ∧ (∀ (s : SingleCastState) (effect : SpellEffect) (raw : Nat) (hitInfo : HitInfo)
          (resist : ℚ) (spellPower spellBonusPct : Nat),
          hitInfo ≠ .Miss → resist ≠ 100 →
          spellEffectApplyAuraTarget s effect raw .Normal hitInfo resist spellPower
              spellBonusPct
            = some (false, toUInt32 (calculateEffectBasePoints s effect raw)))
      ∧ periodicDamageEffect.aura = .PeriodicDamage
      ∧ getSpellPointsTotal longCast periodicDamageEffect 100 0 0 = some 200
      ∧ spellEffectApplyAuraTarget longCast periodicDamageEffect 0 .Normal .NormalSwing 0
          100 0 = some (false, 100) := by
  have h : ∀ aura : AuraType, applyAuraModifiedByBonus aura = false := by
    intro aura
    cases aura <;> rfl
  refine ⟨h, ?_, rfl, by decide!, by decide!⟩
  intro s effect raw hitInfo resist spellPower spellBonusPct hm hr
  simp [spellEffectApplyAuraTarget, h, hm, hr]

/-- Counterexample for C28: the unit target of a mana drain of 30 points
resolves to the caster itself, a mana user with 100 of 200 mana.  The 30 mana
taken from the target are given back to the caster, the same unit, whose mana
ends at 100 and not at 70. -/
theorem spellEffectDrainPower_self_target :
    calculateEffectBasePoints {} manaDrainEffect 0 = 30
      ∧ selfDrain.resolved = some .caster
      ∧ ((selfDrain.unit .caster).powerType : Int) = manaDrainEffect.miscvaluea
      ∧ (selfDrain.unit .caster).power manaDrainEffect.miscvaluea = 100
      ∧ ((spellEffectDrainPower {} manaDrainEffect 0 selfDrain).unit .caster).power
          manaDrainEffect.miscvaluea = 100 := by
  decide!

theorem spellEffectDrainPower_other_eq (s : SingleCastState) (effect : SpellEffect)
    (raw : Nat) (u : DrainUnits) (p c : Nat)
    (hself : u.targetMapIsSelf = false) (hw : u.hasWorldInstance = true)
    (hres : u.resolved = some .other)
    (hpu : toUInt32 (calculateEffectBasePoints s effect raw) = p)
    (hc : u.other.power effect.miscvaluea = c)
    (ht : (u.other.powerType : Int) = effect.miscvaluea) (hp0 : p ≠ 0) (hc0 : c ≠ 0) :
    spellEffectDrainPower s effect raw u
      = if effect.miscvaluea = power_type.Mana
            ∧ (u.caster.powerType : Int) = effect.miscvaluea then
          { u with
            other := u.other.setPower effect.miscvaluea (c - min p c)
            energizeLog := u.energizeLog ++ [min p c]
            caster := u.caster.setPower u.caster.powerType
              ((u.caster.power u.caster.powerType
                + (if (u.caster.power u.caster.powerType + min p c) % 2 ^ 32
                      > u.caster.maxPower u.caster.powerType then
                    (u.caster.maxPower u.caster.powerType + 2 ^ 32
                      - u.caster.power u.caster.powerType) % 2 ^ 32
                  else min p c)) % 2 ^ 32) }
        else { u with other := u.other.setPower effect.miscvaluea (c - min p c) } := by
  have hmin : (if p > c then c else p) = min p c := by
    simp only [min_def]
    split_ifs <;> omega
  unfold spellEffectDrainPower
  simp only [hself, hw, hres, hpu, Bool.false_eq_true, if_false, if_true,
    DrainUnits.unit, ht, ne_eq, not_true_eq_false, hp0, hc0, hc, hmin]
  by_cases hm : effect.miscvaluea = power_type.Mana
  · by_cases hcm : (u.caster.powerType : Int) = effect.miscvaluea
    · have hcm' : (u.caster.powerType : Int) = power_type.Mana := by rw [hcm, hm]
      simp [hm, hcm', DrainUnits.setPower, hself, hw, hres]
    · have hcm' : ¬ (u.caster.powerType : Int) = power_type.Mana := by rwa [hm] at hcm
      simp [hm, hcm', DrainUnits.setPower, hself, hw, hres]
  · simp [hm, DrainUnits.setPower, hself, hw, hres]

/-- Claim C28, amended: the unit target resolves to a unit other than the
caster, the base points are `p` and the target has `c` of the drained power.
If the target uses the drained power type, `p > 0` and `c > 0`, the target's
power becomes `c - min p c` and its other power fields keep their value; if
moreover the drained type is mana, the caster uses mana, the caster's mana is
at most its maximum and the sum of the caster's mana and `min p c` fits in 32
bits, the caster's mana becomes the minimum of that sum and the maximum;
when the drained type is not mana or the caster does not use mana, the caster
is unchanged.  If the target uses another power type, `p = 0` or `c = 0`,
nothing changes. -/
theorem spellEffectDrainPower_drains (s : SingleCastState) (effect : SpellEffect)
    (raw : Nat) (u : DrainUnits) (p c : Nat)
    (hself : u.targetMapIsSelf = false) (hw : u.hasWorldInstance = true)
    (hres : u.resolved = some .other)
    (hp : calculateEffectBasePoints s effect raw = (p : Int)) (hp32 : p < 2 ^ 32)
    (hc : u.other.power effect.miscvaluea = c) :
    (((u.other.powerType : Int) = effect.miscvaluea ∧ 0 < p ∧ 0 < c) →
        (spellEffectDrainPower s effect raw u).other.power effect.miscvaluea = c - min p c
          ∧ (∀ k : Int, k ≠ effect.miscvaluea →
              (spellEffectDrainPower s effect raw u).other.power k = u.other.power k)
          ∧ (effect.miscvaluea = power_type.Mana →
              (u.caster.powerType : Int) = power_type.Mana →
              u.caster.power power_type.Mana ≤ u.caster.maxPower power_type.Mana →
              u.caster.power power_type.Mana + min p c < 2 ^ 32 →
              (spellEffectDrainPower s effect raw u).caster.power power_type.Mana
                = min (u.caster.power power_type.Mana + min p c)
                    (u.caster.maxPower power_type.Mana))
          ∧ ((effect.miscvaluea ≠ power_type.Mana
                ∨ (u.caster.powerType : Int) ≠ power_type.Mana) →
              (spellEffectDrainPower s effect raw u).caster = u.caster))
      ∧ (((u.other.powerType : Int) ≠ effect.miscvaluea ∨ p = 0 ∨ c = 0) →
          (spellEffectDrainPower s effect raw u).other = u.other
            ∧ (spellEffectDrainPower s effect raw u).caster = u.caster) := by
  have hpu : toUInt32 (calculateEffectBasePoints s effect raw) = p := by
    rw [hp]
    unfold toUInt32
    have : ((p : Int) % 2 ^ 32) = (p : Int) :=
      Int.emod_eq_of_lt (by omega) (by exact_mod_cast hp32)
    rw [this]
    simp
  refine ⟨?_, ?_⟩
  · rintro ⟨ht, hp0, hc0⟩
    have hE := spellEffectDrainPower_other_eq s effect raw u p c hself hw hres hpu hc ht
      (by omega) (by omega)
    refine ⟨?_, ?_, ?_, ?_⟩
    · rw [hE]
      split_ifs <;> simp [PowerFields.setPower]
    · intro k hk
      rw [hE]
      split_ifs <;> simp [PowerFields.setPower, Function.update, hk]
    · intro hm hcm hle hfit
      rw [hE]
      have hcm' : (u.caster.powerType : Int) = effect.miscvaluea := by rw [hcm, hm]
      rw [if_pos ⟨hm, hcm'⟩]
      simp only [PowerFields.setPower, hcm, Function.update_same, Nat.mod_eq_of_lt hfit]
      by_cases hgt : u.caster.power power_type.Mana + min p c
          > u.caster.maxPower power_type.Mana
      · rw [if_pos hgt]
        have h1 : (u.caster.maxPower power_type.Mana + 2 ^ 32
            - u.caster.power power_type.Mana) % 2 ^ 32
            = u.caster.maxPower power_type.Mana - u.caster.power power_type.Mana := by
          have : u.caster.maxPower power_type.Mana + 2 ^ 32 - u.caster.power power_type.Mana
              = (u.caster.maxPower power_type.Mana - u.caster.power power_type.Mana)
                + 2 ^ 32 := by omega
          rw [this, Nat.add_mod_right, Nat.mod_eq_of_lt (by omega)]
        rw [h1]
        have h2 : u.caster.power power_type.Mana
            + (u.caster.maxPower power_type.Mana - u.caster.power power_type.Mana)
            = u.caster.maxPower power_type.Mana := by omega
        rw [h2, Nat.mod_eq_of_lt (by omega)]
        exact (min_eq_right (by omega)).symm
      · rw [if_neg hgt, Nat.mod_eq_of_lt hfit]
        exact (min_eq_left (by omega)).symm
    · intro hno
      rw [hE]
      have hnot : ¬ (effect.miscvaluea = power_type.Mana
          ∧ (u.caster.powerType : Int) = effect.miscvaluea) := by
        rintro ⟨hm, hcm⟩
        rcases hno with h | h
        · exact h hm
        · exact h (by rw [hcm, hm])
      rw [if_neg hnot]
  · intro hno
    unfold spellEffectDrainPower
    simp only [hself, hw, hres, hpu, Bool.false_eq_true, if_false, if_true, DrainUnits.unit]
    by_cases ht : (u.other.powerType : Int) = effect.miscvaluea
    · by_cases hp0 : p = 0
      · simp [ht, hp0]
      · have hc0 : c = 0 := by
          rcases hno with h | h | h
          · exact absurd ht h
          · exact absurd h hp0
          · exact h
        simp [ht, hp0, hc, hc0]
    · simp [ht]

theorem spellEffectDrainPower_drains_witness :
    (spellEffectDrainPower {} manaDrainEffect 0 otherDrain).other.power
        manaDrainEffect.miscvaluea = 20 - min 30 20
      ∧ (spellEffectDrainPower {} manaDrainEffect 0 otherDrain).caster.power power_type.Mana
          = min (100 + min 30 20) 200 := by
  have h := (spellEffectDrainPower_drains {} manaDrainEffect 0 otherDrain 30 20 rfl rfl rfl
    (by decide!) (by norm_num) rfl).1 ⟨by decide, by norm_num, by norm_num⟩
  exact ⟨h.1, h.2.2.1 rfl (by decide) (by decide) (by decide)⟩

/-! ### Melee damage -/

theorem roundHalfEven_le_of_le (q : ℚ) (m : ℤ) (h : q ≤ m) : roundHalfEven q ≤ m := by
  have hfl : (⌊q⌋ : ℚ) ≤ q := Int.floor_le q
  have hf : ⌊q⌋ ≤ m := by
    have : (⌊q⌋ : ℚ) ≤ (m : ℚ) := le_trans hfl h
    exact_mod_cast this
  have hstep : (⌊q⌋ : ℚ) < q → ⌊q⌋ + 1 ≤ m := by
    intro hlt
    have : (⌊q⌋ : ℚ) < (m : ℚ) := lt_of_lt_of_le hlt h
    have : ⌊q⌋ < m := by exact_mod_cast this
    omega
  unfold roundHalfEven
  simp only
  split_ifs with h1 h2 h3
  · exact hf
  · apply hstep
    linarith
  · exact hf
  · apply hstep
    linarith

theorem roundHalfEven_nonneg (q : ℚ) (h : 0 ≤ q) : 0 ≤ roundHalfEven q := by
  have hf : 0 ≤ ⌊q⌋ := Int.floor_nonneg.mpr h
  unfold roundHalfEven
  simp only
  split_ifs <;> omega

theorem fround_nonneg (p : Nat) (q : ℚ) (h : 0 ≤ q) : 0 ≤ fround p q := by
  unfold fround
  split_ifs with h0
  · exact le_refl 0
  · simp only
    have hpos : (0 : ℚ) < 2 ^ (ilog2 q - ((p : ℤ) - 1)) := by positivity
    have hq : 0 ≤ q / 2 ^ (ilog2 q - ((p : ℤ) - 1)) := div_nonneg h hpos.le
    have := roundHalfEven_nonneg _ hq
    have hc : (0 : ℚ) ≤ (roundHalfEven (q / 2 ^ (ilog2 q - ((p : ℤ) - 1))) : ℚ) := by
      exact_mod_cast this
    exact mul_nonneg hc hpos.le

theorem fround_le_intCast (p : Nat) (hp : 1 ≤ p) (x : ℚ) (n : ℤ) (hx : 0 ≤ x)
    (hxn : x ≤ n) (hn : n ≤ 2 ^ p) : fround p x ≤ n := by
  by_cases h0 : x = 0
  · rw [h0, fround_zero]
    rw [h0] at hxn
    exact hxn
  have hxpos : 0 < x := lt_of_le_of_ne hx (Ne.symm h0)
  obtain ⟨hl, hu⟩ := ilog2_spec x h0
  rw [abs_of_pos hxpos] at hl hu
  have hn' : (n : ℚ) ≤ (2 : ℚ) ^ (p : ℤ) := by
    rw [zpow_natCast]
    exact_mod_cast hn
  have h1 : (1 : ℚ) ≤ 2 := by norm_num
  have hup : ilog2 x ≤ p := by
    by_contra hgt
    have : (p : ℤ) + 1 ≤ ilog2 x := by omega
    have h3 := zpow_le_zpow_right₀ h1 this
    have h4 : (2 : ℚ) ^ (p : ℤ) < (2 : ℚ) ^ ((p : ℤ) + 1) := by
      rw [zpow_add_one₀ (by norm_num : (2 : ℚ) ≠ 0)]
      have : (0 : ℚ) < (2 : ℚ) ^ (p : ℤ) := by positivity
      linarith
    linarith
  by_cases hlt : ilog2 x ≤ (p : ℤ) - 1
  · obtain ⟨j, hj⟩ : ∃ j : Nat, ilog2 x - ((p : ℤ) - 1) = -(j : ℤ) :=
      ⟨((p : ℤ) - 1 - ilog2 x).toNat, by omega⟩
    unfold fround
    simp only [h0, if_false]
    rw [hj, zpow_neg, zpow_natCast]
    have hpos : (0 : ℚ) < 2 ^ j := by positivity
    have hle : x / (2 ^ j)⁻¹ ≤ ((n * 2 ^ j : ℤ) : ℚ) := by
      rw [div_inv_eq_mul]
      push_cast
      exact mul_le_mul_of_nonneg_right hxn hpos.le
    have hr := roundHalfEven_le_of_le _ _ hle
    have hr' : (roundHalfEven (x / (2 ^ j)⁻¹) : ℚ) ≤ ((n * 2 ^ j : ℤ) : ℚ) := by
      exact_mod_cast hr
    calc (roundHalfEven (x / (2 ^ j)⁻¹) : ℚ) * (2 ^ j)⁻¹
        ≤ ((n * 2 ^ j : ℤ) : ℚ) * (2 ^ j)⁻¹ :=
          mul_le_mul_of_nonneg_right hr' (inv_nonneg.mpr hpos.le)
      _ = n := by
          push_cast
          field_simp
  · have heq : ilog2 x = p := by omega
    rw [heq] at hl
    have hxe : x = (n : ℚ) := le_antisymm hxn (le_trans hn' hl)
    rw [hxe]
    have habs : |n| ≤ 2 ^ p := by
      have hn0 : (0 : ℚ) ≤ (n : ℚ) := by rw [← hxe]; exact hx
      have : 0 ≤ n := by exact_mod_cast hn0
      rw [abs_of_nonneg this]
      exact hn
    exact le_of_eq (fround_intCast p hp n habs)

theorem fround_half_intCast (p : Nat) (m : ℤ) (hm : |m| < 2 ^ p) :
    fround p ((m : ℚ) / 2) = (m : ℚ) / 2 := by
  by_cases hm0 : m = 0
  · simp [hm0, fround_zero]
  have hq : (m : ℚ) / 2 ≠ 0 := by
    have : (m : ℚ) ≠ 0 := by exact_mod_cast hm0
    positivity
  obtain ⟨hl, _⟩ := ilog2_spec ((m : ℚ) / 2) hq
  have habs : |(m : ℚ) / 2| < (2 : ℚ) ^ ((p : ℤ) - 1) := by
    rw [abs_div, abs_of_pos (by norm_num : (0 : ℚ) < 2), zpow_sub_one₀ (by norm_num),
      zpow_natCast, div_eq_mul_inv]
    have : (|m| : ℚ) < (2 : ℚ) ^ p := by exact_mod_cast hm
    have : |(m : ℚ)| < (2 : ℚ) ^ p := by simpa using this
    exact mul_lt_mul_of_pos_right this (by norm_num)
  have h1 : (1 : ℚ) ≤ 2 := by norm_num
  have hup : ilog2 ((m : ℚ) / 2) ≤ (p : ℤ) - 2 := by
    by_contra hgt
    have : (p : ℤ) - 1 ≤ ilog2 ((m : ℚ) / 2) := by omega
    have h3 := zpow_le_zpow_right₀ h1 this
    linarith
  obtain ⟨j, hj⟩ : ∃ j : Nat, ilog2 ((m : ℚ) / 2) - ((p : ℤ) - 1) = -((j : ℤ) + 1) :=
    ⟨((p : ℤ) - 2 - ilog2 ((m : ℚ) / 2)).toNat, by omega⟩
  apply fround_of_exact p ((m : ℚ) / 2) (m * 2 ^ j)
  rw [hj, zpow_neg]
  have : (2 : ℚ) ^ ((j : ℤ) + 1) = 2 ^ j * 2 := by
    rw [zpow_add_one₀ (by norm_num), zpow_natCast]
  rw [this]
  push_cast
  field_simp
  ring

theorem floatToUInt32_of_nonneg (q : ℚ) (h0 : 0 ≤ q) (h : ⌊q⌋ < 2 ^ 32) :
    floatToUInt32 q = some ⌊q⌋.toNat := by
  have hf : 0 ≤ ⌊q⌋ := Int.floor_nonneg.mpr h0
  have h' : ⌊q⌋ < 4294967296 := by simpa using h
  unfold floatToUInt32 truncToInt
  simp [h0, hf, h']

theorem floatToUInt32_natCast (n : Nat) (h : n < 2 ^ 32) :
    floatToUInt32 (n : ℚ) = some n := by
  have := floatToUInt32_of_nonneg (n : ℚ) (by positivity)
    (by rw [Int.floor_natCast]; exact_mod_cast h)
  simpa using this

/-- Counterexample for C26: a normal hit of 16777219 accumulated damage with a
resist of 100 percent and nothing absorbed.  The damage is converted to single
precision for the product and rounds up to 16777220, so the resisted amount is
one more than the total; the amount offered to absorption and the amount
passed to `dealDamage` wrap around to `2 ^ 32 - 1`. -/
theorem executeMeleeAttack_resist_wraps :
    executeMeleeAttackTarget .Normal .NormalSwing 16777219 100 (fun _ => 0)
      = some { totalDamage := 16777219, blocked := 0, crit := false,
               resisted := 16777220, offered := 4294967295, absorbed := 0,
               dealt := 4294967295 } := by
  decide!

theorem f32_natCast (n : Nat) (h : n ≤ 2 ^ 24) : f32 (n : ℚ) = (n : ℚ) := by
  have := f32_intCast (n : ℤ) (by rw [abs_of_nonneg (by positivity)]; exact_mod_cast h)
  simpa using this

theorem meleeOutcomeDamage_not_blocked (victimState : VictimState) (hitInfo : HitInfo)
    (D : Nat) (hvs : victimState ≠ .Blocks) (hD : D ≤ 2 ^ 22) :
    meleeOutcomeDamage victimState hitInfo D
      = some (if hitInfo = .CriticalHit then 2 * D
              else if hitInfo = .Crushing then 3 * D / 2 else D,
              0, decide (hitInfo = .CriticalHit)) := by
  have hD24 : D ≤ 2 ^ 24 := le_trans hD (by norm_num)
  unfold meleeOutcomeDamage
  simp only [hvs, if_false]
  cases hitInfo with
  | CriticalHit =>
    simp only [if_true]
    rw [f32_natCast D hD24]
    have h2 : ((D : ℚ) * 2) = ((2 * D : Nat) : ℚ) := by push_cast; ring
    rw [h2, f32_natCast (2 * D) (by norm_num at hD ⊢; omega),
      floatToUInt32_natCast (2 * D) (by norm_num at hD ⊢; omega)]
    simp
  | Crushing =>
    simp only [reduceCtorEq, if_false, if_true]
    rw [f32_natCast D hD24]
    have h3 : ((D : ℚ) * (3 / 2)) = (((3 * D : Nat) : ℤ) : ℚ) / 2 := by push_cast; ring
    have hlt : |((3 * D : Nat) : ℤ)| < 2 ^ 24 := by
      rw [abs_of_nonneg (by positivity)]
      norm_num at hD ⊢
      omega
    rw [h3, show f32 ((((3 * D : Nat) : ℤ) : ℚ) / 2) = (((3 * D : Nat) : ℤ) : ℚ) / 2 from
      fround_half_intCast 24 _ hlt]
    have hfloor : ⌊(((3 * D : Nat) : ℤ) : ℚ) / 2⌋ = ((3 * D / 2 : Nat) : ℤ) := by
      have := Rat.floor_intCast_div_natCast ((3 * D : Nat) : ℤ) 2
      rw [show ((2 : Nat) : ℚ) = 2 by norm_num] at this
      rw [this]
      norm_cast
    have hnn : (0 : ℚ) ≤ (((3 * D : Nat) : ℤ) : ℚ) / 2 := by positivity
    rw [floatToUInt32_of_nonneg _ hnn (by rw [hfloor]; norm_num at hD ⊢; omega), hfloor]
    simp
    omega
  | NormalSwing => simp
  | Miss => simp
  | Glancing => simp

/-- Claim C26, amended: for a target that is not blocked, with accumulated
damage `D` of at most `2 ^ 22`, a resist percentage between 0 and 100 and an
absorb operation that returns at most what it is given, the total is `2 * D`
on a critical hit, `3 * D / 2` rounded down on a crushing hit and `D`
otherwise; the resisted amount is the single-precision product of the total
and `resist / 100`, truncated, and is at most the total (0 for no resist, the
total for a resist of 100); the amount offered to absorption is the total less
the resisted amount, and the amount passed to `dealDamage` is the total less
the resisted and the absorbed amounts, at most the total, with no
wrap-around. -/
theorem executeMeleeAttack_not_blocked (victimState : VictimState) (hitInfo : HitInfo)
    (D : Nat) (resist : ℚ) (consumeAbsorb : Nat → Nat)
    (hvs : victimState ≠ .Blocks) (hD : D ≤ 2 ^ 22)
    (hr0 : 0 ≤ resist) (hr1 : resist ≤ 100) (habs : ∀ n, consumeAbsorb n ≤ n) :
    ∃ hit : MeleeHit,
      executeMeleeAttackTarget victimState hitInfo D resist consumeAbsorb = some hit
        ∧ hit.totalDamage
            = (if hitInfo = .CriticalHit then 2 * D
               else if hitInfo = .Crushing then 3 * D / 2 else D)
        ∧ (hit.resisted : ℤ)
            = truncToInt (f32 ((hit.totalDamage : ℚ) * f32 (resist / 100)))
        ∧ hit.resisted ≤ hit.totalDamage
        ∧ (resist = 0 → hit.resisted = 0)
        ∧ (resist = 100 → hit.resisted = hit.totalDamage)
        ∧ hit.offered = hit.totalDamage - hit.resisted
        ∧ hit.absorbed = consumeAbsorb hit.offered
        ∧ hit.dealt = hit.totalDamage - hit.resisted - hit.absorbed
        ∧ hit.dealt ≤ hit.totalDamage := by
  have hM := meleeOutcomeDamage_not_blocked victimState hitInfo D hvs hD
  generalize htot : (if hitInfo = .CriticalHit then 2 * D
      else if hitInfo = .Crushing then 3 * D / 2 else D) = total at hM ⊢
  have htot24 : total ≤ 2 ^ 24 := by
    rw [← htot]
    norm_num at hD ⊢
    split_ifs <;> omega
  have hft : f32 (total : ℚ) = (total : ℚ) := f32_natCast total htot24
  -- the resist factor lies between 0 and 1
  have hf0 : 0 ≤ f32 (resist / 100) := fround_nonneg 24 _ (by positivity)
  have hf1 : f32 (resist / 100) ≤ 1 := by
    have := fround_le_intCast 24 (by norm_num) (resist / 100) 1 (by positivity)
      (by rw [div_le_iff₀ (by norm_num)]; simpa using hr1) (by norm_num)
    simpa [f32] using this
  have hq0 : 0 ≤ (total : ℚ) * f32 (resist / 100) := mul_nonneg (by positivity) hf0
  have hq1 : (total : ℚ) * f32 (resist / 100) ≤ ((total : ℤ) : ℚ) := by
    have : (total : ℚ) * f32 (resist / 100) ≤ (total : ℚ) * 1 :=
      mul_le_mul_of_nonneg_left hf1 (by positivity)
    simpa using this
  have hg0 : 0 ≤ f32 ((total : ℚ) * f32 (resist / 100)) := fround_nonneg 24 _ hq0
  have hg1 : f32 ((total : ℚ) * f32 (resist / 100)) ≤ ((total : ℤ) : ℚ) :=
    fround_le_intCast 24 (by norm_num) _ (total : ℤ) hq0 hq1 (by exact_mod_cast htot24)
  have hfl0 : 0 ≤ ⌊f32 ((total : ℚ) * f32 (resist / 100))⌋ := Int.floor_nonneg.mpr hg0
  have hfl1 : ⌊f32 ((total : ℚ) * f32 (resist / 100))⌋ ≤ (total : ℤ) := by
    have : (⌊f32 ((total : ℚ) * f32 (resist / 100))⌋ : ℚ) ≤ ((total : ℤ) : ℚ) :=
      le_trans (Int.floor_le _) hg1
    exact_mod_cast this
  have hconv : floatToUInt32 (f32 (f32 (total : ℚ) * f32 (resist / 100)))
      = some ⌊f32 ((total : ℚ) * f32 (resist / 100))⌋.toNat := by
    rw [hft]
    exact floatToUInt32_of_nonneg _ hg0 (by norm_num at htot24 ⊢; omega)
  generalize hres : ⌊f32 ((total : ℚ) * f32 (resist / 100))⌋.toNat = resisted at hconv
  have hresZ : (resisted : ℤ) = ⌊f32 ((total : ℚ) * f32 (resist / 100))⌋ := by
    rw [← hres]
    exact Int.toNat_of_nonneg hfl0
  have hrle : resisted ≤ total := by
    have : (resisted : ℤ) ≤ (total : ℤ) := by rw [hresZ]; exact hfl1
    exact_mod_cast this
  have htot32 : total < 2 ^ 32 := lt_of_le_of_lt htot24 (by norm_num)
  have hoff : (total + 2 ^ 32 - resisted) % 2 ^ 32 = total - resisted := by
    have : total + 2 ^ 32 - resisted = (total - resisted) + 2 ^ 32 := by omega
    rw [this, Nat.add_mod_right, Nat.mod_eq_of_lt (by omega)]
  have hab := habs (total - resisted)
  have habm : consumeAbsorb (total - resisted) % 2 ^ 32 = consumeAbsorb (total - resisted) :=
    Nat.mod_eq_of_lt (by omega)
  have hdealt : (total + 2 ^ 32 - resisted + 2 ^ 32 - consumeAbsorb (total - resisted))
      % 2 ^ 32 = total - resisted - consumeAbsorb (total - resisted) := by
    have : total + 2 ^ 32 - resisted + 2 ^ 32 - consumeAbsorb (total - resisted)
        = (total - resisted - consumeAbsorb (total - resisted)) + 2 ^ 32 + 2 ^ 32 := by omega
    rw [this, Nat.add_mod_right, Nat.add_mod_right, Nat.mod_eq_of_lt (by omega)]
  refine ⟨{ totalDamage := total, blocked := 0, crit := decide (hitInfo = .CriticalHit),
            resisted := resisted, offered := total - resisted,
            absorbed := consumeAbsorb (total - resisted),
            dealt := total - resisted - consumeAbsorb (total - resisted) },
    ?_, rfl, ?_, hrle, ?_, ?_, rfl, rfl, rfl, ?_⟩
  · unfold executeMeleeAttackTarget
    rw [hM]
    simp only [hconv, hoff, habm, hdealt]
  · simp only
    rw [hresZ]
    unfold truncToInt
    rw [if_pos hg0]
  · intro hz
    have : (resisted : ℤ) = 0 := by
      rw [hresZ, hz]
      simp [f32_zero]
    exact_mod_cast this
  · intro hh
    have : (resisted : ℤ) = (total : ℤ) := by
      rw [hresZ, hh]
      have h1 : f32 ((100 : ℚ) / 100) = 1 := by
        rw [show (100 : ℚ) / 100 = 1 by norm_num]; exact f32_one
      rw [h1, mul_one, hft, Int.floor_natCast]
    exact_mod_cast this
  · simp only
    omega

theorem executeMeleeAttack_not_blocked_witness :
    ∃ hit : MeleeHit,
      executeMeleeAttackTarget .Normal .CriticalHit 100 50 (fun n => n / 4) = some hit
        ∧ hit.totalDamage = 200 ∧ hit.resisted ≤ hit.totalDamage
        ∧ hit.dealt = hit.totalDamage - hit.resisted - hit.absorbed := by
  obtain ⟨hit, h, ht, _, hr, _, _, _, _, hd, _⟩ :=
    executeMeleeAttack_not_blocked .Normal .CriticalHit 100 50 (fun n => n / 4)
      (by decide) (by norm_num) (by norm_num) (by norm_num) (fun n => Nat.div_le_self n 4)
  exact ⟨hit, h, by simpa using ht, hr, hd⟩

/-! ### The projectile leg -/

theorem legOf_onCastFinished (w : World) (s : SingleCastState) :
    legOf (onCastFinished w s) = legOf s
      ∨ ∃ t : Nat, 50 ≤ t
          ∧ legOf (onCastFinished w s)
              = ({ running := true, endTime := w.currentTime + t }, w.currentTime,
                  w.currentTime + t) := by
  cases hv : validateCastFinished w s with
  | some s' =>
    left
    rw [onCastFinished_of_aborted hv]
    rcases validateCastFinished_some hv with ⟨_, hs'⟩ | ⟨_, code, hs', _⟩
    · subst hs'; rfl
    · subst hs'; rw [abortCast_eq]; rfl
  | none =>
    cases hs : (s.spell.onNextSwing || s.spell.onNextSwing2) with
    | true =>
      left
      rw [onCastFinished_of_swing hv hs, finishCast_eq]
      rfl
    | false =>
      cases hp : (consumePower w { s with hasFinished := true }).1 with
      | false =>
        left
        rw [onCastFinished_of_unpaid_power hv hs hp, consumePower_eq]
        rfl
      | true =>
        cases hi : (consumeItem w (consumePower w { s with hasFinished := true }).2).1 with
        | false =>
          left
          rw [onCastFinished_of_unpaid_item hv hs hp hi, consumeItem_eq, consumePower_eq]
          rfl
        | true =>
          have hP : legOf (paidCast w s) = legOf s := by
            unfold paidCast
            rw [sendEndCast_eq, consumeItem_eq, consumePower_eq]
            rfl
          have hF : ∀ t, legOf (finishCast w t) = legOf t := fun t => by
            rw [finishCast_eq]; rfl
          have hA : ∀ t, legOf (applyAllEffects t) = legOf t := fun t => by
            rw [applyAllEffects_eq]; rfl
          rw [onCastFinished_of_paid hv hs hp hi]
          by_cases hsp : (paidCast w s).spell.speed > 0
          · cases hw : w.hasWorldInstance with
            | false =>
              left
              simp only [hsp, hw, if_true, Bool.false_eq_true, if_false]
              rw [hF, hP]
            | true =>
              cases hu : w.unitTarget with
              | none =>
                left
                simp only [hsp, if_true]
                rw [hF, hP]
              | some t =>
                simp only [hsp, if_true]
                by_cases hge : travelTimeMS t.distance (paidCast w s).spell.speed ≥ 50
                · right
                  refine ⟨travelTimeMS t.distance (paidCast w s).spell.speed, hge, ?_⟩
                  rw [if_pos hge, hF]
                  rfl
                · left
                  rw [if_neg hge, hF, hA, hP]
          · left
            simp only [hsp, if_false]
            rw [hF, hA, hP]

theorem legOf_attackSwingCallback (w : World) (s : SingleCastState) :
    legOf (attackSwingCallback w s).2 = legOf s := by
  have he : legOf (consumePower w s).2 = legOf s := by
    rw [consumePower_eq]; rfl
  have hc : ∀ t, legOf (consumeItem w t).2 = legOf t := fun t => by
    rw [consumeItem_eq]; rfl
  cases hp : (consumePower w s).1 with
  | false =>
    rw [attackSwingCallback_of_unpaid_power hp]
    exact he
  | true =>
    cases hi : (consumeItem w (consumePower w s).2).1 with
    | false =>
      rw [attackSwingCallback_of_unpaid_item hp hi]
      exact (hc _).trans he
    | true =>
      rw [attackSwingCallback_of_paid hp hi]
      simp only [applyAllEffects_eq, sendEndCast_eq]
      exact (hc _).trans he

theorem legOf_op_step (w : World) (op : CastOp) (s s' : SingleCastState)
    (hstep : op.step w s = some s') :
    legOf s' = legOf s
      ∨ ∃ t : Nat, 50 ≤ t
          ∧ legOf s' = ({ running := true, endTime := w.currentTime + t }, w.currentTime,
              w.currentTime + t) := by
  cases op with
  | activate =>
    simp only [CastOp.step, activate] at hstep
    by_cases hct : s.castTime > 0
    · cases hw : w.hasWorldInstance
      · simp [hct, hw] at hstep
      · left
        cases hu : w.unitTarget <;> simp [hct, hw, hu] at hstep <;> subst hstep <;> rfl
    · simp only [hct, if_false, Option.some.injEq] at hstep
      subst hstep
      exact legOf_onCastFinished w s
  | startCast request doReplacePreviousCast =>
    left
    simp only [CastOp.step, startCast, Option.some.injEq] at hstep
    subst hstep
    split_ifs <;> rfl
  | stopCast =>
    left
    simp only [CastOp.step, Option.some.injEq] at hstep
    subst hstep
    rw [stopCast_eq]
    rfl
  | onUserStartsMoving =>
    left
    simp only [CastOp.step, onUserStartsMoving, Option.some.injEq] at hstep
    subst hstep
    split_ifs
    · rw [stopCast_eq]; rfl
    · rfl
    · rfl
  | onTargetRemovedOrDead =>
    left
    simp only [CastOp.step, onTargetRemovedOrDead, Option.some.injEq] at hstep
    subst hstep
    rw [stopCast_eq]
    rfl
  | onCastFinished =>
    simp only [CastOp.step, Option.some.injEq] at hstep
    subst hstep
    exact legOf_onCastFinished w s
  | consumePower =>
    left
    simp only [CastOp.step, Option.some.injEq] at hstep
    subst hstep
    rw [consumePower_eq]
    rfl
  | consumeItem =>
    left
    simp only [CastOp.step, Option.some.injEq] at hstep
    subst hstep
    rw [consumeItem_eq]
    rfl
  | attackSwingCallback =>
    left
    simp only [CastOp.step, Option.some.injEq] at hstep
    subst hstep
    exact legOf_attackSwingCallback w s
  | applyAllEffects =>
    left
    simp only [CastOp.step, Option.some.injEq] at hstep
    subst hstep
    rw [applyAllEffects_eq]
    rfl

theorem projectileLegInv_of_legOf {s s' : SingleCastState} (h : legOf s' = legOf s)
    (hinv : projectileLegInv s) : projectileLegInv s' := by
  unfold legOf at h
  simp only [Prod.mk.injEq] at h
  obtain ⟨h1, h2, h3⟩ := h
  unfold projectileLegInv at hinv ⊢
  rw [h1, h2, h3]
  exact hinv

theorem projectileLegInv_of_new_leg {s' : SingleCastState} {now t : Nat} (ht : 50 ≤ t)
    (h : legOf s' = ({ running := true, endTime := now + t }, now, now + t)) :
    projectileLegInv s' := by
  unfold legOf at h
  simp only [Prod.mk.injEq] at h
  obtain ⟨h1, h2, h3⟩ := h
  unfold projectileLegInv
  intro _
  rw [h1, h2, h3]
  exact ⟨by omega, rfl⟩

theorem projectileLegInv_step (w : World) (e : CastEvent) (s s' : SingleCastState)
    (hinv : projectileLegInv s) (hstep : e.step w s = some s') : projectileLegInv s' := by
  cases e with
  | op o =>
    rcases legOf_op_step w o s s' hstep with h | ⟨t, ht, h⟩
    · exact projectileLegInv_of_legOf h hinv
    · exact projectileLegInv_of_new_leg ht h
  | targetMoved m =>
    simp only [CastEvent.step, onTargetMovedHandler] at hstep
    cases hr : s.impactCountdown.running with
    | false =>
      simp only [hr, Bool.false_eq_true, if_false, Option.some.injEq] at hstep
      subst hstep
      exact hinv
    | true =>
      simp only [hr, if_true] at hstep
      by_cases hz : s.projectileEnd = s.projectileStart
      · simp [hz] at hstep
      · simp only [hz, if_false] at hstep
        split_ifs at hstep with hge
        · simp only [Option.some.injEq] at hstep
          subst hstep
          exact projectileLegInv_of_new_leg hge rfl
        · simp only [Option.some.injEq] at hstep
          subst hstep
          unfold projectileLegInv
          intro hrun
          rw [applyAllEffects_eq] at hrun
          simp [Countdown.cancel] at hrun
  | impact =>
    simp only [CastEvent.step, onImpact, Option.some.injEq] at hstep
    subst hstep
    split_ifs with hr
    · unfold projectileLegInv
      intro hrun
      rw [applyAllEffects_eq] at hrun
      simp at hrun
    · exact hinv

theorem projectileLegInv_runEvents : ∀ (events : List (World × CastEvent))
    (s s' : SingleCastState), projectileLegInv s → runEvents events s = some s' →
    projectileLegInv s'
  | [], s, s', hinv, hrun => by
    simp only [runEvents, Option.some.injEq] at hrun
    subst hrun
    exact hinv
  | (w, e) :: rest, s, s', hinv, hrun => by
    simp only [runEvents] at hrun
    cases hstep : e.step w s with
    | none => simp [hstep] at hrun
    | some s1 =>
      simp only [hstep] at hrun
      exact projectileLegInv_runEvents rest s1 s' (projectileLegInv_step w e s s1 hinv hstep)
        hrun

/-- Claim C27: the projectile-leg invariant.  In every state reached from a
newly constructed cast by operations of the cast, moves of the target and
expiries of the impact countdown, a running impact countdown comes with a leg
of at least 50 ms (`projectileStart + 50 ≤ projectileEnd`) and ends at
`projectileEnd`.  Hence in such a state the handler of a target move does not
divide by a leg of length zero, and when the impact countdown is not running
the handler changes nothing: no projectile state, no effect.  Such states
exist: a projectile of speed 20 cast at time 1000 at a target 100 yards away
flies from 1000 to 6000, and a move of the target at time 2000 that leaves 40
yards to fly starts a leg from 2000 to 4000. -/
theorem projectile_leg_invariant :
    (∀ (w : World) (cast : SpellCast) (spell : SpellEntry) (target : SpellTargetMap)
        (basePoints : Int) (castTime : Nat) (isProc : Bool) (itemGuid : Nat)
        (events : List (World × CastEvent)) (s : SingleCastState),
        runEvents events
            (SingleCastState.create w cast spell target basePoints castTime isProc itemGuid)
          = some s →
        (s.impactCountdown.running = true →
          s.projectileStart + 50 ≤ s.projectileEnd
            ∧ s.impactCountdown.endTime = s.projectileEnd)
          ∧ ∀ (w' : World) (m : TargetMove), (onTargetMovedHandler w' m s).isSome = true)
      ∧ (∀ (w : World) (m : TargetMove) (s : SingleCastState),
          s.impactCountdown.running = false → onTargetMovedHandler w m s = some s)
      ∧ (runEvents [(farTargetWorld, .op .onCastFinished)]
            (SingleCastState.create farTargetWorld exampleCast.cast projectileCast.spell {}
              (-1) 0 false 0)).map legOf
          = some ({ running := true, endTime := 6000 }, 1000, 6000)
      ∧ (runEvents [(farTargetWorld, .op .onCastFinished),
              (laterWorld, .targetMoved exampleMove)]
            (SingleCastState.create farTargetWorld exampleCast.cast projectileCast.spell {}
              (-1) 0 false 0)).map legOf
          = some ({ running := true, endTime := 4000 }, 2000, 4000) := by
  refine ⟨?_, ?_, by decide!, by decide!⟩
  · intro w cast spell target basePoints castTime isProc itemGuid events s hrun
    have h0 : projectileLegInv
        (SingleCastState.create w cast spell target basePoints castTime isProc itemGuid) := by
      intro hr
      simp [SingleCastState.create] at hr
    have hinv := projectileLegInv_runEvents events _ s h0 hrun
    refine ⟨hinv, ?_⟩
    intro w' m
    unfold onTargetMovedHandler
    cases hr : s.impactCountdown.running with
    | false => simp
    | true =>
      have hne : s.projectileEnd ≠ s.projectileStart := by
        have := (hinv hr).1
        omega
      simp only [if_true, hne, if_false]
      split_ifs <;> rfl
  · intro w m s hr
    simp [onTargetMovedHandler, hr]

end WowPP
